import Mathlib

/-!
# FPS-Game: enemy AI state machine, collision pass and tick driver

A shallow embedding of `Enemy::onGameTick` (src/entity/enemy.cpp), of
`GameLoop::collisionCheck` and of the tick driver `gameUpdateTick` with `GameLoop::update`,
the levels, the menus and the input functions (src/gameloop.cpp, src/render/menu.cpp).

Conventions of the embedding:

* C++ `float` values are modelled by exact rationals (`ℚ`); rounding, infinities and
  NaN are outside the model.
* Objects are values; a method that mutates `this` becomes a function returning the new object.
* Functions that the sources call but do not define (the `Entity` base class, `Player`,
  `Projectile`, the geometry helpers, `glm`) are collected in the records `Ext` and
  `TickExt` and taken as parameters. `specExt` and `specTickExt` are one concrete choice,
  written from the specification document.
* Loops that erase while they scan are index loops by well-founded recursion; each comes
  with a theorem that states it as one pass over the list.
* Draw calls and calls into the audio engine are left out; counters and a trace of calls
  record what leaves no other mark on the state.
* A run of the program is a list of calls of `gameUpdateTick`, each with the clock value
  and the key and mouse state that the GLUT callbacks have left (`runTicks`).
-/

namespace FPSGame

/-! ## Value types -/

/-- The type `glm::vec3`, with exact rational components. -/
structure Vec3 where
  x : ℚ
  y : ℚ
  z : ℚ
deriving DecidableEq, Repr

namespace Vec3

/-- Component-wise difference, `a - b` on `glm::vec3`. -/
def sub (a b : Vec3) : Vec3 := ⟨a.x - b.x, a.y - b.y, a.z - b.z⟩

/-- Component-wise sum, `a + b` on `glm::vec3`. -/
def add (a b : Vec3) : Vec3 := ⟨a.x + b.x, a.y + b.y, a.z + b.z⟩

/-- Scaling by a scalar, `v * s` on `glm::vec3`. -/
def scale (v : Vec3) (s : ℚ) : Vec3 := ⟨v.x * s, v.y * s, v.z * s⟩

/-- The function `glm::dot`. -/
def dot (a b : Vec3) : ℚ := a.x * b.x + a.y * b.y + a.z * b.z

end Vec3

/-- The class `AABB`, an axis-aligned box given by its two corners
(constructor argument order as in `AABB(-100, 0, -100, 60, 50, 60)`). -/
structure AABB where
  xMin : ℚ
  yMin : ℚ
  zMin : ℚ
  xMax : ℚ
  yMax : ℚ
  zMax : ℚ
deriving DecidableEq, Repr

/-- The class `LineSegment3`: the two end points of a segment. -/
structure LineSegment3 where
  point1 : Vec3
  point2 : Vec3
deriving DecidableEq, Repr

/-- The class `Capsule3D`, built as `Capsule3D(seg.point1, seg.point2, radius)`. -/
structure Capsule3D where
  point1 : Vec3
  point2 : Vec3
  radius : ℚ
deriving DecidableEq, Repr

/-- The enumeration `AIState` of an enemy. -/
inductive AIState where
  | IDLE
  | ATTACK
  | LOSING_SIGHT
deriving DecidableEq, Repr

/-- The data of the base class `Entity` (declared in entity.h, which is not among the
sources): the camera position and rotation, the motion state, the health and the box. -/
structure Entity where
  position : Vec3
  rotation : Vec3
  velocity : Vec3
  acceleration : Vec3
  isAffectedByGravity : Bool
  maxMoveSpeed : ℚ
  health : Int
  maxHealth : Int
  boundingBox : AABB
deriving DecidableEq, Repr

/-- The class `Enemy`: an `Entity` with a behavioural state and a speed modifier. -/
structure Enemy extends Entity where
  state : AIState
  speedModifier : ℚ
deriving DecidableEq, Repr

/-- The class `Player`: an `Entity` with the fields the game loop reads and writes
(`score`, `ammoCount`, `healingItemCount`) and the invincibility timer. -/
structure Player extends Entity where
  score : Int
  ammoCount : Int
  healingItemCount : Int
  invincibilityTimer : ℚ
deriving DecidableEq, Repr

/-- The class `Projectile` (src/entity/projectile.h). The field `size` is declared `int`.
The field `previousPosition` stands for the start of the movement segment of the tick. -/
structure Projectile where
  size : Int
  entityID : Int
  position : Vec3
  previousPosition : Vec3
  velocity : Vec3
  acceleration : Vec3
  maxMoveSpeed : ℚ
  isAffectedByGravity : Bool
deriving DecidableEq, Repr

/-- The functions that the sources call and do not define. Every theorem that takes an
`Ext` holds for each implementation of them. -/
structure Ext where
  /-- The function `glm::inversesqrt`, used by `glm::normalize`. -/
  inversesqrt : ℚ → ℚ
  /-- The method `Entity::accel`. -/
  accel : Entity → Vec3 → Entity
  /-- The method `Entity::move`. -/
  move : Entity → Entity
  /-- The method `Entity::boundsCheckPosition`. -/
  boundsCheckPosition : Entity → AABB → Entity
  /-- The method `AABB::moveTo`. -/
  moveTo : AABB → ℚ → ℚ → ℚ → AABB
  /-- The method `Entity::getAABB`. -/
  getAABB : Entity → AABB
  /-- The function `intersects` on two boxes. -/
  intersects : AABB → AABB → Bool
  /-- The function `brokenIntersection` of a box and a capsule. -/
  brokenIntersection : AABB → Capsule3D → Bool
  /-- The method `Projectile::getMovement`. -/
  getMovement : Projectile → LineSegment3
  /-- The method `Player::isInvincible`. -/
  isInvincible : Player → Bool
  /-- The method `Player::hurtPlayer`. -/
  hurtPlayer : Player → Int → Player
  /-- The method `Entity::hurt`. -/
  hurt : Entity → Int → Entity
  /-- The method `Entity::isDead`. -/
  isDead : Entity → Bool
  /-- The method `AABB::center`. -/
  center : AABB → Vec3
  /-- The function `glm::length`. -/
  length : Vec3 → ℚ

/-! ## Enemy::onGameTick -/

/-- The function `glm::normalize`: `v * inversesqrt(dot(v, v))`. -/
def normalize (X : Ext) (v : Vec3) : Vec3 := v.scale (X.inversesqrt (v.dot v))

/-- The horizontal offset from the enemy to the player: lines 31-32 of enemy.cpp. -/
def toPlayerOf (self : Enemy) (player : Player) : Vec3 :=
  { Vec3.sub player.position self.position with y := 0 }

/-- The squared horizontal distance `distanceSquared`: line 33 of enemy.cpp. -/
def distanceSquaredOf (self : Enemy) (player : Player) : ℚ :=
  (toPlayerOf self player).dot (toPlayerOf self player)

/-- The state evaluation of `Enemy::onGameTick` (lines 36-67 of enemy.cpp): the
`if / else if` chain over the state at the start of the tick. -/
def evalState (X : Ext) (self : Enemy) (distanceSquared : ℚ) (toPlayer : Vec3)
    (deltaTime : ℚ) : Enemy :=
  if self.state = AIState.IDLE then
    if distanceSquared < 400 then { self with state := AIState.ATTACK } else self
  else if self.state = AIState.ATTACK then
    let self1 : Enemy :=
      if distanceSquared > 400 ∧ distanceSquared < 35 * 35 then
        { self with state := AIState.LOSING_SIGHT }
      else self
    let movementSpeed : ℚ := 3 * deltaTime
    { self1 with toEntity := X.accel self1.toEntity (toPlayer.scale movementSpeed) }
  else if self.state = AIState.LOSING_SIGHT then
    let self1 : Enemy :=
      if distanceSquared > 35 * 35 then { self with state := AIState.IDLE } else self
    let self2 : Enemy :=
      if distanceSquared < 400 then { self1 with state := AIState.ATTACK } else self1
    let movementSpeed : ℚ := 3 * deltaTime
    { self2 with toEntity := X.accel self2.toEntity (toPlayer.scale movementSpeed) }
  else self

/-- The end of `Enemy::onGameTick` (lines 69-73 of enemy.cpp): `move`, then
`boundsCheckPosition`, then the box is moved to the resulting position. -/
def updatePosition (X : Ext) (self : Enemy) (worldBounds : AABB) : Enemy :=
  let moved : Entity := X.move self.toEntity
  let checked : Entity := X.boundsCheckPosition moved worldBounds
  let pos : Vec3 := checked.position
  { self with
    toEntity := { checked with boundingBox := X.moveTo checked.boundingBox pos.x pos.y pos.z } }

/-- The method `Enemy::onGameTick(player, deltaTime, worldBounds)`. -/
def Enemy.onGameTick (X : Ext) (self : Enemy) (player : Player) (deltaTime : ℚ)
    (worldBounds : AABB) : Enemy :=
  let toPlayer : Vec3 := toPlayerOf self player
  let distanceSquared : ℚ := toPlayer.dot toPlayer
  let toPlayer : Vec3 := normalize X toPlayer
  updatePosition X (evalState X self distanceSquared toPlayer deltaTime) worldBounds

/-- The calls of `accel` made by the state evaluation of `Enemy::onGameTick` (lines 36-67 of
enemy.cpp), in the order of the calls: the same `if / else if` chain as `evalState`,
recording the argument of each call in place of the enemy. -/
def evalStateAccelCalls (self : Enemy) (distanceSquared : ℚ) (toPlayer : Vec3)
    (deltaTime : ℚ) : List Vec3 :=
  if self.state = AIState.IDLE then
    if distanceSquared < 400 then [] else []
  else if self.state = AIState.ATTACK then
    let movementSpeed : ℚ := 3 * deltaTime
    [toPlayer.scale movementSpeed]
  else if self.state = AIState.LOSING_SIGHT then
    let movementSpeed : ℚ := 3 * deltaTime
    [toPlayer.scale movementSpeed]
  else []

/-- The calls of `accel` made by one call of `Enemy::onGameTick(player, deltaTime,
worldBounds)`, in order, each given by its argument. -/
def Enemy.accelCalls (X : Ext) (self : Enemy) (player : Player) (deltaTime : ℚ) : List Vec3 :=
  let toPlayer : Vec3 := toPlayerOf self player
  let distanceSquared : ℚ := toPlayer.dot toPlayer
  let toPlayer : Vec3 := normalize X toPlayer
  evalStateAccelCalls self distanceSquared toPlayer deltaTime

/-- The division inside `glm::normalize(v)`: the library computes
`v * inversesqrt(dot(v, v))` with `inversesqrt(x) = 1 / sqrt(x)`, and the divisor
`sqrt(dot(v, v))` is zero exactly when `dot(v, v)` is zero. The value is true when the call
divides by zero. -/
def normalizeDividesByZero (v : Vec3) : Bool := decide (v.dot v = 0)

/-! ## GameLoop::collisionCheck -/

/-- The part of the session state that `GameLoop::collisionCheck` reads and writes:
`player`, `activeLevel->enemies` and `projectiles`. Three counters record calls that leave
no other mark on this state: `hurtStarts` counts the calls of `hurtInstance->start()`,
`randomDraws` the calls of `getRandomFloat()`, and `closestPicks` the executions of the
branch guarded by `hits.size() > 1 && false`. -/
structure GameLoop where
  player : Player
  enemies : List Enemy
  projectiles : List Projectile
  hurtStarts : Nat
  randomDraws : Nat
  closestPicks : Nat
deriving DecidableEq, Repr

/-- One iteration of the player-enemy loop (lines 619-629 of gameloop.cpp). -/
def contactOne (X : Ext) (g : GameLoop) (enemy : Enemy) : GameLoop :=
  if X.intersects (X.getAABB enemy.toEntity) (X.getAABB g.player.toEntity) = true then
    if ¬ (X.isInvincible g.player = true) then
      { g with player := X.hurtPlayer g.player 20, hurtStarts := g.hurtStarts + 1 }
    else g
  else g

/-- The player-enemy loop (lines 617-629 of gameloop.cpp): the enemies are visited in
collection order and the collection itself is not changed. -/
def contactStep (X : Ext) (g : GameLoop) : GameLoop :=
  g.enemies.foldl (contactOne X) g

/-- The capsule of a projectile (lines 638-640 of gameloop.cpp): the movement segment and
the radius read from the `int` field `size`. -/
def capsuleOf (X : Ext) (p : Projectile) : Capsule3D :=
  let seg : LineSegment3 := X.getMovement p
  let radius : ℚ := (p.size : ℚ)
  ⟨seg.point1, seg.point2, radius⟩

/-- The inner loop over the enemies (lines 635-646 of gameloop.cpp), from index `i` on:
the indices of the enemies whose box the capsule hits, in collection order. An index
stands for the shared pointer that the source stores in `hits`. -/
def hitsFrom (X : Ext) (c : Capsule3D) : Nat → List Enemy → List Nat
  | _, [] => []
  | i, e :: es =>
    if X.brokenIntersection e.boundingBox c = true then i :: hitsFrom X c (i + 1) es
    else hitsFrom X c (i + 1) es

/-- The vector `hits` built for one projectile. -/
def hitsOf (X : Ext) (enemies : List Enemy) (p : Projectile) : List Nat :=
  hitsFrom X (capsuleOf X p) 0 enemies

/-- The call `hurt(20)` on the enemy with index `i`. -/
def hurtAt (X : Ext) (i : Nat) (enemies : List Enemy) : List Enemy :=
  List.modify (fun e => { e with toEntity := X.hurt e.toEntity 20 }) i enemies

/-- The search loop of the branch guarded by `hits.size() > 1 && false` (lines 656-668 of
gameloop.cpp): `closest` becomes the last `i` below `hits.size()` for which the distance
from the player box centre to the centre of the box of `enemies[i]` is below 10000. -/
def closestOf (X : Ext) (player : Player) (enemies : List Enemy) (hitCount : Nat) : Nat :=
  (List.range hitCount).foldl
    (fun closest i =>
      let closestLength : ℚ := 10000
      let head : Vec3 := X.center player.boundingBox
      match enemies.get? i with
      | some e =>
        let tail : Vec3 := X.center e.boundingBox
        let result : Vec3 := Vec3.sub head tail
        if X.length result < closestLength then i else closest
      | none => closest)
    0

/-- The projectile-enemy loop (lines 631-675 of gameloop.cpp) from index `j` on. After an
`erase` the source decrements `j` and the loop header increments it again, so the next
iteration runs with the same `j`. -/
def projectileLoop (X : Ext) (j : Nat) (g : GameLoop) : GameLoop :=
  if hj : j < g.projectiles.length then
    let hits : List Nat := hitsOf X g.enemies (g.projectiles[j])
    if hits.length = 1 then
      projectileLoop X j
        { g with
          enemies := hurtAt X (hits.headD 0) g.enemies
          projectiles := g.projectiles.eraseIdx j }
    else if (decide (hits.length > 1) && false) = true then
      projectileLoop X j
        { g with
          enemies := hurtAt X (hits.getD (closestOf X g.player g.enemies hits.length) 0) g.enemies
          projectiles := g.projectiles.eraseIdx j
          closestPicks := g.closestPicks + 1 }
    else projectileLoop X (j + 1) g
  else g
termination_by g.projectiles.length - j
decreasing_by
  all_goals simp_wf
  · rw [List.length_eraseIdx_of_lt hj]; omega
  · rw [List.length_eraseIdx_of_lt hj]; omega
  · omega

/-- The projectile-enemy step of `collisionCheck`: the loop from `j = 0`. -/
def projectileStep (X : Ext) (g : GameLoop) : GameLoop := projectileLoop X 0 g

/-- The projectiles that the projectile-enemy loop hit-tests from index `j` on, in the
order of the tests: the same loop as `projectileLoop`, recording the projectile for which
the body builds `hits` (lines 634-646 of gameloop.cpp) in place of the session. -/
def projectileLoopTested (X : Ext) (j : Nat) (g : GameLoop) : List Projectile :=
  if hj : j < g.projectiles.length then
    let hits : List Nat := hitsOf X g.enemies (g.projectiles[j])
    g.projectiles[j] ::
      (if hits.length = 1 then
        projectileLoopTested X j
          { g with
            enemies := hurtAt X (hits.headD 0) g.enemies
            projectiles := g.projectiles.eraseIdx j }
      else if (decide (hits.length > 1) && false) = true then
        projectileLoopTested X j
          { g with
            enemies :=
              hurtAt X (hits.getD (closestOf X g.player g.enemies hits.length) 0) g.enemies
            projectiles := g.projectiles.eraseIdx j
            closestPicks := g.closestPicks + 1 }
      else projectileLoopTested X (j + 1) g)
  else []
termination_by g.projectiles.length - j
decreasing_by
  all_goals simp_wf
  · rw [List.length_eraseIdx_of_lt hj]; omega
  · rw [List.length_eraseIdx_of_lt hj]; omega
  · omega

/-- The death sweep (lines 677-695 of gameloop.cpp) from index `i` on; `rand n` is the
value of the `n`-th call of `getRandomFloat()`. -/
def deathLoop (X : Ext) (rand : Nat → ℚ) (i : Nat) (g : GameLoop) : GameLoop :=
  if hi : i < g.enemies.length then
    if X.isDead g.enemies[i].toEntity = true then
      let chance : ℚ := 5 / 100
      let f : ℚ := rand g.randomDraws
      let player1 : Player :=
        { g.player with score := g.player.score + 1, ammoCount := g.player.ammoCount + 5 }
      let player2 : Player :=
        if f < chance then { player1 with healingItemCount := player1.healingItemCount + 1 }
        else player1
      deathLoop X rand i
        { g with
          player := player2
          randomDraws := g.randomDraws + 1
          enemies := g.enemies.eraseIdx i }
    else deathLoop X rand (i + 1) g
  else g
termination_by g.enemies.length - i
decreasing_by
  all_goals simp_wf
  · rw [List.length_eraseIdx_of_lt hi]; omega
  · omega

/-- The death sweep of `collisionCheck`: the loop from `i = 0`. -/
def deathSweep (X : Ext) (rand : Nat → ℚ) (g : GameLoop) : GameLoop := deathLoop X rand 0 g

/-- The method `GameLoop::collisionCheck`: contact step, projectile step, death sweep. -/
def collisionCheck (X : Ext) (rand : Nat → ℚ) (g : GameLoop) : GameLoop :=
  deathSweep X rand (projectileStep X (contactStep X g))

/-! ## The tick driver: gameUpdateTick, GameLoop::update, the levels -/

/-- The functions called by the level code and by the tick driver that the sources do not
define. Every theorem that takes a `TickExt` holds for each implementation of them. -/
structure TickExt where
  /-- The method `Projectile::onGameTick`. -/
  projectileOnGameTick : Projectile → ℚ → Projectile
  /-- The `Enemy` object as left by the base-class constructor `Entity(model, camera)` and
  the member initialisers of enemy.h, for a camera at the given position and rotation. -/
  newEnemyBase : Vec3 → Vec3 → Enemy
  /-- The constructor `AABB(glm::vec3, glm::vec3)`. -/
  aabbOf : Vec3 → Vec3 → AABB
  /-- The method `Player::update`. -/
  playerUpdate : Player → AABB → ℚ → Player
  /-- The method `Player::reset`. -/
  playerReset : Player → Player
  /-- The value of the `n`-th call of `getRandomInt` made by the spawn code, with the given
  bound. -/
  randomInt : Nat → Int → Int
  /-- The box of `zombieModel`, or `none` for a null model pointer. -/
  zombieModel : Option AABB
  /-- The box of `zombieModel2`, or `none` for a null model pointer. -/
  zombieModel2 : Option AABB
  /-- The box of `gunModel`. -/
  gunbox : AABB
  /-- The function `sin`. -/
  sin : ℚ → ℚ
  /-- The function `cos`. -/
  cos : ℚ → ℚ
  /-- The method `Camera::rotate`, on the camera of the player. -/
  cameraRotate : Entity → Vec3 → Entity
  /-- The constructor `Projectile(Camera camera, float size)`, for a camera at the given
  position and rotation. -/
  newProjectile : Vec3 → Vec3 → ℚ → Projectile
  /-- The method `Projectile::accel`. -/
  projectileAccel : Projectile → Vec3 → Projectile
  /-- The method `Button::inBounds` of the button at `(x, y)` with the given width and
  height, for the mouse position. -/
  inBounds : Int → Int → Int → Int → Int → Int → Bool

/-- The projectile loop of `gameUpdateTick` (lines 1003-1017 of gameloop.cpp) from index
`i` on: `onGameTick` on the projectile at `i`, which is then erased when its `y` is below
`-size` (the loop stays at `i`) and kept, as changed by the tick, otherwise (the loop goes
to `i + 1`). `getY()` is the `y` of the position. -/
def floorLoop (T : TickExt) (deltaTime : ℚ) (i : Nat) (ps : List Projectile) :
    List Projectile :=
  if hi : i < ps.length then
    let p : Projectile := T.projectileOnGameTick ps[i] deltaTime
    if p.position.y < ((-p.size : Int) : ℚ) then
      floorLoop T deltaTime i (ps.eraseIdx i)
    else floorLoop T deltaTime (i + 1) (ps.set i p)
  else ps
termination_by ps.length - i
decreasing_by
  all_goals simp_wf
  · rw [List.length_eraseIdx_of_lt hi]; omega
  · omega

/-- The projectiles on which the projectile loop of `gameUpdateTick` calls `onGameTick`,
from index `i` on, in the order of the calls: the same loop as `floorLoop`, recording the
receiver of each call in place of the collection. -/
def floorLoopTicked (T : TickExt) (deltaTime : ℚ) (i : Nat) (ps : List Projectile) :
    List Projectile :=
  if hi : i < ps.length then
    let p : Projectile := T.projectileOnGameTick ps[i] deltaTime
    ps[i] ::
      (if p.position.y < ((-p.size : Int) : ℚ) then
        floorLoopTicked T deltaTime i (ps.eraseIdx i)
      else floorLoopTicked T deltaTime (i + 1) (ps.set i p))
  else []
termination_by ps.length - i
decreasing_by
  all_goals simp_wf
  · rw [List.length_eraseIdx_of_lt hi]; omega
  · omega

/-- The dynamic type of a level object: `ForestLevel` or `DesertLevel`. -/
inductive LevelKind where
  | forest
  | desert
deriving DecidableEq, Repr

/-- The class `Level` with the data that the simulation reads: the enemies and the world
bounds. The terrain renderer, the grass and the trees are render data and are left out. -/
structure Level where
  kind : LevelKind
  enemies : List Enemy
  worldBounds : AABB
deriving DecidableEq, Repr

/-- The constructors `ForestLevel()` and `DesertLevel()`, through `Level::Level()` (line
702 of gameloop.cpp): `worldBounds(AABB(0, 0, 0, 0, 0, 0))` and an empty `enemies`. -/
def Level.new (kind : LevelKind) : Level := ⟨kind, [], ⟨0, 0, 0, 0, 0, 0⟩⟩

/-- The button states of `MouseManager`. -/
inductive MouseState where
  | MOUSE_RELEASED
  | MOUSE_JUST_PRESSED
  | MOUSE_PRESSED
deriving DecidableEq, Repr

/-- The class `MouseManager`. -/
structure MouseManager where
  leftMouseButtonState : MouseState
  middleMouseButtonState : MouseState
  rightMouseButtonState : MouseState
  x : Int
  y : Int
  grabbed : Bool
  relativeGrabDirection : Vec3
deriving DecidableEq, Repr

/-- The class `KeyManager`: the characters whose entry in `keystates` is `PRESSED`. -/
structure KeyManager where
  pressed : List Char
deriving DecidableEq, Repr

/-- The method `KeyManager::isKeyDown`: `getKeyState(key) == PRESSED`. -/
def KeyManager.isKeyDown (k : KeyManager) (key : Char) : Bool := decide (key ∈ k.pressed)

/-- The dynamic type of a menu object. -/
inductive MenuKind where
  | MainMenu
  | HelpMenu
  | OptionsMenu
  | GameOverMenu
deriving DecidableEq, Repr

/-- The class `Menu` (src/render/menu.cpp): the dynamic type and the flag `shouldPopMenu`,
which the constructor `Menu()` sets to false. -/
structure Menu where
  kind : MenuKind
  shouldPopMenu : Bool
deriving DecidableEq, Repr

/-- The calls recorded in the trace of a session. `projectileOnGameTick p` is a call of
`Projectile::onGameTick` on the projectile whose value before the call is `p`;
`enemyOnGameTick i` is the call of `Enemy::onGameTick` on `enemies[i]`. -/
inductive TickEvent where
  | enemyOnGameTick (i : Nat)
  | collisionCheck
  | projectileOnGameTick (p : Projectile)
deriving DecidableEq, Repr

/-- The part of the global `gameLoopObject` that the tick reads and writes, with the two
function-local statics `healLock` and `leftClickLock`. `menus` has the top of the stack
first. The counters are those of `GameLoop` above, with `randomIntDraws` for the calls of
`getRandomInt` by the spawn code and `eventStarts` for the calls of
`eventInstance->start()`; `trace` records calls in the order in which they happen. -/
structure Session where
  player : Player
  projectiles : List Projectile
  activeLevel : Option Level
  menus : List Menu
  keyManager : KeyManager
  mouseManager : MouseManager
  deltaTime : ℚ
  previousFrameTime : Nat
  healLock : Bool
  leftClickLock : Bool
  hurtStarts : Nat
  eventStarts : Nat
  randomDraws : Nat
  randomIntDraws : Nat
  closestPicks : Nat
  trace : List TickEvent
deriving DecidableEq, Repr

/-- The constructor `Enemy::Enemy(model, camera)` (lines 11-21 of enemy.cpp): after the
base-class constructor the box is the box of the model, or the box built from the camera
position and `glm::vec3(2.5, 5, 2.5)` for a null model. -/
def Enemy.new (T : TickExt) (model : Option AABB) (position rotation : Vec3) : Enemy :=
  let e : Enemy := T.newEnemyBase position rotation
  match model with
  | some box => { e with toEntity := { e.toEntity with boundingBox := box } }
  | none =>
    { e with toEntity := { e.toEntity with boundingBox := T.aabbOf position ⟨5 / 2, 5, 5 / 2⟩ } }

/-- The methods `ForestLevel::createLevel` and `DesertLevel::createLevel` (lines 714-757
and 854-863 of gameloop.cpp): the world bounds are set and, at the end, the projectiles of
the session are cleared and the player is reset. The terrain, grass and trees that the
methods also build are render data and are left out. -/
def createLevel (T : TickExt) (lvl : Level) (s : Session) : Level × Session :=
  ({ lvl with worldBounds := ⟨-100, 0, -100, 60, 50, 60⟩ },
   { s with projectiles := [], player := T.playerReset s.player })

/-- The events `desertEvent` and `forestEvent` of the main menu (lines 481-498 of
gameloop.cpp): when there is no active level, a level of the kind is constructed, made the
active level, and `createLevel` is called on it. -/
def startLevel (T : TickExt) (kind : LevelKind) (s : Session) : Session :=
  match s.activeLevel with
  | some _ => s
  | none =>
    let made : Level × Session := createLevel T (Level.new kind) s
    { made.2 with activeLevel := some made.1 }

/-- The methods `ForestLevel::update` and `DesertLevel::update` (lines 759-781 and 865-884
of gameloop.cpp) on the active level `lvl`: every enemy is ticked, then one float is drawn
and, when it is below the spawn chance, an enemy is constructed at a random position, given
the box `AABB(0, 0, 0, 1, 1, 1)` and appended. The two calls of `getRandomInt(80)` are
taken in the order x, z. -/
def Level.update (X : Ext) (T : TickExt) (rand : Nat → ℚ) (lvl : Level) (s : Session)
    (deltaTime : ℚ) : Session :=
  let enemies1 : List Enemy :=
    lvl.enemies.map (fun e => e.onGameTick X s.player deltaTime lvl.worldBounds)
  let ticks : List TickEvent := (List.range lvl.enemies.length).map TickEvent.enemyOnGameTick
  let chance : ℚ :=
    (match lvl.kind with
      | LevelKind.forest => 30 / 100
      | LevelKind.desert => 225 / 1000) * deltaTime
  let f : ℚ := rand s.randomDraws
  if f < chance then
    let x : ℚ := ((T.randomInt s.randomIntDraws 80 - 60 : Int) : ℚ)
    let z : ℚ := ((T.randomInt (s.randomIntDraws + 1) 80 - 60 : Int) : ℚ)
    let model : Option AABB :=
      match lvl.kind with
      | LevelKind.forest => T.zombieModel
      | LevelKind.desert => T.zombieModel2
    let enemy0 : Enemy := Enemy.new T model ⟨x, 0, z⟩ ⟨0, 0, 0⟩
    let enemy1 : Enemy :=
      { enemy0 with toEntity := { enemy0.toEntity with boundingBox := ⟨0, 0, 0, 1, 1, 1⟩ } }
    let enemy2 : Enemy :=
      match lvl.kind with
      | LevelKind.forest => { enemy1 with speedModifier := enemy1.speedModifier * (5 / 4) }
      | LevelKind.desert => enemy1
    { s with
      activeLevel := some { lvl with enemies := enemies1 ++ [enemy2] }
      randomDraws := s.randomDraws + 1
      randomIntDraws := s.randomIntDraws + 2
      trace := s.trace ++ ticks }
  else
    { s with
      activeLevel := some { lvl with enemies := enemies1 }
      randomDraws := s.randomDraws + 1
      trace := s.trace ++ ticks }

/-- The call `collisionCheck()` inside `GameLoop::update`: `collisionCheck` on the player,
the enemies of the active level and the projectiles of the session. -/
def Session.collisionCheck (X : Ext) (rand : Nat → ℚ) (s : Session) : Session :=
  match s.activeLevel with
  | none => s
  | some lvl =>
    let g : GameLoop :=
      FPSGame.collisionCheck X rand
        { player := s.player, enemies := lvl.enemies, projectiles := s.projectiles,
          hurtStarts := s.hurtStarts, randomDraws := s.randomDraws,
          closestPicks := s.closestPicks }
    { s with
      player := g.player
      projectiles := g.projectiles
      activeLevel := some { lvl with enemies := g.enemies }
      hurtStarts := g.hurtStarts
      randomDraws := g.randomDraws
      closestPicks := g.closestPicks
      trace := s.trace ++ [TickEvent.collisionCheck] }

/-- The method `GameLoop::update` (lines 548-607 of gameloop.cpp), `currentTime` being the
value of `getCurrentTimeMillis()`. The subtraction is the one of `unsigned long long`. The
calls into the audio engine are left out. -/
def update (X : Ext) (T : TickExt) (rand : Nat → ℚ) (currentTime : Nat) (s : Session) :
    Session :=
  let deltaTimeMillis : Nat :=
    (currentTime % 2 ^ 64 + 2 ^ 64 - s.previousFrameTime % 2 ^ 64) % 2 ^ 64
  let s1 : Session :=
    { s with deltaTime := (deltaTimeMillis : ℚ) / 1000, previousFrameTime := currentTime }
  let s2 : Session :=
    if s1.menus.length > 0 then { s1 with mouseManager := { s1.mouseManager with grabbed := false } }
    else { s1 with mouseManager := { s1.mouseManager with grabbed := true } }
  let s3 : Session :=
    if X.isDead s2.player.toEntity = true ∧ s2.activeLevel.isSome = true then
      { s2 with
        activeLevel := none
        menus := ⟨MenuKind.GameOverMenu, false⟩ :: ⟨MenuKind.MainMenu, false⟩ :: s2.menus }
    else s2
  let s4 : Session :=
    if s3.activeLevel.isSome = true ∧ s3.menus.length > 0 then { s3 with menus := [] } else s3
  match s4.activeLevel with
  | some lvl =>
    let s5 : Session := Level.update X T rand lvl s4 s4.deltaTime
    let s6 : Session := { s5 with player := T.playerUpdate s5.player lvl.worldBounds s5.deltaTime }
    Session.collisionCheck X rand s6
  | none => s4

/-- The method `MouseManager::update` (lines 1581-1595 of gameloop.cpp). -/
def MouseManager.update (m : MouseManager) : MouseManager :=
  let m1 : MouseManager :=
    if m.leftMouseButtonState = MouseState.MOUSE_JUST_PRESSED then
      { m with leftMouseButtonState := MouseState.MOUSE_PRESSED }
    else m
  let m2 : MouseManager :=
    if m1.middleMouseButtonState = MouseState.MOUSE_JUST_PRESSED then
      { m1 with middleMouseButtonState := MouseState.MOUSE_PRESSED }
    else m1
  if m2.rightMouseButtonState = MouseState.MOUSE_JUST_PRESSED then
    { m2 with rightMouseButtonState := MouseState.MOUSE_PRESSED }
  else m2

/-- The method `GameLoop::endOfTick`. -/
def endOfTick (s : Session) : Session :=
  { s with mouseManager := s.mouseManager.update }

/-- The methods `MainMenu::update`, `OptionsMenu::update`, `HelpMenu::update` and
`GameOverMenu::update` (src/render/menu.cpp) on the menu `m` at the top of the stack, with
the four events of the main menu (lines 480-514 of gameloop.cpp). The result is the session
after the call and the value of `m->shouldPopThisMenu()` after it. -/
def Menu.update (T : TickExt) (m : Menu) (s : Session) : Session × Bool :=
  let mx : Int := s.mouseManager.x
  let my : Int := s.mouseManager.y
  let justPressed : Bool :=
    decide (s.mouseManager.leftMouseButtonState = MouseState.MOUSE_JUST_PRESSED)
  match m.kind with
  | MenuKind.MainMenu =>
    let s1 : Session :=
      if (T.inBounds 10 10 256 32 mx my && justPressed) = true then
        startLevel T LevelKind.desert s
      else s
    let s2 : Session :=
      if (T.inBounds 10 50 256 32 mx my && justPressed) = true then
        startLevel T LevelKind.forest s1
      else s1
    let s3 : Session :=
      if (T.inBounds 10 90 256 32 mx my && justPressed) = true then
        { s2 with menus := ⟨MenuKind.HelpMenu, false⟩ :: s2.menus }
      else s2
    let s4 : Session :=
      if (T.inBounds 10 130 256 32 mx my && justPressed) = true then
        { s3 with menus := ⟨MenuKind.OptionsMenu, false⟩ :: s3.menus }
      else s3
    (s4, m.shouldPopMenu)
  | _ =>
    if (T.inBounds 10 10 256 32 mx my && justPressed) = true then
      ({ s with menus := { m with shouldPopMenu := true } :: s.menus.tail }, true)
    else (s, m.shouldPopMenu)

/-- The call `player.accel(v)` of the input code. -/
def Player.accel (X : Ext) (p : Player) (v : Vec3) : Player :=
  { p with toEntity := X.accel p.toEntity v }

/-- The function `processKeyboardInput` (lines 1071-1194 of gameloop.cpp). The result is
`none` when the function calls `exit(0)`. -/
def processKeyboardInput (X : Ext) (T : TickExt) (s : Session) : Option Session :=
  let deltaTime : ℚ := s.deltaTime
  let manager : KeyManager := s.keyManager
  if manager.isKeyDown '=' = true then none
  else
    let p1 : Player :=
      if manager.isKeyDown 'w' = true then
        s.player.accel X
          ((((⟨T.sin s.player.rotation.y, 0, -T.cos s.player.rotation.y⟩ : Vec3).scale
            deltaTime).scale (19 / 5)).scale (-1))
      else s.player
    let p2 : Player :=
      if manager.isKeyDown 's' = true then
        p1.accel X
          ((((⟨-T.sin p1.rotation.y, 0, T.cos p1.rotation.y⟩ : Vec3).scale
            deltaTime).scale (13 / 5)).scale (-1))
      else p1
    let p3 : Player :=
      if manager.isKeyDown 'a' = true then
        p2.accel X
          ((((⟨-T.cos p2.rotation.y, 0, -T.sin p2.rotation.y⟩ : Vec3).scale
            deltaTime).scale (19 / 5)).scale (-1))
      else p2
    let p4 : Player :=
      if manager.isKeyDown 'd' = true then
        p3.accel X
          ((((⟨T.cos p3.rotation.y, 0, T.sin p3.rotation.y⟩ : Vec3).scale
            deltaTime).scale (19 / 5)).scale (-1))
      else p3
    let p5 : Player :=
      if manager.isKeyDown 'h' = true ∧ s.healLock = false then
        if p4.health < p4.maxHealth ∧ p4.healingItemCount > 0 then
          { p4 with
            toEntity := { p4.toEntity with health := p4.maxHealth }
            healingItemCount := p4.healingItemCount - 1 }
        else p4
      else p4
    let healLock1 : Bool := if manager.isKeyDown 'h' = false then false else s.healLock
    let p6 : Player :=
      if manager.isKeyDown '-' = true then { p5 with toEntity := { p5.toEntity with health := 0 } }
      else p5
    some { s with player := p6, healLock := healLock1 }

/-- The function `processMouseInput` (lines 1196-1259 of gameloop.cpp). -/
def processMouseInput (X : Ext) (T : TickExt) (s : Session) : Session :=
  let manager : MouseManager := s.mouseManager
  let deltaTime : ℚ := s.deltaTime
  let cam0 : Entity := s.player.toEntity
  let cam2 : Entity :=
    if manager.grabbed = true then
      let grabDir : Vec3 := manager.relativeGrabDirection
      let cam1 : Entity :=
        if grabDir.x < -2 then T.cameraRotate cam0 ((⟨0, -6 / 5, 0⟩ : Vec3).scale deltaTime)
        else if grabDir.x > 2 then T.cameraRotate cam0 ((⟨0, 6 / 5, 0⟩ : Vec3).scale deltaTime)
        else cam0
      if grabDir.y < -2 then T.cameraRotate cam1 ((⟨6 / 5, 0, 0⟩ : Vec3).scale deltaTime)
      else if grabDir.y > 2 then T.cameraRotate cam1 ((⟨-6 / 5, 0, 0⟩ : Vec3).scale deltaTime)
      else cam1
    else cam0
  let s1 : Session := { s with player := { s.player with toEntity := cam2 } }
  let s2 : Session :=
    if manager.leftMouseButtonState = MouseState.MOUSE_PRESSED ∧ s1.leftClickLock = false then
      let s1a : Session := { s1 with leftClickLock := true }
      if s1a.player.ammoCount > 0 then
        let lookAt0 : Vec3 :=
          (normalize X
            ⟨T.sin (s1a.player.rotation.y * -1), 0, T.cos (s1a.player.rotation.y * -1)⟩).scale (-1)
        let gunbox : AABB := T.gunbox
        let yDelta : ℚ := gunbox.yMax - gunbox.yMin
        let lookAt : Vec3 := lookAt0.add (lookAt0.scale yDelta)
        let projectile0 : Projectile :=
          T.newProjectile ((s1a.player.position.add lookAt).add ⟨1 / 40, -1 / 10, 0⟩) ⟨0, 0, 0⟩
            (29 / 1000)
        let acceleration0 : Vec3 := lookAt.scale 40
        let acceleration : Vec3 := { acceleration0 with y := acceleration0.y - 9 / 5 }
        let projectile : Projectile := T.projectileAccel projectile0 acceleration
        { s1a with
          projectiles := s1a.projectiles ++ [projectile]
          eventStarts := s1a.eventStarts + 1
          player := { s1a.player with ammoCount := s1a.player.ammoCount - 1 } }
      else s1a
    else s1
  if manager.leftMouseButtonState ≠ MouseState.MOUSE_PRESSED then
    { s2 with leftClickLock := false }
  else s2

/-- The ways in which a call of `gameUpdateTick` ends: it returns, with the session it
leaves; or `processKeyboardInput` calls `exit(0)`; or the render path dereferences a null
`activeLevel` (line 997 of gameloop.cpp). -/
inductive TickOutcome where
  | ok (s : Session)
  | exited
  | nullLevel
deriving DecidableEq, Repr

/-- The function `gameUpdateTick` (lines 948-1062 of gameloop.cpp), `currentTime` being the
value of `getCurrentTimeMillis()` in this tick. `deltaTime` is read before
`gameLoopObject.update()` recomputes it. The draw calls are left out. -/
def gameUpdateTick (X : Ext) (T : TickExt) (rand : Nat → ℚ) (currentTime : Nat)
    (s : Session) : TickOutcome :=
  let deltaTime : ℚ := s.deltaTime
  let s1 : Session := update X T rand currentTime s
  match s1.menus with
  | m :: _ =>
    let r : Session × Bool := Menu.update T m s1
    let s2 : Session := if r.2 = true then { r.1 with menus := r.1.menus.tail } else r.1
    TickOutcome.ok (endOfTick s2)
  | [] =>
    match processKeyboardInput X T s1 with
    | none => TickOutcome.exited
    | some s2 =>
      let s3 : Session := processMouseInput X T s2
      match s3.activeLevel with
      | none => TickOutcome.nullLevel
      | some _ =>
        let s4 : Session :=
          { s3 with
            projectiles := floorLoop T deltaTime 0 s3.projectiles
            trace := s3.trace ++
              (floorLoopTicked T deltaTime 0 s3.projectiles).map TickEvent.projectileOnGameTick }
        TickOutcome.ok (endOfTick s4)

/-- The constant `GLUT_LEFT_BUTTON` of the GLUT header. -/
def GLUT_LEFT_BUTTON : Int := 0

/-- The constant `GLUT_MIDDLE_BUTTON` of the GLUT header. -/
def GLUT_MIDDLE_BUTTON : Int := 1

/-- The constant `GLUT_RIGHT_BUTTON` of the GLUT header. -/
def GLUT_RIGHT_BUTTON : Int := 2

/-- The constant `GLUT_DOWN` of the GLUT header. -/
def GLUT_DOWN : Int := 0

/-- The constant `GLUT_UP` of the GLUT header. -/
def GLUT_UP : Int := 1

/-- The callback `mouseManagerHandleMouseClick(button, state, x, y)` (lines 1422-1490 of
gameloop.cpp) on the mouse manager of the session. -/
def mouseManagerHandleMouseClick (button state x y : Int) (m : MouseManager) : MouseManager :=
  let m1 : MouseManager :=
    if button = GLUT_LEFT_BUTTON then
      let a : MouseManager :=
        if state = GLUT_DOWN then
          if m.leftMouseButtonState = MouseState.MOUSE_RELEASED then
            { m with leftMouseButtonState := MouseState.MOUSE_JUST_PRESSED }
          else { m with leftMouseButtonState := MouseState.MOUSE_PRESSED }
        else m
      if state = GLUT_UP then { a with leftMouseButtonState := MouseState.MOUSE_RELEASED } else a
    else m
  let m2 : MouseManager :=
    if button = GLUT_MIDDLE_BUTTON then
      let a : MouseManager :=
        if state = GLUT_DOWN then
          if m1.middleMouseButtonState = MouseState.MOUSE_RELEASED then
            { m1 with middleMouseButtonState := MouseState.MOUSE_JUST_PRESSED }
          else { m1 with middleMouseButtonState := MouseState.MOUSE_PRESSED }
        else m1
      if state = GLUT_UP then { a with middleMouseButtonState := MouseState.MOUSE_RELEASED }
      else a
    else m1
  let m3 : MouseManager :=
    if button = GLUT_RIGHT_BUTTON then
      let a : MouseManager :=
        if state = GLUT_DOWN then
          if m2.rightMouseButtonState = MouseState.MOUSE_RELEASED then
            { m2 with rightMouseButtonState := MouseState.MOUSE_JUST_PRESSED }
          else { m2 with rightMouseButtonState := MouseState.MOUSE_PRESSED }
        else m2
      if state = GLUT_UP then { a with rightMouseButtonState := MouseState.MOUSE_RELEASED }
      else a
    else m2
  { m3 with x := x, y := y }

/-- What a call of `gameUpdateTick` finds when GLUT calls it (lines 1273-1287 of
gameloop.cpp register it next to the keyboard and mouse callbacks): the value of
`getCurrentTimeMillis()` and the key and mouse state that the callbacks run since the last
call have left. No assumption is made on what the callbacks did. -/
structure TickInput where
  currentTime : Nat
  keyManager : KeyManager
  mouseManager : MouseManager
deriving DecidableEq, Repr

/-- The session as a call of `gameUpdateTick` finds it: the session left by the call
before, with the key and mouse state of the input. -/
def Session.withInput (s : Session) (i : TickInput) : Session :=
  { s with keyManager := i.keyManager, mouseManager := i.mouseManager }

/-- The calls of `gameUpdateTick` made by `glutMainLoop` (line 1293 of gameloop.cpp), one
for each input of the list, from the session `s`. The run ends with the first call that
does not return. -/
def runTicks (X : Ext) (T : TickExt) (rand : Nat → ℚ) : List TickInput → Session → TickOutcome
  | [], s => TickOutcome.ok s
  | i :: rest, s =>
    match gameUpdateTick X T rand i.currentTime (s.withInput i) with
    | TickOutcome.ok s2 => runTicks X T rand rest s2
    | TickOutcome.exited => TickOutcome.exited
    | TickOutcome.nullLevel => TickOutcome.nullLevel

/-! ## A concrete choice of the external functions -/

/-- Modelled from the spec: `glm::inversesqrt` is library code outside the sources. This
stand-in is exact on squares of rationals (`inversesqrt 225 = 1/15`) and 0 on inputs `≤ 0`. -/
def specInversesqrt (q : ℚ) : ℚ :=
  if q ≤ 0 then 0 else (Nat.sqrt q.den : ℚ) / (Nat.sqrt q.num.toNat : ℚ)

/-- Modelled from the spec: `Entity::accel` is missing from the sources; the spec says
that `accelerate(entity, delta)` adds `delta` to `velocity`. -/
def specAccel (e : Entity) (movement : Vec3) : Entity :=
  { e with velocity := e.velocity.add movement }

/-- Modelled from the spec: `Entity::move` is missing from the sources; the spec says that
integration subtracts a gravitational constant times `dt` from the vertical velocity when
the gravity flag is set and then adds `velocity * dt` to the position. -/
def specMove (g dt : ℚ) (e : Entity) : Entity :=
  let v : Vec3 := if e.isAffectedByGravity then { e.velocity with y := e.velocity.y - g * dt }
    else e.velocity
  { e with velocity := v, position := e.position.add (v.scale dt) }

/-- Clamp a scalar into the range from `lo` to `hi`. -/
def clamp (lo hi v : ℚ) : ℚ := if v < lo then lo else if hi < v then hi else v

/-- Modelled from the spec: `Entity::boundsCheckPosition` is missing from the sources; the
spec says that it clamps the position components into the range of the bounds. -/
def specBoundsCheckPosition (e : Entity) (b : AABB) : Entity :=
  { e with position :=
      ⟨clamp b.xMin b.xMax e.position.x, clamp b.yMin b.yMax e.position.y,
       clamp b.zMin b.zMax e.position.z⟩ }

/-- Modelled from the spec: `AABB::moveTo` is missing from the sources; the spec says that
the box is re-centred on the new position. The extents are kept. -/
def specMoveTo (b : AABB) (x y z : ℚ) : AABB :=
  let hx : ℚ := (b.xMax - b.xMin) / 2
  let hy : ℚ := (b.yMax - b.yMin) / 2
  let hz : ℚ := (b.zMax - b.zMin) / 2
  ⟨x - hx, y - hy, z - hz, x + hx, y + hy, z + hz⟩

/-- Modelled from the spec: `intersects` is missing from the sources; the spec says that it
is the per-axis overlap test with inclusive bounds. -/
def specIntersects (a b : AABB) : Bool :=
  decide (a.xMin ≤ b.xMax ∧ b.xMin ≤ a.xMax ∧ a.yMin ≤ b.yMax ∧ b.yMin ≤ a.yMax ∧
    a.zMin ≤ b.zMax ∧ b.zMin ≤ a.zMax)

/-- The test of a segment from `p` to `q` against a box by separating axes: the three
coordinate axes and the three cross products of the segment direction with them, on the
midpoint and half-vector of the segment relative to the box centre. -/
def segmentMeetsBox (b : AABB) (p q : Vec3) : Bool :=
  let cx : ℚ := (b.xMin + b.xMax) / 2
  let cy : ℚ := (b.yMin + b.yMax) / 2
  let cz : ℚ := (b.zMin + b.zMax) / 2
  let ex : ℚ := (b.xMax - b.xMin) / 2
  let ey : ℚ := (b.yMax - b.yMin) / 2
  let ez : ℚ := (b.zMax - b.zMin) / 2
  let mx : ℚ := (p.x + q.x) / 2 - cx
  let my : ℚ := (p.y + q.y) / 2 - cy
  let mz : ℚ := (p.z + q.z) / 2 - cz
  let dx : ℚ := (q.x - p.x) / 2
  let dy : ℚ := (q.y - p.y) / 2
  let dz : ℚ := (q.z - p.z) / 2
  decide (|mx| ≤ ex + |dx| ∧ |my| ≤ ey + |dy| ∧ |mz| ≤ ez + |dz| ∧
    |my * dz - mz * dy| ≤ ey * |dz| + ez * |dy| ∧
    |mz * dx - mx * dz| ≤ ex * |dz| + ez * |dx| ∧
    |mx * dy - my * dx| ≤ ex * |dy| + ey * |dx|)

/-- Modelled from the spec: `brokenIntersection` is missing from the sources. The spec asks
for an approximate test that may miss a capsule grazing a corner or an edge of the box and
must hit whenever the segment passes through the box interior or within the radius of the
box centre. This stand-in tests the segment against the box grown by the radius on every
side; it hits whenever a point of the segment lies in the grown box
(`specBrokenIntersection_of_mem`). -/
def specBrokenIntersection (b : AABB) (c : Capsule3D) : Bool :=
  segmentMeetsBox
    ⟨b.xMin - c.radius, b.yMin - c.radius, b.zMin - c.radius,
     b.xMax + c.radius, b.yMax + c.radius, b.zMax + c.radius⟩ c.point1 c.point2

/-- One concrete implementation of the external functions, written from the spec, for a
gravitational constant `g` and a time step `dt` of `Entity::move`. -/
def specExt (g dt : ℚ) : Ext where
  inversesqrt := specInversesqrt
  accel := specAccel
  move := specMove g dt
  boundsCheckPosition := specBoundsCheckPosition
  moveTo := specMoveTo
  getAABB := fun e => e.boundingBox
  intersects := specIntersects
  brokenIntersection := specBrokenIntersection
  getMovement := fun p => ⟨p.previousPosition, p.position⟩
  isInvincible := fun p => decide (0 < p.invincibilityTimer)
  hurtPlayer := fun p n => { p with health := p.health - n }
  hurt := fun e n => { e with health := e.health - n }
  isDead := fun e => decide (e.health ≤ 0)
  center := fun b => ⟨(b.xMin + b.xMax) / 2, (b.yMin + b.yMax) / 2, (b.zMin + b.zMax) / 2⟩
  length := fun v => (Nat.sqrt (Int.toNat ⌊v.dot v⌋) : ℚ)

/-! ## Sample data -/

/-- The zero vector. -/
def zeroVec : Vec3 := ⟨0, 0, 0⟩

/-- The world bounds of the forest level: `AABB(-100, 0, -100, 60, 50, 60)`. -/
def forestBounds : AABB := ⟨-100, 0, -100, 60, 50, 60⟩

/-- An entity at rest at position `pos`, with full health 100 and the unit box of a
spawned enemy, `AABB(0, 0, 0, 1, 1, 1)`. -/
def entityAt (pos : Vec3) : Entity where
  position := pos
  rotation := zeroVec
  velocity := zeroVec
  acceleration := zeroVec
  isAffectedByGravity := false
  maxMoveSpeed := 1
  health := 100
  maxHealth := 100
  boundingBox := ⟨0, 0, 0, 1, 1, 1⟩

/-- An enemy at rest at `pos` in state `s`. -/
def enemyAt (s : AIState) (pos : Vec3) : Enemy where
  toEntity := entityAt pos
  state := s
  speedModifier := 1

/-- A player at rest at `pos`: no ammunition used yet, not invincible. -/
def playerAt (pos : Vec3) : Player where
  toEntity := entityAt pos
  score := 0
  ammoCount := 10
  healingItemCount := 0
  invincibilityTimer := 0

/-- Put an enemy at horizontal distance `d` from the origin, on the x axis. -/
def placeAt (e : Enemy) (d : ℚ) : Enemy :=
  { e with toEntity := { e.toEntity with position := ⟨d, e.position.y, 0⟩ } }

/-- Change the vertical coordinate of an entity position. -/
def Enemy.withY (e : Enemy) (y : ℚ) : Enemy :=
  { e with toEntity := { e.toEntity with position := { e.position with y := y } } }

/-- Change the vertical coordinate of the player position. -/
def Player.withY (p : Player) (y : ℚ) : Player :=
  { p with toEntity := { p.toEntity with position := { p.position with y := y } } }

/-- The argument that the ATTACK and LOSING_SIGHT branches pass to `accel`:
`toPlayer * movementSpeed` with `toPlayer` normalised and `movementSpeed = 3.0f * deltaTime`
(lines 34, 51-52 and 65-66 of enemy.cpp). -/
def accelArgument (X : Ext) (self : Enemy) (player : Player) (deltaTime : ℚ) : Vec3 :=
  (normalize X (toPlayerOf self player)).scale (3 * deltaTime)

/-- An idle enemy at (30, 0, 0) that still carries the velocity (-1, 0, 0) of an earlier
pursuit. -/
def driftingEnemy : Enemy :=
  { enemyAt AIState.IDLE ⟨30, 0, 0⟩ with
    toEntity := { entityAt ⟨30, 0, 0⟩ with velocity := ⟨-1, 0, 0⟩ } }

/-- The position lies within the box, bounds included. -/
def withinBounds (b : AABB) (v : Vec3) : Prop :=
  b.xMin ≤ v.x ∧ v.x ≤ b.xMax ∧ b.yMin ≤ v.y ∧ v.y ≤ b.yMax ∧ b.zMin ≤ v.z ∧ v.z ≤ b.zMax

instance (b : AABB) (v : Vec3) : Decidable (withinBounds b v) := by
  unfold withinBounds
  infer_instance

/-- The player after `k` calls of `hurtPlayer(20)`. -/
def hurtTimes (X : Ext) (k : Nat) (p : Player) : Player :=
  (fun q => X.hurtPlayer q 20)^[k] p

/-- The number of enemies whose box intersects the box of player `p`. -/
def contactCount (X : Ext) (p : Player) (enemies : List Enemy) : Nat :=
  enemies.countP (fun e => X.intersects (X.getAABB e.toEntity) (X.getAABB p.toEntity))

/-- An enemy at rest in IDLE whose box is `b`. -/
def boxedEnemy (b : AABB) : Enemy :=
  { enemyAt AIState.IDLE ⟨b.xMin, b.yMin, b.zMin⟩ with
    toEntity := { entityAt ⟨b.xMin, b.yMin, b.zMin⟩ with boundingBox := b } }

/-- A session with three enemies: the boxes of the first and the third intersect the player
box (0,0,0)-(1,1,1), the box of the second is far away. No projectiles. -/
def contactSample : GameLoop where
  player := playerAt zeroVec
  enemies := [boxedEnemy ⟨0, 0, 0, 1, 1, 1⟩, boxedEnemy ⟨10, 0, 10, 11, 1, 11⟩,
    boxedEnemy ⟨1 / 2, 0, 1 / 2, 3 / 2, 1, 3 / 2⟩]
  projectiles := []
  hurtStarts := 0
  randomDraws := 0
  closestPicks := 0

/-- The list view of one iteration of the projectile-enemy loop, for comparison with the
index loop `projectileLoop`: `acc.projectiles` holds the projectiles kept so far. A
projectile with exactly one hit hurts that enemy and is dropped; any other is kept. -/
def resolveOne (X : Ext) (acc : GameLoop) (p : Projectile) : GameLoop :=
  if (hitsOf X acc.enemies p).length = 1 then
    { acc with enemies := hurtAt X ((hitsOf X acc.enemies p).headD 0) acc.enemies }
  else { acc with projectiles := acc.projectiles ++ [p] }

/-- The list view of the projectile-enemy step: the projectiles are resolved in collection
order, starting with no projectile kept. -/
def resolveAll (X : Ext) (g : GameLoop) (ps : List Projectile) : GameLoop :=
  ps.foldl (resolveOne X) { g with projectiles := [] }

/-- A projectile of integer size 0 that moved from `a` to `b` in this tick. -/
def projectileAt (a b : Vec3) : Projectile where
  size := 0
  entityID := 0
  position := b
  previousPosition := a
  velocity := zeroVec
  acceleration := zeroVec
  maxMoveSpeed := 1
  isAffectedByGravity := true

/-- A player far from every sample enemy: box (-51,0,-51)-(-50,1,-50). -/
def farPlayer : Player :=
  { playerAt ⟨-51, 0, -51⟩ with
    toEntity := { entityAt ⟨-51, 0, -51⟩ with boundingBox := ⟨-51, 0, -51, -50, 1, -50⟩ } }

/-- A session with one projectile that ends its move inside the box of the first of two
enemies and far from the second. -/
def singleHitSample : GameLoop where
  player := farPlayer
  enemies := [boxedEnemy ⟨0, 0, 0, 1, 1, 1⟩, boxedEnemy ⟨10, 0, 10, 11, 1, 11⟩]
  projectiles := [projectileAt ⟨1 / 2, 1 / 2, -1⟩ ⟨1 / 2, 1 / 2, 1 / 2⟩]
  hurtStarts := 0
  randomDraws := 0
  closestPicks := 0

/-- A session with one projectile that ends its move inside the boxes of both enemies. -/
def multiHitSample : GameLoop where
  player := farPlayer
  enemies := [boxedEnemy ⟨0, 0, 0, 1, 1, 1⟩, boxedEnemy ⟨1 / 2, 0, 1 / 2, 3 / 2, 1, 3 / 2⟩]
  projectiles := [projectileAt ⟨3 / 4, 1 / 2, -1⟩ ⟨3 / 4, 1 / 2, 3 / 4⟩]
  hurtStarts := 0
  randomDraws := 0
  closestPicks := 0

/-- The rewards of one enemy death (lines 681-689 of gameloop.cpp), `f` being the value
drawn from `getRandomFloat()`. -/
def rewardOne (p : Player) (f : ℚ) : Player :=
  let p1 : Player := { p with score := p.score + 1, ammoCount := p.ammoCount + 5 }
  if f < 5 / 100 then { p1 with healingItemCount := p1.healingItemCount + 1 } else p1

/-- The list view of the rewards of the death sweep: `k` deaths in a row, the first of them
using the draw with number `n`, the next one the draw `n + 1`, and so on. -/
def rewardMany (rand : Nat → ℚ) : Nat → Nat → Player → Player
  | 0, _, p => p
  | k + 1, n, p => rewardMany rand k (n + 1) (rewardOne p (rand n))

/-- The number of dead enemies in a list. -/
def deadCount (X : Ext) (enemies : List Enemy) : Nat :=
  enemies.countP (fun e => X.isDead e.toEntity)

/-- The enemies of a list that are not dead, in their order. -/
def aliveOnly (X : Ext) (enemies : List Enemy) : List Enemy :=
  enemies.filter (fun e => !X.isDead e.toEntity)

/-- A session in which nothing touches anything: the player is far away, the projectile
is far from the one enemy, and the enemy is alive. -/
def quietSample : GameLoop where
  player := farPlayer
  enemies := [boxedEnemy ⟨0, 0, 0, 1, 1, 1⟩]
  projectiles := [projectileAt ⟨50, 1 / 2, 49⟩ ⟨50, 1 / 2, 50⟩]
  hurtStarts := 0
  randomDraws := 0
  closestPicks := 0

/-- The projectiles that survive the projectile-enemy step, in list view: a projectile is
dropped when, at the moment of its test, it hits exactly one enemy (which is then hurt);
every other projectile is kept, in the original order. -/
def survivors (X : Ext) : List Enemy → List Projectile → List Projectile
  | _, [] => []
  | es, p :: ps =>
    if (hitsOf X es p).length = 1 then survivors X (hurtAt X ((hitsOf X es p).headD 0) es) ps
    else p :: survivors X es ps

/-- A session with three projectiles and one enemy: the first and the third projectile end
their move inside the enemy's box, the second is far away. -/
def scanSample : GameLoop where
  player := farPlayer
  enemies := [boxedEnemy ⟨0, 0, 0, 1, 1, 1⟩]
  projectiles := [projectileAt ⟨1 / 2, 1 / 2, -1⟩ ⟨1 / 2, 1 / 2, 1 / 2⟩,
    projectileAt ⟨50, 1 / 2, 49⟩ ⟨50, 1 / 2, 50⟩,
    projectileAt ⟨1 / 4, 1 / 2, -1⟩ ⟨1 / 4, 1 / 2, 1 / 4⟩]
  hurtStarts := 0
  randomDraws := 0
  closestPicks := 0

/-- The number of healing items granted by `k` deaths in a row, the first of them using
the draw with number `n`: the draws that are strictly below 0.05. -/
def dropCount (rand : Nat → ℚ) (k n : Nat) : Nat :=
  (List.range k).countP (fun m => decide (rand (n + m) < 5 / 100))

/-- An enemy with the unit box and the given health. -/
def enemyWithHealth (h : Int) : Enemy :=
  { enemyAt AIState.IDLE zeroVec with toEntity := { entityAt zeroVec with health := h } }

/-- A session for the death sweep: two adjacent dead enemies, a live one, and a dead last
one. The player starts with score 0, 10 rounds of ammunition and no healing item. -/
def sweepSample : GameLoop where
  player := farPlayer
  enemies := [enemyWithHealth 0, enemyWithHealth (-20), enemyWithHealth 60, enemyWithHealth 0]
  projectiles := []
  hurtStarts := 0
  randomDraws := 0
  closestPicks := 0

/-- A session with exactly one dead enemy. -/
def oneDeathSample : GameLoop where
  player := farPlayer
  enemies := [enemyWithHealth 60, enemyWithHealth 0]
  projectiles := []
  hurtStarts := 0
  randomDraws := 0
  closestPicks := 0

/-- Modelled from the spec: `Projectile::onGameTick` is missing from the sources; the spec
says that integration subtracts a gravitational constant times `dt` from the vertical
velocity when the gravity flag is set and then adds `velocity * dt` to the position. The
position before the step is kept as the start of the movement segment. -/
def specProjectileOnGameTick (g : ℚ) (p : Projectile) (dt : ℚ) : Projectile :=
  let v : Vec3 := if p.isAffectedByGravity then { p.velocity with y := p.velocity.y - g * dt }
    else p.velocity
  { p with velocity := v, previousPosition := p.position, position := p.position.add (v.scale dt) }

/-- One concrete implementation of the functions of the tick driver, written from the
spec: a new enemy is at rest in IDLE with health 100, `Player::update` and `Player::reset`
integrate the motion and restore the initial player, every random integer is 0, the
camera looks along the z axis (sin 0, cos 1), and a button contains the points of its
rectangle. -/
def specTickExt (g : ℚ) : TickExt where
  projectileOnGameTick := specProjectileOnGameTick g
  newEnemyBase := fun pos _ => enemyAt AIState.IDLE pos
  aabbOf := fun c h => ⟨c.x - h.x, c.y - h.y, c.z - h.z, c.x + h.x, c.y + h.y, c.z + h.z⟩
  playerUpdate := fun p b dt =>
    { p with toEntity := specBoundsCheckPosition (specMove g dt p.toEntity) b }
  playerReset := fun _ => playerAt zeroVec
  randomInt := fun _ _ => 0
  zombieModel := some ⟨-1, 0, -1, 1, 2, 1⟩
  zombieModel2 := some ⟨-1, 0, -1, 1, 2, 1⟩
  gunbox := ⟨0, 0, 0, 1, 1 / 5, 1⟩
  sin := fun _ => 0
  cos := fun _ => 1
  cameraRotate := fun e r => { e with rotation := e.rotation.add r }
  newProjectile := fun pos _ size =>
    { projectileAt pos pos with size := Int.toNat ⌊size⌋ }
  projectileAccel := fun p a => { p with velocity := p.velocity.add a }
  inBounds := fun x y w h mx my => decide (x ≤ mx ∧ mx ≤ x + w ∧ y ≤ my ∧ my ≤ y + h)

/-- The condition under which the projectile loop of `gameUpdateTick` keeps a projectile:
its `y` is not below `-size`. -/
def aboveFloor (p : Projectile) : Bool := !decide (p.position.y < ((-p.size : Int) : ℚ))

/-- A projectile of integer size 0 at rest at height `y`, not affected by gravity. -/
def restingProjectile (y : ℚ) : Projectile :=
  { projectileAt ⟨0, y, 0⟩ ⟨0, y, 0⟩ with isAffectedByGravity := false }

/-- The player as `GameLoop::GameLoop()` leaves it (lines 373-379 of gameloop.cpp): camera
at the origin and the box `AABB(0, 0, 0, 1, 2, 1)`. -/
def initialPlayer : Player :=
  { playerAt zeroVec with
    toEntity := { entityAt zeroVec with boundingBox := ⟨0, 0, 0, 1, 2, 1⟩ } }

/-- The mouse manager as `MouseManager::MouseManager()` leaves it. -/
def initialMouse : MouseManager where
  leftMouseButtonState := MouseState.MOUSE_RELEASED
  middleMouseButtonState := MouseState.MOUSE_RELEASED
  rightMouseButtonState := MouseState.MOUSE_RELEASED
  x := 0
  y := 0
  grabbed := false
  relativeGrabDirection := zeroVec

/-- The session after start-up: the main menu on the stack, no active level, no
projectile, no key down. -/
def initialSession : Session where
  player := initialPlayer
  projectiles := []
  activeLevel := none
  menus := [⟨MenuKind.MainMenu, false⟩]
  keyManager := ⟨[]⟩
  mouseManager := initialMouse
  deltaTime := 0
  previousFrameTime := 0
  healLock := false
  leftClickLock := false
  hurtStarts := 0
  eventStarts := 0
  randomDraws := 0
  randomIntDraws := 0
  closestPicks := 0
  trace := []

/-- A session in the game: the level `lvl` is active, no menu is open, the projectiles are
`ps`, and the last frame was at time 0 and took 16 ms. -/
def inGameSession (lvl : Level) (ps : List Projectile) : Session :=
  { initialSession with
    activeLevel := some lvl
    menus := []
    projectiles := ps
    deltaTime := 16 / 1000 }

/-- The forest level right after `createLevel`: no enemies yet. -/
def emptyForest : Level := ⟨LevelKind.forest, [], ⟨-100, 0, -100, 60, 50, 60⟩⟩

/-- The enemy that the spawn code of the forest level builds when both calls of
`getRandomInt(80)` return 0: at (-60, 0, -60), with the box `AABB(0, 0, 0, 1, 1, 1)` and
the speed modifier multiplied by 1.25. -/
def spawnedEnemy : Enemy :=
  { enemyAt AIState.IDLE ⟨-60, 0, -60⟩ with speedModifier := 1 * (5 / 4) }

/-- The in-game sample session after the first part of `GameLoop::update` at time 16 ms:
the frame time is set and the mouse is grabbed. -/
def spawnTickStart : Session :=
  { inGameSession emptyForest [] with
    deltaTime := ((16 : Nat) : ℚ) / 1000
    previousFrameTime := 16
    mouseManager := { initialMouse with grabbed := true } }

/-- The session after the first lines of `GameLoop::update` (lines 550-565 of
gameloop.cpp) when no menu is open: the frame time is measured and the mouse is grabbed. -/
def frameStart (currentTime : Nat) (s : Session) : Session :=
  { s with
    deltaTime :=
      (((currentTime % 2 ^ 64 + 2 ^ 64 - s.previousFrameTime % 2 ^ 64) % 2 ^ 64 : Nat) : ℚ) / 1000
    previousFrameTime := currentTime
    mouseManager := { s.mouseManager with grabbed := true } }

/-- The session after the level update and the player update of `GameLoop::update` (lines
603-604 of gameloop.cpp) in a frame that starts without a menu: the input of the collision
pass. -/
def beforeCollision (X : Ext) (T : TickExt) (rand : Nat → ℚ) (currentTime : Nat) (lvl : Level)
    (s : Session) : Session :=
  { Level.update X T rand lvl (frameStart currentTime s) (frameStart currentTime s).deltaTime with
    player :=
      T.playerUpdate
        (Level.update X T rand lvl (frameStart currentTime s)
          (frameStart currentTime s).deltaTime).player
        lvl.worldBounds
        (Level.update X T rand lvl (frameStart currentTime s)
          (frameStart currentTime s).deltaTime).deltaTime }

/-- The property that C19 states of the trace of one tick: no tick of an enemy or of a
projectile is recorded after the collision pass. -/
def integrationBeforeCollision (tr : List TickEvent) : Prop :=
  ∀ (pre post : List TickEvent) (e : TickEvent), tr = pre ++ e :: post →
    e ≠ TickEvent.collisionCheck → TickEvent.collisionCheck ∉ pre

/-- The in-game sample session for the order of the calls: the forest level without
enemies and one projectile resting at height 5. -/
def orderSample : Session := inGameSession emptyForest [restingProjectile 5]

/-- The healing-item code of `processKeyboardInput` (lines 1152-1161 of gameloop.cpp) on
the player `p`, for comparison with the function: `keyDown` is the value of
`isKeyDown('h')` and `lock` the value of `healLock`. -/
def useHealingItem (keyDown lock : Bool) (p : Player) : Player :=
  if keyDown = true ∧ lock = false then
    if p.health < p.maxHealth ∧ p.healingItemCount > 0 then
      { p with
        toEntity := { p.toEntity with health := p.maxHealth }
        healingItemCount := p.healingItemCount - 1 }
    else p
  else p

/-- The code of the key `-` in `processKeyboardInput` (lines 1167-1170 of gameloop.cpp) on
the player `p`: the health is set to 0 when the key is down. -/
def killKey (keyDown : Bool) (p : Player) : Player :=
  if keyDown = true then { p with toEntity := { p.toEntity with health := 0 } } else p

/-- An in-game session in which the key `h` is down and the player has 40 of 100 health and
two healing items. -/
def healSample : Session :=
  { inGameSession emptyForest [] with
    keyManager := ⟨['h']⟩
    player :=
      { initialPlayer with
        toEntity := { initialPlayer.toEntity with health := 40 }
        healingItemCount := 2 } }

/-- The session after the first part of `GameLoop::update` (lines 550-581 of gameloop.cpp),
for comparison with `update`: the frame time, the grab flag, the death of the player, and
the closing of the menus when a level is active. -/
def updateHead (X : Ext) (currentTime : Nat) (s : Session) : Session :=
  let deltaTimeMillis : Nat :=
    (currentTime % 2 ^ 64 + 2 ^ 64 - s.previousFrameTime % 2 ^ 64) % 2 ^ 64
  let s1 : Session :=
    { s with deltaTime := (deltaTimeMillis : ℚ) / 1000, previousFrameTime := currentTime }
  let s2 : Session :=
    if s1.menus.length > 0 then { s1 with mouseManager := { s1.mouseManager with grabbed := false } }
    else { s1 with mouseManager := { s1.mouseManager with grabbed := true } }
  let s3 : Session :=
    if X.isDead s2.player.toEntity = true ∧ s2.activeLevel.isSome = true then
      { s2 with
        activeLevel := none
        menus := ⟨MenuKind.GameOverMenu, false⟩ :: ⟨MenuKind.MainMenu, false⟩ :: s2.menus }
    else s2
  if s3.activeLevel.isSome = true ∧ s3.menus.length > 0 then { s3 with menus := [] } else s3

/-- The invariant of the menu stack and the active level between two ticks: with no menu
open a level is active, and a stack that is not empty has the main menu at its bottom. -/
def menuInvariant (s : Session) : Prop :=
  (s.menus = [] → s.activeLevel.isSome = true) ∧
  (s.menus ≠ [] → s.menus.getLast? = some ⟨MenuKind.MainMenu, false⟩)

instance (s : Session) : Decidable (menuInvariant s) := by
  unfold menuInvariant
  infer_instance

/-- The input of a tick at time `t` in which no key is down and the mouse, at `(x, y)`, has
the left button in the state `left`. -/
def inputAt (t : Nat) (left : MouseState) (x y : Int) : TickInput where
  currentTime := t
  keyManager := ⟨[]⟩
  mouseManager := { initialMouse with leftMouseButtonState := left, x := x, y := y }

/-- The menu branch of `gameUpdateTick` (lines 960-966 of gameloop.cpp) for the menu `m` at
the top of the stack, for comparison with `gameUpdateTick`: the update of the menu, and
then the pop of the stack when `m` asks for it. -/
def menuTick (T : TickExt) (m : Menu) (s : Session) : Session :=
  if (Menu.update T m s).2 = true then
    { (Menu.update T m s).1 with menus := (Menu.update T m s).1.menus.tail }
  else (Menu.update T m s).1

/-- An in-game session in which the left button is held (state MOUSE_PRESSED), the click
lock is free and the player has the 10 rounds of the start. -/
def fireSample : Session :=
  { inGameSession emptyForest [] with
    mouseManager := { initialMouse with leftMouseButtonState := MouseState.MOUSE_PRESSED } }

/-- The enemy after `k` calls of `hurt(20)`. -/
def hurtEnemyTimes (X : Ext) (k : Nat) (e : Enemy) : Enemy :=
  (fun a : Enemy => { a with toEntity := X.hurt a.toEntity 20 })^[k] e

/-- The number of projectiles of `ps` whose hit set against the enemies `es` is exactly
the enemy with index `i`. -/
def soleHitCount (X : Ext) (es : List Enemy) (ps : List Projectile) (i : Nat) : Nat :=
  ps.countP (fun p => decide (hitsOf X es p = [i]))

/-- A session with one enemy of health 20 and two projectiles that both end their move
inside its box. -/
def doubleHitSample : GameLoop where
  player := farPlayer
  enemies := [enemyWithHealth 20]
  projectiles := [projectileAt ⟨1 / 2, 1 / 2, -1⟩ ⟨1 / 2, 1 / 2, 1 / 2⟩,
    projectileAt ⟨1 / 4, 1 / 2, -1⟩ ⟨1 / 4, 1 / 2, 1 / 4⟩]
  hurtStarts := 0
  randomDraws := 0
  closestPicks := 0

/-- An implementation of the external functions whose `inversesqrt` returns the two-digit
value 0.7 at 2, where no rational value is exact, and the stand-in `specInversesqrt`
elsewhere. -/
def roundedExt : Ext :=
  { specExt 0 1 with inversesqrt := fun q => if q = 2 then 7 / 10 else specInversesqrt q }

/-- The sample of the healing item with the key `-` down as well: keys `h` and `-`, 40 of
100 health, two healing items. -/
def healKillSample : Session := { healSample with keyManager := ⟨['h', '-']⟩ }

/-- The sample of the healing item with only the key `-` down: 40 of 100 health, two
healing items. -/
def killSample : Session := { healSample with keyManager := ⟨['-']⟩ }

/-! ## Theorems: the enemy state machine -/

/-- The end of the tick leaves the behavioural state alone. -/
theorem updatePosition_state (X : Ext) (self : Enemy) (worldBounds : AABB) :
    (updatePosition X self worldBounds).state = self.state := rfl

/-- The state after a tick is the state after the state evaluation. -/
theorem onGameTick_state (X : Ext) (self : Enemy) (player : Player) (deltaTime : ℚ)
    (worldBounds : AABB) :
    (self.onGameTick X player deltaTime worldBounds).state =
      (evalState X self (distanceSquaredOf self player)
        (normalize X (toPlayerOf self player)) deltaTime).state := rfl

/-- The squared horizontal distance written out in coordinates. -/
theorem distanceSquaredOf_eq (self : Enemy) (player : Player) :
    distanceSquaredOf self player =
      (player.position.x - self.position.x) ^ 2 + (player.position.z - self.position.z) ^ 2 := by
  simp only [distanceSquaredOf, toPlayerOf, Vec3.dot, Vec3.sub]
  ring

/-- State evaluation from IDLE. -/
theorem evalState_idle (X : Ext) (self : Enemy) (d2 : ℚ) (v : Vec3) (dt : ℚ)
    (h : self.state = AIState.IDLE) :
    evalState X self d2 v dt =
      if d2 < 400 then { self with state := AIState.ATTACK } else self := by
  simp [evalState, h]

/-- State after state evaluation from ATTACK. -/
theorem evalState_attack_state (X : Ext) (self : Enemy) (d2 : ℚ) (v : Vec3) (dt : ℚ)
    (h : self.state = AIState.ATTACK) :
    (evalState X self d2 v dt).state =
      if 400 < d2 ∧ d2 < 1225 then AIState.LOSING_SIGHT else AIState.ATTACK := by
  simp only [evalState, h]
  norm_num
  split_ifs <;> simp_all

/-- State after state evaluation from LOSING_SIGHT. -/
theorem evalState_losing_state (X : Ext) (self : Enemy) (d2 : ℚ) (v : Vec3) (dt : ℚ)
    (h : self.state = AIState.LOSING_SIGHT) :
    (evalState X self d2 v dt).state =
      if d2 < 400 then AIState.ATTACK
      else if 1225 < d2 then AIState.IDLE else AIState.LOSING_SIGHT := by
  simp only [evalState, h]
  norm_num
  split_ifs <;> simp_all

/-- C1. IDLE branch of Enemy::onGameTick: with d2 the squared horizontal distance between
enemy and player, an enemy that starts the tick in IDLE ends it in ATTACK if d2 < 400 and
in IDLE otherwise; it never ends the tick in LOSING_SIGHT; and the resulting state is the
same whatever the two Y coordinates are. -/
theorem C1_idle_branch (X : Ext) (self : Enemy) (player : Player) (deltaTime : ℚ)
    (worldBounds : AABB) (h : self.state = AIState.IDLE) :
    ((self.onGameTick X player deltaTime worldBounds).state =
        if (player.position.x - self.position.x) ^ 2 +
            (player.position.z - self.position.z) ^ 2 < 400
        then AIState.ATTACK else AIState.IDLE) ∧
    (self.onGameTick X player deltaTime worldBounds).state ≠ AIState.LOSING_SIGHT ∧
    ∀ ys yp : ℚ,
      ((self.withY ys).onGameTick X (player.withY yp) deltaTime worldBounds).state =
        (self.onGameTick X player deltaTime worldBounds).state := by
  have key : ∀ (e : Enemy) (p : Player), e.state = AIState.IDLE →
      (e.onGameTick X p deltaTime worldBounds).state =
        if (p.position.x - e.position.x) ^ 2 + (p.position.z - e.position.z) ^ 2 < 400
        then AIState.ATTACK else AIState.IDLE := by
    intro e p he
    rw [onGameTick_state, evalState_idle X e _ _ _ he, distanceSquaredOf_eq]
    split_ifs
    · rfl
    · exact he
  refine ⟨key self player h, ?_, ?_⟩
  · rw [key self player h]
    split_ifs <;> simp
  · intro ys yp
    rw [key self player h, key (self.withY ys) (player.withY yp) h]
    rfl

/-- Witness of C1: an idle enemy at horizontal distance 15 (d2 = 225) from a player at the
origin ends the tick in ATTACK. -/
theorem C1_idle_branch_witness :
    (enemyAt AIState.IDLE ⟨15, 0, 0⟩).state = AIState.IDLE ∧
    ((enemyAt AIState.IDLE ⟨15, 0, 0⟩).onGameTick (specExt 0 1) (playerAt zeroVec) (1 / 60)
        forestBounds).state = AIState.ATTACK := by
  have h := (C1_idle_branch (specExt 0 1) (enemyAt AIState.IDLE ⟨15, 0, 0⟩) (playerAt zeroVec)
    (1 / 60) forestBounds rfl).1
  rw [if_pos (by norm_num [enemyAt, entityAt, playerAt, zeroVec])] at h
  exact ⟨rfl, h⟩

/-- C2. ATTACK branch of Enemy::onGameTick: an enemy that starts the tick in ATTACK ends it
in LOSING_SIGHT exactly when 400 < d2 < 1225, and otherwise remains in ATTACK. -/
theorem C2_attack_branch (X : Ext) (self : Enemy) (player : Player) (deltaTime : ℚ)
    (worldBounds : AABB) (h : self.state = AIState.ATTACK) :
    ((self.onGameTick X player deltaTime worldBounds).state = AIState.LOSING_SIGHT ↔
      (400 < distanceSquaredOf self player ∧ distanceSquaredOf self player < 1225)) ∧
    (¬ (400 < distanceSquaredOf self player ∧ distanceSquaredOf self player < 1225) →
      (self.onGameTick X player deltaTime worldBounds).state = AIState.ATTACK) := by
  rw [onGameTick_state, evalState_attack_state X self _ _ _ h]
  constructor
  · split_ifs with hd
    · simp [hd]
    · simp [hd]
  · intro hd
    rw [if_neg hd]

/-- Witness of C2: an attacking enemy at horizontal distance 25 (d2 = 625) loses sight. -/
theorem C2_attack_branch_witness :
    (enemyAt AIState.ATTACK ⟨25, 0, 0⟩).state = AIState.ATTACK ∧
    ((enemyAt AIState.ATTACK ⟨25, 0, 0⟩).onGameTick (specExt 0 1) (playerAt zeroVec) (1 / 60)
        forestBounds).state = AIState.LOSING_SIGHT := by
  have hd : distanceSquaredOf (enemyAt AIState.ATTACK ⟨25, 0, 0⟩) (playerAt zeroVec) = 625 := by
    rw [distanceSquaredOf_eq]
    norm_num [enemyAt, entityAt, playerAt, zeroVec]
  exact ⟨rfl, (C2_attack_branch (specExt 0 1) (enemyAt AIState.ATTACK ⟨25, 0, 0⟩)
    (playerAt zeroVec) (1 / 60) forestBounds rfl).1.mpr (by rw [hd]; norm_num)⟩

/-- C3. LOSING_SIGHT branch of Enemy::onGameTick: an enemy that starts the tick in
LOSING_SIGHT ends it in IDLE if d2 > 1225, in ATTACK if d2 < 400, and in LOSING_SIGHT if
400 <= d2 <= 1225; the tests d2 > 1225 and d2 < 400 never both fire. -/
theorem C3_losing_sight_branch (X : Ext) (self : Enemy) (player : Player) (deltaTime : ℚ)
    (worldBounds : AABB) (h : self.state = AIState.LOSING_SIGHT) :
    (1225 < distanceSquaredOf self player →
      (self.onGameTick X player deltaTime worldBounds).state = AIState.IDLE) ∧
    (distanceSquaredOf self player < 400 →
      (self.onGameTick X player deltaTime worldBounds).state = AIState.ATTACK) ∧
    (400 ≤ distanceSquaredOf self player ∧ distanceSquaredOf self player ≤ 1225 →
      (self.onGameTick X player deltaTime worldBounds).state = AIState.LOSING_SIGHT) ∧
    ¬ (1225 < distanceSquaredOf self player ∧ distanceSquaredOf self player < 400) := by
  rw [onGameTick_state, evalState_losing_state X self _ _ _ h]
  refine ⟨fun h1 => ?_, fun h2 => ?_, fun h3 => ?_, fun h4 => ?_⟩
  · rw [if_neg (by linarith), if_pos h1]
  · rw [if_pos h2]
  · rw [if_neg (by linarith [h3.1]), if_neg (by linarith [h3.2])]
  · linarith [h4.1, h4.2]

/-- Witness of C3: an enemy in LOSING_SIGHT at horizontal distance 40 (d2 = 1600) goes
back to IDLE. -/
theorem C3_losing_sight_branch_witness :
    (enemyAt AIState.LOSING_SIGHT ⟨40, 0, 0⟩).state = AIState.LOSING_SIGHT ∧
    ((enemyAt AIState.LOSING_SIGHT ⟨40, 0, 0⟩).onGameTick (specExt 0 1) (playerAt zeroVec)
        (1 / 60) forestBounds).state = AIState.IDLE := by
  have hd : distanceSquaredOf (enemyAt AIState.LOSING_SIGHT ⟨40, 0, 0⟩) (playerAt zeroVec) =
      1600 := by
    rw [distanceSquaredOf_eq]
    norm_num [enemyAt, entityAt, playerAt, zeroVec]
  exact ⟨rfl, (C3_losing_sight_branch (specExt 0 1) (enemyAt AIState.LOSING_SIGHT ⟨40, 0, 0⟩)
    (playerAt zeroVec) (1 / 60) forestBounds rfl).1 (by rw [hd]; norm_num)⟩

/-- Placing an enemy keeps its behavioural state. -/
theorem placeAt_state (e : Enemy) (d : ℚ) : (placeAt e d).state = e.state := rfl

/-- An enemy placed at distance `d` from a player at the origin has `d2 = d * d`. -/
theorem distanceSquaredOf_placeAt (e : Enemy) (d : ℚ) :
    distanceSquaredOf (placeAt e d) (playerAt zeroVec) = d * d := by
  simp only [distanceSquaredOf, toPlayerOf, Vec3.dot, Vec3.sub, placeAt, playerAt, entityAt,
    zeroVec]
  ring

/-- C4. Hysteresis trace: starting from IDLE and feeding Enemy::onGameTick the horizontal
distances 25, 19.9, 25.5, 13 in four successive ticks (d2 = 625, 396.01, 650.25, 169), the
states after the four ticks are IDLE, ATTACK, LOSING_SIGHT, ATTACK. -/
theorem C4_hysteresis_trace (X : Ext) (deltaTime : ℚ) (worldBounds : AABB) :
    let player := playerAt zeroVec
    let e0 := enemyAt AIState.IDLE zeroVec
    let e1 := (placeAt e0 25).onGameTick X player deltaTime worldBounds
    let e2 := (placeAt e1 (199 / 10)).onGameTick X player deltaTime worldBounds
    let e3 := (placeAt e2 (51 / 2)).onGameTick X player deltaTime worldBounds
    let e4 := (placeAt e3 13).onGameTick X player deltaTime worldBounds
    (distanceSquaredOf (placeAt e0 25) player = 625 ∧
      distanceSquaredOf (placeAt e1 (199 / 10)) player = 39601 / 100 ∧
      distanceSquaredOf (placeAt e2 (51 / 2)) player = 65025 / 100 ∧
      distanceSquaredOf (placeAt e3 13) player = 169) ∧
    e0.state = AIState.IDLE ∧ e1.state = AIState.IDLE ∧ e2.state = AIState.ATTACK ∧
      e3.state = AIState.LOSING_SIGHT ∧ e4.state = AIState.ATTACK := by
  intro player e0 e1 e2 e3 e4
  have h0 : e0.state = AIState.IDLE := rfl
  have h1 : e1.state = AIState.IDLE := by
    show ((placeAt e0 25).onGameTick X player deltaTime worldBounds).state = _
    rw [onGameTick_state, evalState_idle X _ _ _ _ (by rw [placeAt_state]; exact h0),
      distanceSquaredOf_placeAt]
    norm_num
    rfl
  have h2 : e2.state = AIState.ATTACK := by
    show ((placeAt e1 (199 / 10)).onGameTick X player deltaTime worldBounds).state = _
    rw [onGameTick_state, evalState_idle X _ _ _ _ (by rw [placeAt_state]; exact h1),
      distanceSquaredOf_placeAt]
    norm_num
  have h3 : e3.state = AIState.LOSING_SIGHT := by
    show ((placeAt e2 (51 / 2)).onGameTick X player deltaTime worldBounds).state = _
    rw [onGameTick_state, evalState_attack_state X _ _ _ _ (by rw [placeAt_state]; exact h2),
      distanceSquaredOf_placeAt]
    norm_num
  have h4 : e4.state = AIState.ATTACK := by
    show ((placeAt e3 13).onGameTick X player deltaTime worldBounds).state = _
    rw [onGameTick_state, evalState_losing_state X _ _ _ _ (by rw [placeAt_state]; exact h3),
      distanceSquaredOf_placeAt]
    norm_num
  refine ⟨⟨?_, ?_, ?_, ?_⟩, h0, h1, h2, h3, h4⟩ <;>
    (rw [distanceSquaredOf_placeAt]; norm_num)

/-- State evaluation from ATTACK: one call of `accel`, on the entity as it was. -/
theorem evalState_attack (X : Ext) (self : Enemy) (d2 : ℚ) (v : Vec3) (dt : ℚ)
    (h : self.state = AIState.ATTACK) :
    evalState X self d2 v dt =
      { toEntity := X.accel self.toEntity (v.scale (3 * dt))
        state := if 400 < d2 ∧ d2 < 1225 then AIState.LOSING_SIGHT else AIState.ATTACK
        speedModifier := self.speedModifier } := by
  simp only [evalState, h]
  norm_num
  split_ifs <;> simp_all

/-- The stand-in for `glm::inversesqrt` is exact on squares of positive naturals. -/
theorem specInversesqrt_sq (n : ℕ) (hn : 0 < n) :
    specInversesqrt ((n * n : ℕ) : ℚ) = 1 / (n : ℚ) := by
  have hpos : ¬ (((n * n : ℕ) : ℚ) ≤ 0) := by
    have : (0 : ℚ) < ((n * n : ℕ) : ℚ) := by exact_mod_cast Nat.mul_pos hn hn
    linarith
  unfold specInversesqrt
  rw [if_neg hpos, Rat.den_natCast, Rat.num_natCast, Int.toNat_natCast, Nat.sqrt_eq]
  simp

/-- No rational number is the inverse square root of 2. -/
theorem inversesqrt_two_inexact (r : ℚ) : r * r * 2 ≠ 1 := by
  intro h
  have hr : r ≠ 0 := by
    intro h0
    rw [h0] at h
    norm_num at h
  have hq : (1 / r) * (1 / r) = 2 := by
    field_simp
    linarith
  have hR : ((1 / r : ℚ) : ℝ) * ((1 / r : ℚ) : ℝ) = 2 := by exact_mod_cast hq
  have hs : Real.sqrt 2 = |((1 / r : ℚ) : ℝ)| := by
    rw [← hR]
    exact Real.sqrt_mul_self_eq_abs _
  have hcast : |((1 / r : ℚ) : ℝ)| = ((|1 / r| : ℚ) : ℝ) := by push_cast; rfl
  exact irrational_sqrt_two.ne_rat _ (hs.trans hcast)

/-- The squared length of the vector given to `accel`: `(3 * dt)^2` times
`inversesqrt(d2)^2 * d2`. -/
theorem accelArgument_dot (X : Ext) (self : Enemy) (player : Player) (deltaTime : ℚ) :
    (accelArgument X self player deltaTime).dot (accelArgument X self player deltaTime) =
      (3 * deltaTime) * (3 * deltaTime) *
        (X.inversesqrt (distanceSquaredOf self player) *
          X.inversesqrt (distanceSquaredOf self player) * distanceSquaredOf self player) := by
  have ha : accelArgument X self player deltaTime =
      ((toPlayerOf self player).scale (X.inversesqrt (distanceSquaredOf self player))).scale
        (3 * deltaTime) := rfl
  rw [ha]
  generalize X.inversesqrt (distanceSquaredOf self player) = r
  rw [distanceSquaredOf_eq]
  simp only [Vec3.scale, Vec3.dot, toPlayerOf, Vec3.sub]
  ring

/-- C5, as stated, fails where d2 is not the square of a rational: for the enemy in ATTACK
at (1, 0, 1) with the player at the origin (d2 = 2) and a tick of 1/60 s, whatever value
inversesqrt returns, the squared length of the vector given to accel is not (3 * dt)^2,
so its length is not exactly 3 * dt. -/
theorem C5_exact_length_counterexample :
    (enemyAt AIState.ATTACK ⟨1, 0, 1⟩).state = AIState.ATTACK ∧
    distanceSquaredOf (enemyAt AIState.ATTACK ⟨1, 0, 1⟩) (playerAt zeroVec) = 2 ∧
    (0 : ℚ) < distanceSquaredOf (enemyAt AIState.ATTACK ⟨1, 0, 1⟩) (playerAt zeroVec) ∧
    ∀ X : Ext,
      (enemyAt AIState.ATTACK ⟨1, 0, 1⟩).accelCalls X (playerAt zeroVec) (1 / 60) =
        [accelArgument X (enemyAt AIState.ATTACK ⟨1, 0, 1⟩) (playerAt zeroVec) (1 / 60)] ∧
      (accelArgument X (enemyAt AIState.ATTACK ⟨1, 0, 1⟩) (playerAt zeroVec) (1 / 60)).dot
          (accelArgument X (enemyAt AIState.ATTACK ⟨1, 0, 1⟩) (playerAt zeroVec) (1 / 60)) ≠
        (3 * (1 / 60)) * (3 * (1 / 60)) := by
  have hd : distanceSquaredOf (enemyAt AIState.ATTACK ⟨1, 0, 1⟩) (playerAt zeroVec) = 2 := by
    rw [distanceSquaredOf_eq]
    norm_num [enemyAt, entityAt, playerAt, zeroVec]
  refine ⟨rfl, hd, by rw [hd]; norm_num, fun X => ⟨rfl, ?_⟩⟩
  rw [accelArgument_dot, hd]
  intro h
  have h2 : X.inversesqrt 2 * X.inversesqrt 2 * 2 = 1 := by
    have hne : ((3 : ℚ) * (1 / 60)) * (3 * (1 / 60)) ≠ 0 := by norm_num
    have := mul_left_cancel₀ hne (h.trans (mul_one _).symm)
    exact this
  exact inversesqrt_two_inexact _ h2

/-- C5, amended. In every tick that an enemy starts in ATTACK with d2 > 0, where inversesqrt
returns a positive value r at d2, Enemy::onGameTick calls accel exactly once, before move,
with the vector (dx, 0, dz) * r * 3 * dt: its Y component is 0; it is a non-negative
multiple (positive when dt > 0, and then not the zero vector) of the horizontal offset to
the player; its squared length is (3 * dt)^2 times r^2 * d2, and its length is 3 * dt times
r * sqrt(d2). So the length is 3 * dt up to the relative error of the inverse square root:
when r^2 * d2 is within eps of 1 the squared length is within eps * (3 * dt)^2 of
(3 * dt)^2, and for dt not 0 it is exactly (3 * dt)^2 if and only if r^2 * d2 = 1. -/
theorem C5_attack_accel (X : Ext) (self : Enemy) (player : Player) (deltaTime : ℚ)
    (worldBounds : AABB) (h : self.state = AIState.ATTACK)
    (hd : 0 < distanceSquaredOf self player)
    (hr : 0 < X.inversesqrt (distanceSquaredOf self player))
    (hdt : 0 ≤ deltaTime) :
    self.accelCalls X player deltaTime = [accelArgument X self player deltaTime] ∧
    self.onGameTick X player deltaTime worldBounds =
      updatePosition X
        { toEntity := X.accel self.toEntity (accelArgument X self player deltaTime)
          state := if 400 < distanceSquaredOf self player ∧ distanceSquaredOf self player < 1225
            then AIState.LOSING_SIGHT else AIState.ATTACK
          speedModifier := self.speedModifier } worldBounds ∧
    accelArgument X self player deltaTime =
      ⟨(player.position.x - self.position.x) *
          X.inversesqrt (distanceSquaredOf self player) * (3 * deltaTime),
        0,
        (player.position.z - self.position.z) *
          X.inversesqrt (distanceSquaredOf self player) * (3 * deltaTime)⟩ ∧
    (accelArgument X self player deltaTime).y = 0 ∧
    (0 ≤ X.inversesqrt (distanceSquaredOf self player) * (3 * deltaTime) ∧
      (0 < deltaTime → 0 < X.inversesqrt (distanceSquaredOf self player) * (3 * deltaTime)) ∧
      accelArgument X self player deltaTime =
        (toPlayerOf self player).scale
          (X.inversesqrt (distanceSquaredOf self player) * (3 * deltaTime))) ∧
    (0 ≤ 3 * deltaTime ∧
      (accelArgument X self player deltaTime).dot (accelArgument X self player deltaTime) =
        (3 * deltaTime) * (3 * deltaTime) *
          (X.inversesqrt (distanceSquaredOf self player) *
            X.inversesqrt (distanceSquaredOf self player) * distanceSquaredOf self player)) ∧
    (0 < deltaTime →
      0 < (accelArgument X self player deltaTime).dot (accelArgument X self player deltaTime)) ∧
    Real.sqrt
        (((accelArgument X self player deltaTime).dot
          (accelArgument X self player deltaTime) : ℚ) : ℝ) =
      (3 * (deltaTime : ℝ)) *
        ((X.inversesqrt (distanceSquaredOf self player) : ℝ) *
          Real.sqrt ((distanceSquaredOf self player : ℚ) : ℝ)) ∧
    (∀ eps : ℚ,
      |X.inversesqrt (distanceSquaredOf self player) *
          X.inversesqrt (distanceSquaredOf self player) * distanceSquaredOf self player - 1| ≤
        eps →
      |(accelArgument X self player deltaTime).dot (accelArgument X self player deltaTime) -
          (3 * deltaTime) * (3 * deltaTime)| ≤ eps * ((3 * deltaTime) * (3 * deltaTime))) ∧
    (X.inversesqrt (distanceSquaredOf self player) *
        X.inversesqrt (distanceSquaredOf self player) * distanceSquaredOf self player = 1 →
      (accelArgument X self player deltaTime).dot (accelArgument X self player deltaTime) =
        (3 * deltaTime) * (3 * deltaTime)) ∧
    (deltaTime ≠ 0 →
      (accelArgument X self player deltaTime).dot (accelArgument X self player deltaTime) =
        (3 * deltaTime) * (3 * deltaTime) →
      X.inversesqrt (distanceSquaredOf self player) *
        X.inversesqrt (distanceSquaredOf self player) * distanceSquaredOf self player = 1) := by
  have ha : accelArgument X self player deltaTime =
      ((toPlayerOf self player).scale (X.inversesqrt (distanceSquaredOf self player))).scale
        (3 * deltaTime) := rfl
  have hdot := accelArgument_dot X self player deltaTime
  refine ⟨?_, ?_, ?_, ?_, ⟨?_, ?_, ?_⟩, ⟨by linarith, hdot⟩, ?_, ?_, ?_, ?_, ?_⟩
  · unfold Enemy.accelCalls evalStateAccelCalls accelArgument
    simp [h]
  · show updatePosition X (evalState X self _ _ deltaTime) worldBounds = _
    rw [evalState_attack X self _ _ _ h]
    rfl
  · rw [ha]
    simp [Vec3.scale, toPlayerOf, Vec3.sub]
  · rw [ha]
    simp [Vec3.scale, toPlayerOf]
  · exact mul_nonneg hr.le (by linarith)
  · intro hpos
    exact mul_pos hr (by linarith)
  · rw [ha]
    simp [Vec3.scale, mul_assoc]
  · intro hpos
    rw [hdot]
    have h3 : 0 < 3 * deltaTime := by linarith
    exact mul_pos (mul_pos h3 h3) (mul_pos (mul_pos hr hr) hd)
  · rw [hdot]
    have h3 : (0 : ℝ) ≤ 3 * (deltaTime : ℝ) := by
      have : (0 : ℝ) ≤ (deltaTime : ℝ) := by exact_mod_cast hdt
      linarith
    have hrR : (0 : ℝ) ≤ (X.inversesqrt (distanceSquaredOf self player) : ℝ) := by
      exact_mod_cast hr.le
    have hdR : (0 : ℝ) ≤ ((distanceSquaredOf self player : ℚ) : ℝ) := by exact_mod_cast hd.le
    push_cast
    have e : (3 * (deltaTime : ℝ)) * (3 * (deltaTime : ℝ)) *
        ((X.inversesqrt (distanceSquaredOf self player) : ℝ) *
          (X.inversesqrt (distanceSquaredOf self player) : ℝ) *
          ((distanceSquaredOf self player : ℚ) : ℝ)) =
        ((3 * (deltaTime : ℝ)) * (X.inversesqrt (distanceSquaredOf self player) : ℝ)) ^ 2 *
          ((distanceSquaredOf self player : ℚ) : ℝ) := by ring
    rw [e, Real.sqrt_mul (sq_nonneg _), Real.sqrt_sq (mul_nonneg h3 hrR)]
    ring
  · intro eps heps
    rw [hdot]
    have e : (3 * deltaTime) * (3 * deltaTime) *
        (X.inversesqrt (distanceSquaredOf self player) *
          X.inversesqrt (distanceSquaredOf self player) * distanceSquaredOf self player) -
        (3 * deltaTime) * (3 * deltaTime) =
        ((3 * deltaTime) * (3 * deltaTime)) *
          (X.inversesqrt (distanceSquaredOf self player) *
            X.inversesqrt (distanceSquaredOf self player) * distanceSquaredOf self player - 1) := by
      ring
    rw [e, abs_mul, abs_of_nonneg (mul_self_nonneg (3 * deltaTime)), mul_comm eps]
    exact mul_le_mul_of_nonneg_left heps (mul_self_nonneg _)
  · intro he
    rw [hdot, he, mul_one]
  · intro hne heq
    rw [hdot] at heq
    have hne2 : (3 * deltaTime) * (3 * deltaTime) ≠ 0 := by
      have : 3 * deltaTime ≠ 0 := mul_ne_zero (by norm_num) hne
      exact mul_ne_zero this this
    exact mul_left_cancel₀ hne2 (heq.trans (mul_one _).symm)

/-- Witness of the amended C5: an attacking enemy at (1, 0, 1), player at the origin,
d2 = 2, a tick of 1/60 s and an inversesqrt that returns 0.7 at 2 (0.7^2 * 2 = 0.98): the
vector given to accel has Y component 0 and its squared length is within 2 percent of
(3/60)^2. And an attacking enemy at (15, 0, 0), d2 = 225, where the inverse square root
1/15 is exact: the squared length is (3/60)^2. -/
theorem C5_attack_accel_witness :
    (accelArgument roundedExt (enemyAt AIState.ATTACK ⟨1, 0, 1⟩) (playerAt zeroVec)
      (1 / 60)).y = 0 ∧
    |(accelArgument roundedExt (enemyAt AIState.ATTACK ⟨1, 0, 1⟩) (playerAt zeroVec)
          (1 / 60)).dot
        (accelArgument roundedExt (enemyAt AIState.ATTACK ⟨1, 0, 1⟩) (playerAt zeroVec)
          (1 / 60)) - (3 * (1 / 60)) * (3 * (1 / 60))| ≤
      1 / 50 * ((3 * (1 / 60)) * (3 * (1 / 60))) ∧
    (accelArgument (specExt 0 1) (enemyAt AIState.ATTACK ⟨15, 0, 0⟩) (playerAt zeroVec)
        (1 / 60)).dot
      (accelArgument (specExt 0 1) (enemyAt AIState.ATTACK ⟨15, 0, 0⟩) (playerAt zeroVec)
        (1 / 60)) = (3 * (1 / 60)) * (3 * (1 / 60)) := by
  have hd15 : distanceSquaredOf (enemyAt AIState.ATTACK ⟨15, 0, 0⟩) (playerAt zeroVec) =
      ((15 * 15 : ℕ) : ℚ) := by
    rw [distanceSquaredOf_eq]
    norm_num [enemyAt, entityAt, playerAt, zeroVec]
  have hi15 : (specExt 0 1).inversesqrt
      (distanceSquaredOf (enemyAt AIState.ATTACK ⟨15, 0, 0⟩) (playerAt zeroVec)) = 1 / 15 := by
    rw [hd15]
    exact (specInversesqrt_sq 15 (by norm_num)).trans (by norm_num)
  have h15 := C5_attack_accel (specExt 0 1) (enemyAt AIState.ATTACK ⟨15, 0, 0⟩)
    (playerAt zeroVec) (1 / 60) forestBounds rfl (by rw [hd15]; norm_num)
    (by rw [hi15]; norm_num) (by norm_num)
  have hd : distanceSquaredOf (enemyAt AIState.ATTACK ⟨1, 0, 1⟩) (playerAt zeroVec) = 2 := by
    rw [distanceSquaredOf_eq]
    norm_num [enemyAt, entityAt, playerAt, zeroVec]
  have hi : roundedExt.inversesqrt
      (distanceSquaredOf (enemyAt AIState.ATTACK ⟨1, 0, 1⟩) (playerAt zeroVec)) = 7 / 10 := by
    rw [hd]
    simp [roundedExt]
  have h := C5_attack_accel roundedExt (enemyAt AIState.ATTACK ⟨1, 0, 1⟩) (playerAt zeroVec)
    (1 / 60) forestBounds rfl (by rw [hd]; norm_num) (by rw [hi]; norm_num) (by norm_num)
  refine ⟨h.2.2.2.1, h.2.2.2.2.2.2.2.2.1 (1 / 50) ?_,
    h15.2.2.2.2.2.2.2.2.2.1 (by rw [hi15, hd15]; norm_num)⟩
  rw [hi, hd]
  rw [abs_le]
  constructor <;> norm_num

/-- A tick started in IDLE: no call of `accel`; the end of the tick runs on the enemy as
it was, with the new state. -/
theorem onGameTick_idle (X : Ext) (self : Enemy) (player : Player) (deltaTime : ℚ)
    (worldBounds : AABB) (h : self.state = AIState.IDLE) :
    self.onGameTick X player deltaTime worldBounds =
      updatePosition X
        (if distanceSquaredOf self player < 400 then { self with state := AIState.ATTACK }
          else self) worldBounds := by
  show updatePosition X (evalState X self _ _ deltaTime) worldBounds = _
  rw [evalState_idle X self _ _ _ h]
  rfl

/-- The sample enemy at (15, 0, 0) has d2 = 225 = 15 * 15 from a player at the origin. -/
theorem distanceSquaredOf_sample (s : AIState) :
    distanceSquaredOf (enemyAt s ⟨15, 0, 0⟩) (playerAt zeroVec) = ((15 * 15 : ℕ) : ℚ) := by
  rw [distanceSquaredOf_eq]
  norm_num [enemyAt, entityAt, playerAt, zeroVec]

/-- The vector that `accel` would receive for the sample enemy at (15, 0, 0) and a tick
of 1/60 s: length 3/60, pointing from the enemy to the player. -/
theorem accelArgument_sample (s : AIState) :
    accelArgument (specExt 0 1) (enemyAt s ⟨15, 0, 0⟩) (playerAt zeroVec) (1 / 60) =
      ⟨-1 / 20, 0, 0⟩ := by
  have ha : accelArgument (specExt 0 1) (enemyAt s ⟨15, 0, 0⟩) (playerAt zeroVec) (1 / 60) =
      ((toPlayerOf (enemyAt s ⟨15, 0, 0⟩) (playerAt zeroVec)).scale
        (specInversesqrt (distanceSquaredOf (enemyAt s ⟨15, 0, 0⟩) (playerAt zeroVec)))).scale
        (3 * (1 / 60)) := rfl
  rw [ha, distanceSquaredOf_sample, specInversesqrt_sq 15 (by norm_num)]
  simp only [toPlayerOf, Vec3.scale, Vec3.sub, enemyAt, entityAt, playerAt, zeroVec]
  norm_num

/-- C6, as stated, fails: for the idle enemy at horizontal distance 15 one tick sets the
state to ATTACK, but the velocity after the tick is the velocity before it, although the
vector that accel would have received is not zero; the result differs from the one that
a call of accel in that tick produces. -/
theorem C6_same_tick_accel_counterexample :
    ((enemyAt AIState.IDLE ⟨15, 0, 0⟩).onGameTick (specExt 0 1) (playerAt zeroVec) (1 / 60)
        forestBounds).state = AIState.ATTACK ∧
    ((enemyAt AIState.IDLE ⟨15, 0, 0⟩).onGameTick (specExt 0 1) (playerAt zeroVec) (1 / 60)
        forestBounds).velocity = (enemyAt AIState.IDLE ⟨15, 0, 0⟩).velocity ∧
    accelArgument (specExt 0 1) (enemyAt AIState.IDLE ⟨15, 0, 0⟩) (playerAt zeroVec) (1 / 60) =
      ⟨-1 / 20, 0, 0⟩ ∧
    (enemyAt AIState.IDLE ⟨15, 0, 0⟩).onGameTick (specExt 0 1) (playerAt zeroVec) (1 / 60)
        forestBounds ≠
      updatePosition (specExt 0 1)
        { toEntity := (specExt 0 1).accel (enemyAt AIState.IDLE ⟨15, 0, 0⟩).toEntity
            (accelArgument (specExt 0 1) (enemyAt AIState.IDLE ⟨15, 0, 0⟩) (playerAt zeroVec)
              (1 / 60))
          state := AIState.ATTACK
          speedModifier := (enemyAt AIState.IDLE ⟨15, 0, 0⟩).speedModifier } forestBounds := by
  have hlt : distanceSquaredOf (enemyAt AIState.IDLE ⟨15, 0, 0⟩) (playerAt zeroVec) < 400 := by
    rw [distanceSquaredOf_sample]; norm_num
  have ht := onGameTick_idle (specExt 0 1) (enemyAt AIState.IDLE ⟨15, 0, 0⟩) (playerAt zeroVec)
    (1 / 60) forestBounds rfl
  rw [if_pos hlt] at ht
  refine ⟨?_, ?_, accelArgument_sample _, ?_⟩
  · rw [ht]; rfl
  · rw [ht]; rfl
  · rw [ht, accelArgument_sample]
    intro hEq
    have hv := congrArg (fun e : Enemy => e.velocity.x) hEq
    simp [updatePosition, specExt, specMove, specAccel, specBoundsCheckPosition, enemyAt,
      entityAt, zeroVec, Vec3.add] at hv
    norm_num at hv

/-- C6, amended. For an enemy that starts a tick in IDLE with d2 < 400, that call of
Enemy::onGameTick sets the state to ATTACK and does not call accel: the end of the tick
(move, bounds check, box update) runs on the unchanged entity. The next call, which starts
in ATTACK, calls accel once with the normalised offset to the player times 3 * dt. -/
theorem C6_idle_to_attack_then_accel (X : Ext) (self : Enemy) (player : Player)
    (deltaTime : ℚ) (worldBounds : AABB) (h : self.state = AIState.IDLE)
    (hd : distanceSquaredOf self player < 400) :
    self.onGameTick X player deltaTime worldBounds =
      updatePosition X { self with state := AIState.ATTACK } worldBounds ∧
    (self.onGameTick X player deltaTime worldBounds).state = AIState.ATTACK ∧
    ∀ (player2 : Player) (deltaTime2 : ℚ) (worldBounds2 : AABB),
      (self.onGameTick X player deltaTime worldBounds).onGameTick X player2 deltaTime2
          worldBounds2 =
        updatePosition X
          { toEntity := X.accel (self.onGameTick X player deltaTime worldBounds).toEntity
              (accelArgument X (self.onGameTick X player deltaTime worldBounds) player2
                deltaTime2)
            state :=
              if 400 < distanceSquaredOf (self.onGameTick X player deltaTime worldBounds) player2 ∧
                  distanceSquaredOf (self.onGameTick X player deltaTime worldBounds) player2 < 1225
              then AIState.LOSING_SIGHT else AIState.ATTACK
            speedModifier := (self.onGameTick X player deltaTime worldBounds).speedModifier }
          worldBounds2 := by
  have ht := onGameTick_idle X self player deltaTime worldBounds h
  rw [if_pos hd] at ht
  have hs : (self.onGameTick X player deltaTime worldBounds).state = AIState.ATTACK := by
    rw [ht]; rfl
  refine ⟨ht, hs, ?_⟩
  intro player2 deltaTime2 worldBounds2
  show updatePosition X (evalState X _ _ _ deltaTime2) worldBounds2 = _
  rw [evalState_attack X _ _ _ _ hs]
  rfl

/-- Witness of the amended C6: the idle enemy at (15, 0, 0), player at the origin. -/
theorem C6_idle_to_attack_then_accel_witness :
    ((enemyAt AIState.IDLE ⟨15, 0, 0⟩).onGameTick (specExt 0 1) (playerAt zeroVec) (1 / 60)
        forestBounds).state = AIState.ATTACK :=
  (C6_idle_to_attack_then_accel (specExt 0 1) (enemyAt AIState.IDLE ⟨15, 0, 0⟩)
    (playerAt zeroVec) (1 / 60) forestBounds rfl
    (by rw [distanceSquaredOf_sample]; norm_num)).2.1

/-- Clamping a value that lies in the range returns it. -/
theorem clamp_of_mem (lo hi v : ℚ) (h1 : lo ≤ v) (h2 : v ≤ hi) : clamp lo hi v = v := by
  unfold clamp
  rw [if_neg (not_lt.mpr h1), if_neg (not_lt.mpr h2)]

/-- C7, as stated, fails (with move as the spec describes it): the idle enemy at (30, 0, 0),
d2 = 900 >= 400, carrying the velocity (-1, 0, 0), stays IDLE and is at (29, 0, 0) after
the tick. -/
theorem C7_idle_drift_counterexample :
    driftingEnemy.state = AIState.IDLE ∧
    400 ≤ distanceSquaredOf driftingEnemy (playerAt zeroVec) ∧
    (driftingEnemy.onGameTick (specExt 0 1) (playerAt zeroVec) (1 / 60) forestBounds).state =
      AIState.IDLE ∧
    (driftingEnemy.onGameTick (specExt 0 1) (playerAt zeroVec) (1 / 60) forestBounds).position =
      ⟨29, 0, 0⟩ ∧
    (driftingEnemy.onGameTick (specExt 0 1) (playerAt zeroVec) (1 / 60) forestBounds).position ≠
      driftingEnemy.position := by
  have hd : distanceSquaredOf driftingEnemy (playerAt zeroVec) = 900 := by
    rw [distanceSquaredOf_eq]
    norm_num [driftingEnemy, enemyAt, entityAt, playerAt, zeroVec]
  have ht := onGameTick_idle (specExt 0 1) driftingEnemy (playerAt zeroVec) (1 / 60)
    forestBounds rfl
  rw [if_neg (by rw [hd]; norm_num)] at ht
  have hp : (driftingEnemy.onGameTick (specExt 0 1) (playerAt zeroVec) (1 / 60)
      forestBounds).position = ⟨29, 0, 0⟩ := by
    rw [ht]
    simp only [updatePosition, specExt, specMove, specBoundsCheckPosition, driftingEnemy,
      enemyAt, entityAt, zeroVec, Vec3.add, Vec3.scale, forestBounds, clamp]
    norm_num
  refine ⟨rfl, by rw [hd]; norm_num, by rw [ht]; rfl, hp, ?_⟩
  rw [hp]
  simp [driftingEnemy, entityAt]

/-- C7, amended. An enemy that starts a tick in IDLE with d2 >= 400 stays IDLE and no
accel is called, but move, boundsCheckPosition and the box update still run on the entity
with the velocity it carries over. With move and boundsCheckPosition as the spec describes
them, the position is unchanged when that velocity is zero, the enemy is not affected by
gravity and its position lies within the world bounds. -/
theorem C7_idle_no_accel (X : Ext) (self : Enemy) (player : Player) (deltaTime : ℚ)
    (worldBounds : AABB) (h : self.state = AIState.IDLE)
    (hd : 400 ≤ distanceSquaredOf self player) :
    self.onGameTick X player deltaTime worldBounds = updatePosition X self worldBounds ∧
    (self.onGameTick X player deltaTime worldBounds).state = AIState.IDLE ∧
    ∀ g dtMove : ℚ, self.velocity = zeroVec → self.isAffectedByGravity = false →
      withinBounds worldBounds self.position →
      (self.onGameTick (specExt g dtMove) player deltaTime worldBounds).position =
        self.position := by
  have ht : ∀ Y : Ext, self.onGameTick Y player deltaTime worldBounds =
      updatePosition Y self worldBounds := by
    intro Y
    have := onGameTick_idle Y self player deltaTime worldBounds h
    rwa [if_neg (not_lt.mpr hd)] at this
  refine ⟨ht X, by rw [ht X]; exact h, ?_⟩
  intro g dtMove hv hg hb
  rw [ht]
  obtain ⟨b1, b2, b3, b4, b5, b6⟩ := hb
  simp only [updatePosition, specExt, specMove, specBoundsCheckPosition, hv, hg, zeroVec,
    Vec3.add, Vec3.scale]
  simp only [Bool.false_eq_true, if_false, zero_mul, add_zero]
  rw [clamp_of_mem _ _ _ b1 b2, clamp_of_mem _ _ _ b3 b4, clamp_of_mem _ _ _ b5 b6]

/-- Witness of the amended C7: an idle enemy at rest at (30, 0, 0) does not move. -/
theorem C7_idle_no_accel_witness :
    ((enemyAt AIState.IDLE ⟨30, 0, 0⟩).onGameTick (specExt 0 1) (playerAt zeroVec) (1 / 60)
        forestBounds).position = ⟨30, 0, 0⟩ :=
  (C7_idle_no_accel (specExt 0 1) (enemyAt AIState.IDLE ⟨30, 0, 0⟩) (playerAt zeroVec) (1 / 60)
    forestBounds rfl
    (by rw [distanceSquaredOf_eq]; norm_num [enemyAt, entityAt, playerAt, zeroVec])).2.2 0 1 rfl
    rfl (by norm_num [withinBounds, forestBounds, enemyAt, entityAt])

/-! ## Theorems: the collision pass -/

/-- One contact iteration with a hit on a player that is not invincible. -/
theorem contactOne_hit (X : Ext) (s : GameLoop) (e : Enemy)
    (hi : X.intersects (X.getAABB e.toEntity) (X.getAABB s.player.toEntity) = true)
    (hn : X.isInvincible s.player = false) :
    contactOne X s e =
      { s with player := X.hurtPlayer s.player 20, hurtStarts := s.hurtStarts + 1 } := by
  simp [contactOne, hi, hn]

/-- One contact iteration without a hit, or on an invincible player, changes nothing. -/
theorem contactOne_miss (X : Ext) (s : GameLoop) (e : Enemy)
    (h : ¬ (X.intersects (X.getAABB e.toEntity) (X.getAABB s.player.toEntity) = true ∧
      X.isInvincible s.player = false)) :
    contactOne X s e = s := by
  unfold contactOne
  split_ifs with h1 h2
  · rfl
  · exact absurd ⟨h1, by simpa using h2⟩ h
  · rfl

/-- The contact loop leaves an invincible player, and the whole state, as they are. -/
theorem foldl_contactOne_invincible (X : Ext) (es : List Enemy) (s : GameLoop)
    (h : X.isInvincible s.player = true) : es.foldl (contactOne X) s = s := by
  induction es with
  | nil => rfl
  | cons e es ih =>
    rw [List.foldl_cons, contactOne_miss X s e (by simp [h])]
    exact ih

/-- The contact loop on a player that stays non-invincible: one `hurtPlayer(20)` and one
feedback trigger per intersecting enemy. -/
theorem foldl_contactOne_count (X : Ext)
    (hbox : ∀ q : Player, X.getAABB (X.hurtPlayer q 20).toEntity = X.getAABB q.toEntity)
    (es : List Enemy) :
    ∀ s : GameLoop, (∀ m : Nat, X.isInvincible (hurtTimes X m s.player) = false) →
      es.foldl (contactOne X) s =
        { s with
          player := hurtTimes X (contactCount X s.player es) s.player
          hurtStarts := s.hurtStarts + contactCount X s.player es } := by
  induction es with
  | nil => intro s _; rfl
  | cons e es ih =>
    intro s hinv
    rw [List.foldl_cons]
    by_cases hi : X.intersects (X.getAABB e.toEntity) (X.getAABB s.player.toEntity) = true
    · rw [contactOne_hit X s e hi (hinv 0)]
      rw [ih _ (fun m => by
        have := hinv (m + 1)
        simpa [hurtTimes, Function.iterate_succ_apply] using this)]
      have hc : contactCount X (X.hurtPlayer s.player 20) es = contactCount X s.player es := by
        simp only [contactCount, hbox]
      have hc2 : contactCount X s.player (e :: es) = contactCount X s.player es + 1 := by
        simp [contactCount, List.countP_cons, hi]
      simp only [hc, hc2, hurtTimes, Function.iterate_succ_apply]
      congr 1
      omega
    · rw [contactOne_miss X s e (fun h => hi h.1), ih s hinv]
      have hc2 : contactCount X s.player (e :: es) = contactCount X s.player es := by
        simp [contactCount, List.countP_cons, hi]
      rw [hc2]

/-- C8. Player-enemy contact step of GameLoop::collisionCheck. (a) When the loop reaches an
enemy, with the player as left by the enemies before it, hurtPlayer(20) and the feedback
trigger are invoked if that enemy's box intersects the player's box and the player is not
invincible at that moment, and otherwise nothing changes; the loop then goes on with the
enemies after it. (b) An invincible player receives no damage and no feedback. (c) While
the player stays non-invincible, k intersecting enemies apply hurtPlayer(20) k times and
trigger the feedback k times. -/
theorem C8_contact_step (X : Ext) (g : GameLoop) :
    (∀ (pre post : List Enemy) (e : Enemy), g.enemies = pre ++ e :: post →
      contactStep X g =
        post.foldl (contactOne X) (contactOne X (pre.foldl (contactOne X) g) e) ∧
      ((X.intersects (X.getAABB e.toEntity)
            (X.getAABB (pre.foldl (contactOne X) g).player.toEntity) = true ∧
          X.isInvincible (pre.foldl (contactOne X) g).player = false) →
        (contactOne X (pre.foldl (contactOne X) g) e).player =
            X.hurtPlayer (pre.foldl (contactOne X) g).player 20 ∧
          (contactOne X (pre.foldl (contactOne X) g) e).hurtStarts =
            (pre.foldl (contactOne X) g).hurtStarts + 1) ∧
      (¬ (X.intersects (X.getAABB e.toEntity)
            (X.getAABB (pre.foldl (contactOne X) g).player.toEntity) = true ∧
          X.isInvincible (pre.foldl (contactOne X) g).player = false) →
        contactOne X (pre.foldl (contactOne X) g) e = pre.foldl (contactOne X) g)) ∧
    (X.isInvincible g.player = true → contactStep X g = g) ∧
    ((∀ m : Nat, X.isInvincible (hurtTimes X m g.player) = false) →
      (∀ q : Player, X.getAABB (X.hurtPlayer q 20).toEntity = X.getAABB q.toEntity) →
      contactStep X g =
        { g with
          player := hurtTimes X (contactCount X g.player g.enemies) g.player
          hurtStarts := g.hurtStarts + contactCount X g.player g.enemies }) := by
  refine ⟨?_, ?_, ?_⟩
  · intro pre post e hsplit
    refine ⟨?_, ?_, ?_⟩
    · unfold contactStep
      rw [hsplit, List.foldl_append, List.foldl_cons]
    · intro h
      rw [contactOne_hit X _ e h.1 h.2]
      exact ⟨rfl, rfl⟩
    · intro h
      exact contactOne_miss X _ e h
  · intro h
    exact foldl_contactOne_invincible X g.enemies g h
  · intro hinv hbox
    exact foldl_contactOne_count X hbox g.enemies g hinv

/-- With `hurtPlayer` as the spec describes it, `k` calls take `20 * k` from the health and
leave the invincibility timer and the box alone. -/
theorem specExt_hurtTimes (g dt : ℚ) (k : Nat) (p : Player) :
    (hurtTimes (specExt g dt) k p).health = p.health - 20 * (k : Int) ∧
    (hurtTimes (specExt g dt) k p).invincibilityTimer = p.invincibilityTimer ∧
    (hurtTimes (specExt g dt) k p).boundingBox = p.boundingBox := by
  induction k generalizing p with
  | zero => simp [hurtTimes]
  | succ k ih =>
    have hstep : hurtTimes (specExt g dt) (k + 1) p =
        hurtTimes (specExt g dt) k ((specExt g dt).hurtPlayer p 20) := by
      simp [hurtTimes, Function.iterate_succ_apply]
    rw [hstep]
    obtain ⟨h1, h2, h3⟩ := ih ((specExt g dt).hurtPlayer p 20)
    refine ⟨?_, ?_, ?_⟩
    · rw [h1]
      simp only [specExt]
      push_cast
      ring
    · rw [h2]; rfl
    · rw [h3]; rfl

/-- Witness of C8: in the sample session two of the three enemies touch the player, who is
not invincible; the contact step takes 2 * 20 from the health 100 and triggers the feedback
twice. -/
theorem C8_contact_step_witness :
    (contactStep (specExt 0 1) contactSample).player.health = 60 ∧
    (contactStep (specExt 0 1) contactSample).hurtStarts = 2 := by
  have hinv : ∀ m : Nat, (specExt 0 1).isInvincible
      (hurtTimes (specExt 0 1) m contactSample.player) = false := by
    intro m
    have h2 := (specExt_hurtTimes 0 1 m contactSample.player).2.1
    show decide (0 < (hurtTimes (specExt 0 1) m contactSample.player).invincibilityTimer) = false
    rw [h2]
    simp [contactSample, playerAt]
  have hbox : ∀ q : Player, (specExt 0 1).getAABB ((specExt 0 1).hurtPlayer q 20).toEntity =
      (specExt 0 1).getAABB q.toEntity := fun _ => rfl
  have hk : contactCount (specExt 0 1) contactSample.player contactSample.enemies = 2 := by
    simp only [contactCount, contactSample, specExt, specIntersects, boxedEnemy, entityAt,
      playerAt, List.countP_cons, List.countP_nil]
    norm_num
  have h := (C8_contact_step (specExt 0 1) contactSample).2.2 hinv hbox
  rw [h, hk]
  refine ⟨?_, rfl⟩
  rw [(specExt_hurtTimes 0 1 2 contactSample.player).1]
  rfl

/-- The index loop past the end of the collection returns the state. -/
theorem projectileLoop_done (X : Ext) (j : Nat) (g : GameLoop)
    (hj : ¬ j < g.projectiles.length) : projectileLoop X j g = g := by
  rw [projectileLoop, dif_neg hj]

/-- The index loop at a projectile with exactly one hit: the enemy is hurt, the projectile
erased, and the loop goes on at the same index. -/
theorem projectileLoop_single (X : Ext) (j : Nat) (g : GameLoop)
    (hj : j < g.projectiles.length)
    (h1 : (hitsOf X g.enemies (g.projectiles[j])).length = 1) :
    projectileLoop X j g =
      projectileLoop X j
        { g with
          enemies := hurtAt X ((hitsOf X g.enemies (g.projectiles[j])).headD 0) g.enemies
          projectiles := g.projectiles.eraseIdx j } := by
  conv_lhs => rw [projectileLoop]
  simp only [dif_pos hj, h1, if_true]

/-- The index loop at a projectile whose hit count is not one: nothing changes and the
loop goes on at the next index. -/
theorem projectileLoop_other (X : Ext) (j : Nat) (g : GameLoop)
    (hj : j < g.projectiles.length)
    (h1 : (hitsOf X g.enemies (g.projectiles[j])).length ≠ 1) :
    projectileLoop X j g = projectileLoop X (j + 1) g := by
  conv_lhs => rw [projectileLoop]
  simp only [dif_pos hj, h1, if_false, Bool.and_false, Bool.false_eq_true]

/-- The index loop agrees with the list view: from index `j`, with the first `j`
projectiles already kept, the remaining ones are resolved in order. -/
theorem projectileLoop_eq_foldl (X : Ext) :
    ∀ (n j : Nat) (g : GameLoop), g.projectiles.length - j = n →
      projectileLoop X j g =
        (g.projectiles.drop j).foldl (resolveOne X)
          { g with projectiles := g.projectiles.take j } := by
  intro n
  induction n using Nat.strong_induction_on with
  | _ n ih =>
    intro j g hn
    by_cases hj : j < g.projectiles.length
    · have hdrop : g.projectiles.drop j = g.projectiles[j] :: g.projectiles.drop (j + 1) :=
        List.drop_eq_getElem_cons hj
      by_cases h1 : (hitsOf X g.enemies g.projectiles[j]).length = 1
      · rw [projectileLoop_single X j g hj h1]
        rw [ih (n - 1) (by omega) j _ (by
          simp only [List.length_eraseIdx_of_lt hj]; omega)]
        rw [hdrop, List.foldl_cons]
        have hr : resolveOne X { g with projectiles := g.projectiles.take j } g.projectiles[j] =
            { g with
              enemies := hurtAt X ((hitsOf X g.enemies g.projectiles[j]).headD 0) g.enemies
              projectiles := g.projectiles.take j } := by
          unfold resolveOne
          exact if_pos h1
        rw [hr]
        have e1 : (g.projectiles.eraseIdx j).drop j = g.projectiles.drop (j + 1) := by
          rw [List.eraseIdx_eq_take_drop_succ, List.drop_append_of_le_length (by
            rw [List.length_take]; omega)]
          rw [List.drop_eq_nil_of_le (by rw [List.length_take]; omega), List.nil_append]
        have e2 : (g.projectiles.eraseIdx j).take j = g.projectiles.take j := by
          rw [List.eraseIdx_eq_take_drop_succ, List.take_append_of_le_length (by
            rw [List.length_take]; omega)]
          rw [List.take_take, Nat.min_self]
        simp only [e1, e2]
      · rw [projectileLoop_other X j g hj h1]
        rw [ih (n - 1) (by omega) (j + 1) g (by omega)]
        rw [hdrop, List.foldl_cons]
        have ht : g.projectiles.take (j + 1) = g.projectiles.take j ++ [g.projectiles[j]] := by
          rw [List.take_succ, List.getElem?_eq_getElem hj]
          rfl
        have hr : resolveOne X { g with projectiles := g.projectiles.take j } g.projectiles[j] =
            { g with projectiles := g.projectiles.take (j + 1) } := by
          unfold resolveOne
          rw [ht]
          exact if_neg h1
        rw [hr]
    · rw [projectileLoop_done X j g hj]
      have hle : g.projectiles.length ≤ j := by omega
      rw [List.drop_eq_nil_of_le hle, List.take_of_length_le hle]
      rfl

/-- The projectile-enemy step is the list view run on all projectiles. -/
theorem projectileStep_eq_resolveAll (X : Ext) (g : GameLoop) :
    projectileStep X g = resolveAll X g g.projectiles := by
  unfold projectileStep resolveAll
  rw [projectileLoop_eq_foldl X _ 0 g rfl]
  simp

/-- Every index collected by the inner loop lies in the scanned range. -/
theorem hitsFrom_bound (X : Ext) (c : Capsule3D) (es : List Enemy) :
    ∀ (start i : Nat), i ∈ hitsFrom X c start es → start ≤ i ∧ i < start + es.length := by
  induction es with
  | nil => intro start i h; simp [hitsFrom] at h
  | cons e es ih =>
    intro start i h
    unfold hitsFrom at h
    split_ifs at h
    · rcases List.mem_cons.mp h with h0 | h1
      · subst h0; simp
      · have := ih (start + 1) i h1
        simp only [List.length_cons]; omega
    · have := ih (start + 1) i h
      simp only [List.length_cons]; omega

/-- One list-view iteration leaves the player and the three counters alone. -/
theorem resolveOne_frame (X : Ext) (acc : GameLoop) (p : Projectile) :
    (resolveOne X acc p).player = acc.player ∧
    (resolveOne X acc p).hurtStarts = acc.hurtStarts ∧
    (resolveOne X acc p).randomDraws = acc.randomDraws ∧
    (resolveOne X acc p).closestPicks = acc.closestPicks := by
  unfold resolveOne
  split_ifs <;> exact ⟨rfl, rfl, rfl, rfl⟩

/-- The list view leaves the player and the three counters alone. -/
theorem foldl_resolveOne_frame (X : Ext) (ps : List Projectile) :
    ∀ acc : GameLoop,
      (ps.foldl (resolveOne X) acc).player = acc.player ∧
      (ps.foldl (resolveOne X) acc).hurtStarts = acc.hurtStarts ∧
      (ps.foldl (resolveOne X) acc).randomDraws = acc.randomDraws ∧
      (ps.foldl (resolveOne X) acc).closestPicks = acc.closestPicks := by
  induction ps with
  | nil => intro acc; exact ⟨rfl, rfl, rfl, rfl⟩
  | cons p ps ih =>
    intro acc
    rw [List.foldl_cons]
    obtain ⟨a1, a2, a3, a4⟩ := ih (resolveOne X acc p)
    obtain ⟨b1, b2, b3, b4⟩ := resolveOne_frame X acc p
    exact ⟨a1.trans b1, a2.trans b2, a3.trans b3, a4.trans b4⟩

/-- The list view only appends to the projectiles kept so far. -/
theorem foldl_resolveOne_projectiles (X : Ext) (ps : List Projectile) :
    ∀ acc : GameLoop, ∃ rest : List Projectile,
      (ps.foldl (resolveOne X) acc).projectiles = acc.projectiles ++ rest := by
  induction ps with
  | nil => intro acc; exact ⟨[], by simp⟩
  | cons p ps ih =>
    intro acc
    rw [List.foldl_cons]
    obtain ⟨rest, hrest⟩ := ih (resolveOne X acc p)
    rw [hrest]
    unfold resolveOne
    split_ifs
    · exact ⟨rest, rfl⟩
    · exact ⟨p :: rest, by simp⟩

/-- The index loop never runs the branch guarded by `hits.size() > 1 && false`, and leaves
the player and the other counters alone. -/
theorem projectileLoop_frame (X : Ext) (j : Nat) (g : GameLoop) :
    (projectileLoop X j g).player = g.player ∧
    (projectileLoop X j g).hurtStarts = g.hurtStarts ∧
    (projectileLoop X j g).randomDraws = g.randomDraws ∧
    (projectileLoop X j g).closestPicks = g.closestPicks := by
  rw [projectileLoop_eq_foldl X _ j g rfl]
  exact foldl_resolveOne_frame X _ _

/-- One contact iteration leaves the collections and two counters alone. -/
theorem contactOne_frame (X : Ext) (s : GameLoop) (e : Enemy) :
    (contactOne X s e).enemies = s.enemies ∧
    (contactOne X s e).projectiles = s.projectiles ∧
    (contactOne X s e).randomDraws = s.randomDraws ∧
    (contactOne X s e).closestPicks = s.closestPicks := by
  unfold contactOne
  split_ifs <;> exact ⟨rfl, rfl, rfl, rfl⟩

/-- The contact loop leaves the collections and two counters alone. -/
theorem foldl_contactOne_frame (X : Ext) (es : List Enemy) :
    ∀ s : GameLoop,
      (es.foldl (contactOne X) s).enemies = s.enemies ∧
      (es.foldl (contactOne X) s).projectiles = s.projectiles ∧
      (es.foldl (contactOne X) s).randomDraws = s.randomDraws ∧
      (es.foldl (contactOne X) s).closestPicks = s.closestPicks := by
  induction es with
  | nil => intro s; exact ⟨rfl, rfl, rfl, rfl⟩
  | cons e es ih =>
    intro s
    rw [List.foldl_cons]
    obtain ⟨a1, a2, a3, a4⟩ := ih (contactOne X s e)
    obtain ⟨b1, b2, b3, b4⟩ := contactOne_frame X s e
    exact ⟨a1.trans b1, a2.trans b2, a3.trans b3, a4.trans b4⟩

/-- The contact step leaves the collections and two counters alone. -/
theorem contactStep_frame (X : Ext) (g : GameLoop) :
    (contactStep X g).enemies = g.enemies ∧
    (contactStep X g).projectiles = g.projectiles ∧
    (contactStep X g).randomDraws = g.randomDraws ∧
    (contactStep X g).closestPicks = g.closestPicks :=
  foldl_contactOne_frame X g.enemies g

/-- The death sweep past the end of the collection returns the state. -/
theorem deathLoop_done (X : Ext) (rand : Nat → ℚ) (i : Nat) (g : GameLoop)
    (hi : ¬ i < g.enemies.length) : deathLoop X rand i g = g := by
  rw [deathLoop, dif_neg hi]

/-- The death sweep at a dead enemy: rewards, one random draw, the enemy erased, and the
loop goes on at the same index. -/
theorem deathLoop_dead (X : Ext) (rand : Nat → ℚ) (i : Nat) (g : GameLoop)
    (hi : i < g.enemies.length) (hd : X.isDead g.enemies[i].toEntity = true) :
    deathLoop X rand i g =
      deathLoop X rand i
        { g with
          player :=
            if rand g.randomDraws < 5 / 100 then
              { g.player with
                score := g.player.score + 1
                ammoCount := g.player.ammoCount + 5
                healingItemCount := g.player.healingItemCount + 1 }
            else
              { g.player with
                score := g.player.score + 1
                ammoCount := g.player.ammoCount + 5 }
          randomDraws := g.randomDraws + 1
          enemies := g.enemies.eraseIdx i } := by
  conv_lhs => rw [deathLoop]
  simp only [dif_pos hi, hd, if_true]

/-- The death sweep at a live enemy goes on at the next index. -/
theorem deathLoop_alive (X : Ext) (rand : Nat → ℚ) (i : Nat) (g : GameLoop)
    (hi : i < g.enemies.length) (hd : ¬ X.isDead g.enemies[i].toEntity = true) :
    deathLoop X rand i g = deathLoop X rand (i + 1) g := by
  conv_lhs => rw [deathLoop]
  simp only [dif_pos hi, hd, if_false, Bool.false_eq_true]

/-- The death sweep leaves the projectiles and two counters alone. -/
theorem deathLoop_frame (X : Ext) (rand : Nat → ℚ) :
    ∀ (n i : Nat) (g : GameLoop), g.enemies.length - i = n →
      (deathLoop X rand i g).projectiles = g.projectiles ∧
      (deathLoop X rand i g).hurtStarts = g.hurtStarts ∧
      (deathLoop X rand i g).closestPicks = g.closestPicks := by
  intro n
  induction n using Nat.strong_induction_on with
  | _ n ih =>
    intro i g hn
    by_cases hi : i < g.enemies.length
    · by_cases hd : X.isDead g.enemies[i].toEntity = true
      · rw [deathLoop_dead X rand i g hi hd]
        exact ih (n - 1) (by omega) i _ (by
          simp only [List.length_eraseIdx_of_lt hi]; omega)
      · rw [deathLoop_alive X rand i g hi hd]
        exact ih (n - 1) (by omega) (i + 1) g (by omega)
    · rw [deathLoop_done X rand i g hi]
      exact ⟨rfl, rfl, rfl⟩

/-- Within `collisionCheck` the projectiles and the count of runs of the disabled branch
are those left by the projectile step. -/
theorem collisionCheck_projectiles (X : Ext) (rand : Nat → ℚ) (g : GameLoop) :
    (collisionCheck X rand g).projectiles = (projectileStep X (contactStep X g)).projectiles ∧
    (collisionCheck X rand g).closestPicks = g.closestPicks := by
  unfold collisionCheck deathSweep
  obtain ⟨h1, _, h3⟩ := deathLoop_frame X rand _ 0 (projectileStep X (contactStep X g)) rfl
  refine ⟨h1, ?_⟩
  rw [h3]
  unfold projectileStep
  rw [(projectileLoop_frame X 0 _).2.2.2, (contactStep_frame X g).2.2.2]

/-- C9. Single hit in GameLoop::collisionCheck. (a) At the iteration of a projectile that
hits exactly one enemy, hurt(20) is applied once to that enemy, no other enemy changes, the
projectile is erased (the collection shrinks by one) and the loop goes on at the same
index. (b) Over the whole pass: when the loop reaches a projectile p, the state being the
one left by the projectiles before it, and p hits exactly one enemy, that enemy is hurt
once, p is not kept, and the pass goes on with the projectiles after p. (c) With one
projectile and one hit enemy the projectile collection is empty after the step and after
collisionCheck, and only the hit enemy has changed. -/
theorem C9_single_hit (X : Ext) (rand : Nat → ℚ) (g : GameLoop) :
    (∀ (j : Nat) (hj : j < g.projectiles.length) (i : Nat),
      hitsOf X g.enemies g.projectiles[j] = [i] →
      projectileLoop X j g =
          projectileLoop X j
            { g with enemies := hurtAt X i g.enemies, projectiles := g.projectiles.eraseIdx j } ∧
        (g.projectiles.eraseIdx j).length + 1 = g.projectiles.length ∧
        i < g.enemies.length ∧
        (hurtAt X i g.enemies)[i]? =
          g.enemies[i]?.map (fun e => { e with toEntity := X.hurt e.toEntity 20 }) ∧
        ∀ k : Nat, k ≠ i → (hurtAt X i g.enemies)[k]? = g.enemies[k]?) ∧
    (∀ (pre post : List Projectile) (p : Projectile) (i : Nat),
      g.projectiles = pre ++ p :: post →
      hitsOf X (resolveAll X g pre).enemies p = [i] →
      projectileStep X g =
        post.foldl (resolveOne X)
          { resolveAll X g pre with enemies := hurtAt X i (resolveAll X g pre).enemies }) ∧
    (∀ (p : Projectile) (i : Nat), g.projectiles = [p] → hitsOf X g.enemies p = [i] →
      projectileStep X g = { g with enemies := hurtAt X i g.enemies, projectiles := [] } ∧
        (collisionCheck X rand g).projectiles = [] ∧
        (collisionCheck X rand g).projectiles.length + 1 = g.projectiles.length) := by
  refine ⟨?_, ?_, ?_⟩
  · intro j hj i hhit
    have h1 : (hitsOf X g.enemies g.projectiles[j]).length = 1 := by rw [hhit]; rfl
    refine ⟨?_, ?_, ?_, ?_, ?_⟩
    · rw [projectileLoop_single X j g hj h1, hhit]
      rfl
    · rw [List.length_eraseIdx_of_lt hj]; omega
    · have := hitsFrom_bound X (capsuleOf X g.projectiles[j]) g.enemies 0 i (by
        show i ∈ hitsOf X g.enemies g.projectiles[j]
        rw [hhit]; simp)
      omega
    · exact List.getElem?_modify_eq _ i g.enemies
    · intro k hk
      exact List.getElem?_modify_ne _ g.enemies (Ne.symm hk)
  · intro pre post p i hsplit hhit
    rw [projectileStep_eq_resolveAll, hsplit]
    show (pre ++ p :: post).foldl (resolveOne X) { g with projectiles := [] } = _
    rw [List.foldl_append, List.foldl_cons]
    congr 1
    show resolveOne X (resolveAll X g pre) p = _
    unfold resolveOne
    rw [if_pos (by rw [hhit]; rfl), hhit]
    rfl
  · intro p i hp hhit
    have hstep : ∀ g2 : GameLoop, g2.projectiles = [p] → g2.enemies = g.enemies →
        projectileStep X g2 = { g2 with enemies := hurtAt X i g2.enemies, projectiles := [] } := by
      intro g2 hp2 he2
      rw [projectileStep_eq_resolveAll, hp2]
      show resolveOne X { g2 with projectiles := [] } p = _
      unfold resolveOne
      have hh : hitsOf X g2.enemies p = [i] := by rw [he2]; exact hhit
      rw [if_pos (by show (hitsOf X g2.enemies p).length = 1; rw [hh]; rfl)]
      simp only [hh]
      rfl
    have hc : (collisionCheck X rand g).projectiles = [] := by
      rw [(collisionCheck_projectiles X rand g).1,
        hstep (contactStep X g) ((contactStep_frame X g).2.1.trans hp) (contactStep_frame X g).1]
    refine ⟨hstep g hp rfl, hc, ?_⟩
    rw [hc, hp]
    rfl

/-- Witness of C9: in the sample session the projectile hits only the first enemy; after
the step the projectile is gone, the first enemy has lost 20 of its 100 health and the
second has all of it. -/
theorem C9_single_hit_witness :
    (projectileStep (specExt 0 1) singleHitSample).projectiles = [] ∧
    (projectileStep (specExt 0 1) singleHitSample).enemies.map (fun e => e.health) =
      [80, 100] ∧
    (collisionCheck (specExt 0 1) (fun _ => 1 / 2) singleHitSample).projectiles = [] := by
  have hhit : hitsOf (specExt 0 1) singleHitSample.enemies
      (projectileAt ⟨1 / 2, 1 / 2, -1⟩ ⟨1 / 2, 1 / 2, 1 / 2⟩) = [0] := by
    simp only [hitsOf, hitsFrom, capsuleOf, specExt, specBrokenIntersection,
      segmentMeetsBox, singleHitSample,
      boxedEnemy, entityAt, projectileAt]
    norm_num [abs_div, abs_neg]
  have h := (C9_single_hit (specExt 0 1) (fun _ => 1 / 2) singleHitSample).2.2
    (projectileAt ⟨1 / 2, 1 / 2, -1⟩ ⟨1 / 2, 1 / 2, 1 / 2⟩) 0 rfl hhit
  refine ⟨by rw [h.1], ?_, h.2.1⟩
  rw [h.1]
  simp [hurtAt, singleHitSample, boxedEnemy, entityAt, specExt]

/-- C10. Multi-hit no-op in GameLoop::collisionCheck. (a) At the iteration of a projectile
that hits two or more enemies the state is not changed (no enemy is hurt, the projectile
stays) and the loop goes on at the next index; the projectile is still at its index when
the loop ends. (b) Over the whole pass: when the loop reaches a projectile p that hits two
or more enemies, the enemies are left as they are, p is kept, and p is in the projectile
collection after the step and after collisionCheck. (c) With one projectile that hits two
or more enemies the step changes nothing at all. (d) The branch that picks the closest
enemy is never executed, for any input. -/
theorem C10_multi_hit_noop (X : Ext) (rand : Nat → ℚ) (g : GameLoop) :
    (∀ (j : Nat) (hj : j < g.projectiles.length),
      2 ≤ (hitsOf X g.enemies g.projectiles[j]).length →
      projectileLoop X j g = projectileLoop X (j + 1) g ∧
        (projectileLoop X j g).projectiles[j]? = some g.projectiles[j]) ∧
    (∀ (pre post : List Projectile) (p : Projectile),
      g.projectiles = pre ++ p :: post →
      2 ≤ (hitsOf X (resolveAll X (contactStep X g) pre).enemies p).length →
      (resolveOne X (resolveAll X (contactStep X g) pre) p).enemies =
          (resolveAll X (contactStep X g) pre).enemies ∧
        projectileStep X (contactStep X g) =
          post.foldl (resolveOne X)
            { resolveAll X (contactStep X g) pre with
              projectiles := (resolveAll X (contactStep X g) pre).projectiles ++ [p] } ∧
        p ∈ (projectileStep X (contactStep X g)).projectiles ∧
        p ∈ (collisionCheck X rand g).projectiles) ∧
    (∀ p : Projectile, g.projectiles = [p] → 2 ≤ (hitsOf X g.enemies p).length →
      projectileStep X g = g) ∧
    ((∀ j : Nat, (projectileLoop X j g).closestPicks = g.closestPicks) ∧
      (collisionCheck X rand g).closestPicks = g.closestPicks) := by
  refine ⟨?_, ?_, ?_, ?_, ?_⟩
  · intro j hj h2
    have hne : (hitsOf X g.enemies g.projectiles[j]).length ≠ 1 := by omega
    have hstep := projectileLoop_other X j g hj hne
    refine ⟨hstep, ?_⟩
    rw [hstep, projectileLoop_eq_foldl X _ (j + 1) g rfl]
    obtain ⟨rest, hrest⟩ := foldl_resolveOne_projectiles X (g.projectiles.drop (j + 1))
      { g with projectiles := g.projectiles.take (j + 1) }
    rw [hrest]
    show (g.projectiles.take (j + 1) ++ rest)[j]? = _
    rw [List.getElem?_append_left (by rw [List.length_take]; omega),
      List.getElem?_take_of_lt (by omega), List.getElem?_eq_getElem hj]
  · intro pre post p hsplit h2
    have hne : (hitsOf X (resolveAll X (contactStep X g) pre).enemies p).length ≠ 1 := by omega
    have hone : resolveOne X (resolveAll X (contactStep X g) pre) p =
        { resolveAll X (contactStep X g) pre with
          projectiles := (resolveAll X (contactStep X g) pre).projectiles ++ [p] } := by
      unfold resolveOne
      exact if_neg hne
    have hall : projectileStep X (contactStep X g) =
        post.foldl (resolveOne X)
          { resolveAll X (contactStep X g) pre with
            projectiles := (resolveAll X (contactStep X g) pre).projectiles ++ [p] } := by
      rw [projectileStep_eq_resolveAll, (contactStep_frame X g).2.1, hsplit]
      show (pre ++ p :: post).foldl (resolveOne X) { contactStep X g with projectiles := [] } = _
      rw [List.foldl_append, List.foldl_cons]
      congr 1
    have hmem : p ∈ (projectileStep X (contactStep X g)).projectiles := by
      rw [hall]
      obtain ⟨rest, hrest⟩ := foldl_resolveOne_projectiles X post
        { resolveAll X (contactStep X g) pre with
          projectiles := (resolveAll X (contactStep X g) pre).projectiles ++ [p] }
      rw [hrest]
      simp
    refine ⟨by rw [hone], hall, hmem, ?_⟩
    rw [(collisionCheck_projectiles X rand g).1]
    exact hmem
  · intro p hp h2
    have hne : (hitsOf X g.enemies p).length ≠ 1 := by omega
    rw [projectileStep_eq_resolveAll, hp]
    show resolveOne X { g with projectiles := [] } p = g
    unfold resolveOne
    rw [if_neg hne]
    show ({ g with projectiles := [] ++ [p] } : GameLoop) = g
    rw [List.nil_append, ← hp]
  · intro j
    exact (projectileLoop_frame X j g).2.2.2
  · exact (collisionCheck_projectiles X rand g).2

/-- Witness of C10: in the sample session the projectile hits both enemies; the step
leaves the session as it was: both enemies keep their health 100 and the projectile is
still there. -/
theorem C10_multi_hit_noop_witness :
    (hitsOf (specExt 0 1) multiHitSample.enemies
      (projectileAt ⟨3 / 4, 1 / 2, -1⟩ ⟨3 / 4, 1 / 2, 3 / 4⟩)).length = 2 ∧
    projectileStep (specExt 0 1) multiHitSample = multiHitSample ∧
    (projectileStep (specExt 0 1) multiHitSample).enemies.map (fun e => e.health) =
      [100, 100] := by
  have hhit : hitsOf (specExt 0 1) multiHitSample.enemies
      (projectileAt ⟨3 / 4, 1 / 2, -1⟩ ⟨3 / 4, 1 / 2, 3 / 4⟩) = [0, 1] := by
    simp only [hitsOf, hitsFrom, capsuleOf, specExt, specBrokenIntersection,
      segmentMeetsBox, multiHitSample,
      boxedEnemy, entityAt, projectileAt]
    norm_num [abs_div, abs_neg]
  have h := (C10_multi_hit_noop (specExt 0 1) (fun _ => 1 / 2) multiHitSample).2.2.1
    (projectileAt ⟨3 / 4, 1 / 2, -1⟩ ⟨3 / 4, 1 / 2, 3 / 4⟩) rfl (by rw [hhit]; decide)
  refine ⟨by rw [hhit]; rfl, h, ?_⟩
  rw [h]
  rfl

/-! ## Theorems: the death sweep -/

/-- The death sweep agrees with its list view: from index `i`, the enemies before `i` stay,
the dead ones from `i` on are removed, and each removal pays one reward and makes one
draw. -/
theorem deathLoop_eq (X : Ext) (rand : Nat → ℚ) :
    ∀ (n i : Nat) (g : GameLoop), g.enemies.length - i = n →
      deathLoop X rand i g =
        { g with
          enemies := g.enemies.take i ++ aliveOnly X (g.enemies.drop i)
          player := rewardMany rand (deadCount X (g.enemies.drop i)) g.randomDraws g.player
          randomDraws := g.randomDraws + deadCount X (g.enemies.drop i) } := by
  intro n
  induction n using Nat.strong_induction_on with
  | _ n ih =>
    intro i g hn
    by_cases hi : i < g.enemies.length
    · have hdrop : g.enemies.drop i = g.enemies[i] :: g.enemies.drop (i + 1) :=
        List.drop_eq_getElem_cons hi
      by_cases hd : X.isDead g.enemies[i].toEntity = true
      · rw [deathLoop_dead X rand i g hi hd]
        rw [ih (n - 1) (by omega) i _ (by
          simp only [List.length_eraseIdx_of_lt hi]; omega)]
        have e1 : (g.enemies.eraseIdx i).drop i = g.enemies.drop (i + 1) := by
          rw [List.eraseIdx_eq_take_drop_succ, List.drop_append_of_le_length (by
            rw [List.length_take]; omega)]
          rw [List.drop_eq_nil_of_le (by rw [List.length_take]; omega), List.nil_append]
        have e2 : (g.enemies.eraseIdx i).take i = g.enemies.take i := by
          rw [List.eraseIdx_eq_take_drop_succ, List.take_append_of_le_length (by
            rw [List.length_take]; omega)]
          rw [List.take_take, Nat.min_self]
        have e3 : aliveOnly X (g.enemies.drop i) = aliveOnly X (g.enemies.drop (i + 1)) := by
          unfold aliveOnly
          rw [hdrop, List.filter_cons_of_neg (by simp [hd])]
        have e4 : deadCount X (g.enemies.drop i) = deadCount X (g.enemies.drop (i + 1)) + 1 := by
          unfold deadCount
          rw [hdrop, List.countP_cons, if_pos hd]
        simp only [e1, e2, e3, e4, rewardMany, rewardOne]
        congr 1
        omega
      · rw [deathLoop_alive X rand i g hi hd]
        rw [ih (n - 1) (by omega) (i + 1) g (by omega)]
        have ht : g.enemies.take (i + 1) = g.enemies.take i ++ [g.enemies[i]] := by
          rw [List.take_succ, List.getElem?_eq_getElem hi]
          rfl
        have e3 : aliveOnly X (g.enemies.drop i) =
            g.enemies[i] :: aliveOnly X (g.enemies.drop (i + 1)) := by
          unfold aliveOnly
          rw [hdrop, List.filter_cons_of_pos (by simp [hd])]
        have e4 : deadCount X (g.enemies.drop i) = deadCount X (g.enemies.drop (i + 1)) := by
          unfold deadCount
          rw [hdrop, List.countP_cons, if_neg hd, Nat.add_zero]
        simp only [ht, e3, e4, List.append_assoc, List.singleton_append]
    · rw [deathLoop_done X rand i g hi]
      have hle : g.enemies.length ≤ i := by omega
      simp [List.drop_eq_nil_of_le hle, List.take_of_length_le hle, aliveOnly, deadCount,
        rewardMany]

/-- The death sweep in list view. -/
theorem deathSweep_eq (X : Ext) (rand : Nat → ℚ) (g : GameLoop) :
    deathSweep X rand g =
      { g with
        enemies := aliveOnly X g.enemies
        player := rewardMany rand (deadCount X g.enemies) g.randomDraws g.player
        randomDraws := g.randomDraws + deadCount X g.enemies } := by
  unfold deathSweep
  rw [deathLoop_eq X rand _ 0 g rfl]
  simp

/-- The contact loop over enemies none of which touches the player changes nothing. -/
theorem foldl_contactOne_none (X : Ext) (es : List Enemy) (s : GameLoop)
    (h : ∀ e ∈ es, X.intersects (X.getAABB e.toEntity) (X.getAABB s.player.toEntity) = false) :
    es.foldl (contactOne X) s = s := by
  induction es with
  | nil => rfl
  | cons e es ih =>
    rw [List.foldl_cons, contactOne_miss X s e (by
      rw [h e (List.mem_cons_self e es)]; simp)]
    exact ih (fun e2 he2 => h e2 (List.mem_cons_of_mem e he2))

/-- The list view over projectiles none of which has exactly one hit keeps them all and
changes nothing else. -/
theorem foldl_resolveOne_keep (X : Ext) (ps : List Projectile) :
    ∀ acc : GameLoop, (∀ p ∈ ps, (hitsOf X acc.enemies p).length ≠ 1) →
      ps.foldl (resolveOne X) acc = { acc with projectiles := acc.projectiles ++ ps } := by
  induction ps with
  | nil => intro acc _; simp
  | cons p ps ih =>
    intro acc h
    have hone : resolveOne X acc p = { acc with projectiles := acc.projectiles ++ [p] } := by
      unfold resolveOne
      exact if_neg (h p (List.mem_cons_self p ps))
    have hrest := ih { acc with projectiles := acc.projectiles ++ [p] }
      (fun q hq => h q (List.mem_cons_of_mem p hq))
    rw [List.foldl_cons, hone, hrest]
    simp

/-- C11. Nothing-happens case: if no enemy's box intersects the player's box, no
projectile's capsule hits any enemy, and no enemy is dead, then GameLoop::collisionCheck
returns the session as it was: player (health, score, ammo count, healing-item count),
enemy collection and projectile collection are unchanged and no random number is drawn. -/
theorem C11_nothing_happens (X : Ext) (rand : Nat → ℚ) (g : GameLoop)
    (hc : ∀ e ∈ g.enemies,
      X.intersects (X.getAABB e.toEntity) (X.getAABB g.player.toEntity) = false)
    (hp : ∀ p ∈ g.projectiles, hitsOf X g.enemies p = [])
    (hd : ∀ e ∈ g.enemies, X.isDead e.toEntity = false) :
    collisionCheck X rand g = g ∧
    (collisionCheck X rand g).player.health = g.player.health ∧
    (collisionCheck X rand g).player.score = g.player.score ∧
    (collisionCheck X rand g).player.ammoCount = g.player.ammoCount ∧
    (collisionCheck X rand g).player.healingItemCount = g.player.healingItemCount ∧
    (collisionCheck X rand g).enemies = g.enemies ∧
    (collisionCheck X rand g).projectiles = g.projectiles ∧
    (collisionCheck X rand g).randomDraws = g.randomDraws := by
  have h1 : contactStep X g = g := foldl_contactOne_none X g.enemies g hc
  have h2 : projectileStep X g = g := by
    rw [projectileStep_eq_resolveAll]
    unfold resolveAll
    rw [foldl_resolveOne_keep X g.projectiles _ (fun p hpm => by
      show (hitsOf X g.enemies p).length ≠ 1
      rw [hp p hpm]; decide)]
    simp
  have h3 : deathSweep X rand g = g := by
    rw [deathSweep_eq]
    have ha : aliveOnly X g.enemies = g.enemies := by
      unfold aliveOnly
      exact List.filter_eq_self.mpr (fun e he => by simp [hd e he])
    have hk : deadCount X g.enemies = 0 := by
      unfold deadCount
      exact List.countP_eq_zero.mpr (fun e he => by simp [hd e he])
    rw [ha, hk]
    rfl
  have hall : collisionCheck X rand g = g := by
    unfold collisionCheck
    rw [h1, h2, h3]
  rw [hall]
  exact ⟨rfl, rfl, rfl, rfl, rfl, rfl, rfl, rfl⟩

/-- Witness of C11: in the quiet sample session collisionCheck changes nothing. -/
theorem C11_nothing_happens_witness :
    collisionCheck (specExt 0 1) (fun _ => 0) quietSample = quietSample := by
  refine (C11_nothing_happens (specExt 0 1) (fun _ => 0) quietSample ?_ ?_ ?_).1
  · intro e he
    simp only [quietSample, List.mem_singleton] at he
    subst he
    simp only [specExt, specIntersects, quietSample, boxedEnemy, entityAt, farPlayer, playerAt]
    norm_num
  · intro p hp
    simp only [quietSample, List.mem_singleton] at hp
    subst hp
    simp only [hitsOf, hitsFrom, capsuleOf, specExt, specBrokenIntersection,
      segmentMeetsBox, quietSample,
      boxedEnemy, entityAt, projectileAt]
    norm_num [abs_div, abs_neg]
  · intro e he
    simp only [quietSample, List.mem_singleton] at he
    subst he
    simp [specExt, boxedEnemy, entityAt]

/-! ## Theorems: the projectile scan -/

/-- The loop hit-tests, from index `j` on, exactly the projectiles from `j` on, each once
and in order. -/
theorem projectileLoopTested_eq (X : Ext) :
    ∀ (n j : Nat) (g : GameLoop), g.projectiles.length - j = n →
      projectileLoopTested X j g = g.projectiles.drop j := by
  intro n
  induction n using Nat.strong_induction_on with
  | _ n ih =>
    intro j g hn
    by_cases hj : j < g.projectiles.length
    · have hdrop : g.projectiles.drop j = g.projectiles[j] :: g.projectiles.drop (j + 1) :=
        List.drop_eq_getElem_cons hj
      have e1 : (g.projectiles.eraseIdx j).drop j = g.projectiles.drop (j + 1) := by
        rw [List.eraseIdx_eq_take_drop_succ, List.drop_append_of_le_length (by
          rw [List.length_take]; omega)]
        rw [List.drop_eq_nil_of_le (by rw [List.length_take]; omega), List.nil_append]
      by_cases h1 : (hitsOf X g.enemies g.projectiles[j]).length = 1
      · have hrec := ih (n - 1) (by omega) j
          { g with
            enemies := hurtAt X ((hitsOf X g.enemies g.projectiles[j]).headD 0) g.enemies
            projectiles := g.projectiles.eraseIdx j }
          (by simp only [List.length_eraseIdx_of_lt hj]; omega)
        rw [projectileLoopTested, dif_pos hj]
        simp only [h1, if_true]
        rw [hrec, hdrop, e1]
      · have hrec := ih (n - 1) (by omega) (j + 1) g (by omega)
        rw [projectileLoopTested, dif_pos hj]
        simp only [h1, if_false, Bool.and_false, Bool.false_eq_true]
        rw [hrec, hdrop]
    · rw [projectileLoopTested, dif_neg hj]
      exact (List.drop_eq_nil_of_le (by omega)).symm

/-- The projectiles kept by the list view are the ones kept so far followed by the
survivors of the rest. -/
theorem foldl_resolveOne_survivors (X : Ext) (ps : List Projectile) :
    ∀ acc : GameLoop,
      (ps.foldl (resolveOne X) acc).projectiles =
        acc.projectiles ++ survivors X acc.enemies ps := by
  induction ps with
  | nil => intro acc; simp [survivors]
  | cons p ps ih =>
    intro acc
    rw [List.foldl_cons, ih]
    unfold resolveOne
    by_cases h1 : (hitsOf X acc.enemies p).length = 1
    · rw [if_pos h1]
      conv_rhs => rw [survivors, if_pos h1]
    · rw [if_neg h1]
      conv_rhs => rw [survivors, if_neg h1]
      simp

/-- The survivors are a sub-list of the projectiles, in the original order. -/
theorem survivors_sublist (X : Ext) (ps : List Projectile) :
    ∀ es : List Enemy, List.Sublist (survivors X es ps) ps := by
  induction ps with
  | nil => intro es; simp [survivors]
  | cons p ps ih =>
    intro es
    unfold survivors
    split_ifs
    · exact List.Sublist.cons p (ih _)
    · exact List.Sublist.cons₂ p (ih _)

/-- The inner loop at a non-empty list of enemies. -/
theorem hitsFrom_cons (X : Ext) (c : Capsule3D) (i : Nat) (e : Enemy) (es : List Enemy) :
    hitsFrom X c i (e :: es) =
      if X.brokenIntersection e.boundingBox c = true then i :: hitsFrom X c (i + 1) es
      else hitsFrom X c (i + 1) es := rfl

/-- A change of the enemies that keeps every box does not change the hits. -/
theorem hitsFrom_modify (X : Ext) (c : Capsule3D) (f : Enemy → Enemy)
    (hf : ∀ e, (f e).boundingBox = e.boundingBox) (es : List Enemy) :
    ∀ (i start : Nat), hitsFrom X c start (List.modify f i es) = hitsFrom X c start es := by
  induction es with
  | nil => intro i start; simp
  | cons e es ih =>
    intro i start
    cases i with
    | zero => rw [List.modify_zero_cons, hitsFrom_cons, hitsFrom_cons, hf]
    | succ i => rw [List.modify_succ_cons, hitsFrom_cons, hitsFrom_cons, ih]

/-- When hurt leaves the box of an enemy alone, the survivors are the projectiles whose
hit count against the enemies at the start is not 1. -/
theorem survivors_eq_filter (X : Ext)
    (hbb : ∀ (e : Entity) (n : Int), (X.hurt e n).boundingBox = e.boundingBox)
    (ps : List Projectile) :
    ∀ es : List Enemy,
      survivors X es ps = ps.filter (fun p => decide ((hitsOf X es p).length ≠ 1)) := by
  have hh : ∀ (i : Nat) (es : List Enemy) (q : Projectile),
      hitsOf X (hurtAt X i es) q = hitsOf X es q := by
    intro i es q
    unfold hitsOf hurtAt
    exact hitsFrom_modify X _ _ (fun e => hbb e.toEntity 20) es i 0
  induction ps with
  | nil => intro es; simp [survivors]
  | cons p ps ih =>
    intro es
    unfold survivors
    by_cases h1 : (hitsOf X es p).length = 1
    · rw [if_pos h1, ih, List.filter_cons_of_neg (by simp [h1])]
      simp only [hh]
    · rw [if_neg h1, ih, List.filter_cons_of_pos (by simp [h1])]

/-- C12. Projectile scan of GameLoop::collisionCheck: the loop with erase and j-- hit-tests
every projectile present at the start exactly once, in collection order (none skipped, none
repeated); it computes the same session as one pass over the projectiles in order; and
afterwards the projectile collection is the sub-list, in original order, of the
projectiles whose hit count at their test was not 1. When hurt does not move an enemy's
box this is the filter of the original collection by "hit count against the original
enemies is not 1". -/
theorem C12_projectile_scan (X : Ext) (g : GameLoop) :
    projectileLoopTested X 0 g = g.projectiles ∧
    projectileStep X g = g.projectiles.foldl (resolveOne X) { g with projectiles := [] } ∧
    (projectileStep X g).projectiles = survivors X g.enemies g.projectiles ∧
    List.Sublist (projectileStep X g).projectiles g.projectiles ∧
    ((∀ (e : Entity) (n : Int), (X.hurt e n).boundingBox = e.boundingBox) →
      (projectileStep X g).projectiles =
        g.projectiles.filter (fun p => decide ((hitsOf X g.enemies p).length ≠ 1))) := by
  have hs : (projectileStep X g).projectiles = survivors X g.enemies g.projectiles := by
    rw [projectileStep_eq_resolveAll]
    unfold resolveAll
    rw [foldl_resolveOne_survivors]
    simp
  refine ⟨?_, projectileStep_eq_resolveAll X g, hs, ?_, ?_⟩
  · rw [projectileLoopTested_eq X _ 0 g rfl]
    simp
  · rw [hs]
    exact survivors_sublist X g.projectiles g.enemies
  · intro hbb
    rw [hs, survivors_eq_filter X hbb]

/-- Witness of C12: in the sample with three projectiles, of which the first and the third
hit the one enemy, the step keeps exactly the second. -/
theorem C12_projectile_scan_witness :
    (projectileStep (specExt 0 1) scanSample).projectiles =
      [projectileAt ⟨50, 1 / 2, 49⟩ ⟨50, 1 / 2, 50⟩] := by
  rw [(C12_projectile_scan (specExt 0 1) scanSample).2.2.2.2 (fun _ _ => rfl)]
  simp only [scanSample, List.filter, hitsOf, hitsFrom, capsuleOf, specExt,
    specBrokenIntersection, segmentMeetsBox, boxedEnemy, entityAt, projectileAt]
  norm_num [abs_div, abs_neg]

/-- The live enemies and the dead ones make up the list. -/
theorem aliveOnly_length (X : Ext) (es : List Enemy) :
    (aliveOnly X es).length + deadCount X es = es.length := by
  induction es with
  | nil => rfl
  | cons e es ih =>
    unfold aliveOnly deadCount at *
    by_cases hd : X.isDead e.toEntity = true
    · rw [List.filter_cons_of_neg (by simp [hd]), List.countP_cons, if_pos hd]
      simp only [List.length_cons]
      omega
    · rw [List.filter_cons_of_pos (by simp [hd]), List.countP_cons, if_neg hd]
      simp only [List.length_cons]
      omega

/-- The enemies after `collisionCheck` are the live ones among those left by the
projectile step. -/
theorem collisionCheck_enemies (X : Ext) (rand : Nat → ℚ) (g : GameLoop) :
    (collisionCheck X rand g).enemies =
      aliveOnly X (projectileStep X (contactStep X g)).enemies := by
  unfold collisionCheck
  rw [deathSweep_eq]

/-- C13. Death sweep removal: after GameLoop::collisionCheck the enemy collection is the
sub-list, in original order, of the enemies that were not dead after the projectile step;
no dead enemy remains; and each dead enemy is removed exactly once: the collection shrinks
by the number of dead enemies and one random draw is made per dead enemy. -/
theorem C13_death_sweep_removal (X : Ext) (rand : Nat → ℚ) (g : GameLoop) :
    (deathSweep X rand g).enemies = g.enemies.filter (fun e => !X.isDead e.toEntity) ∧
    (collisionCheck X rand g).enemies =
      (projectileStep X (contactStep X g)).enemies.filter (fun e => !X.isDead e.toEntity) ∧
    List.Sublist (collisionCheck X rand g).enemies (projectileStep X (contactStep X g)).enemies ∧
    (∀ e ∈ (collisionCheck X rand g).enemies, X.isDead e.toEntity = false) ∧
    (collisionCheck X rand g).enemies.length +
        deadCount X (projectileStep X (contactStep X g)).enemies =
      (projectileStep X (contactStep X g)).enemies.length ∧
    (collisionCheck X rand g).randomDraws =
      g.randomDraws + deadCount X (projectileStep X (contactStep X g)).enemies := by
  have hc := collisionCheck_enemies X rand g
  refine ⟨?_, hc, ?_, ?_, ?_, ?_⟩
  · rw [deathSweep_eq]
    rfl
  · rw [hc]
    exact List.filter_sublist _
  · intro e he
    rw [hc] at he
    have := (List.mem_filter.mp he).2
    simpa using this
  · rw [hc]
    exact aliveOnly_length X _
  · unfold collisionCheck
    rw [deathSweep_eq]
    show (projectileStep X (contactStep X g)).randomDraws + _ = _
    unfold projectileStep
    rw [(projectileLoop_frame X 0 _).2.2.1, (contactStep_frame X g).2.2.1]

/-- In the sample session for the death sweep nothing touches the player and there is
no projectile: the contact step and the projectile step change nothing. -/
theorem sweepSample_steps :
    contactStep (specExt 0 1) sweepSample = sweepSample ∧
    projectileStep (specExt 0 1) sweepSample = sweepSample := by
  constructor
  · refine foldl_contactOne_none _ _ _ ?_
    intro e he
    simp only [sweepSample, List.mem_cons, List.mem_singleton, List.not_mem_nil,
      or_false] at he
    rcases he with rfl | rfl | rfl | rfl <;>
      (simp only [specExt, specIntersects, sweepSample, farPlayer, entityAt, enemyWithHealth]
       norm_num)
  · rw [projectileStep_eq_resolveAll]
    rfl

/-- Witness of C13: after the sweep of the sample session (dead, dead, alive, dead) only
the live enemy is left: adjacent dead enemies and a dead last element are all removed. -/
theorem C13_death_sweep_removal_witness :
    (deathSweep (specExt 0 1) (fun _ => 1 / 2) sweepSample).enemies = [enemyWithHealth 60] ∧
    (collisionCheck (specExt 0 1) (fun _ => 1 / 2) sweepSample).enemies =
      [enemyWithHealth 60] := by
  have h := C13_death_sweep_removal (specExt 0 1) (fun _ => 1 / 2) sweepSample
  have hf : sweepSample.enemies.filter (fun e => !(specExt 0 1).isDead e.toEntity) =
      [enemyWithHealth 60] := by
    simp [sweepSample, specExt, enemyWithHealth, entityAt]
  refine ⟨by rw [h.1, hf], ?_⟩
  rw [h.2.1, sweepSample_steps.1, sweepSample_steps.2, hf]

/-- The score and the ammunition after `k` rewards; the entity part of the player (the
health among it) and the invincibility timer are not touched. -/
theorem rewardMany_score (rand : Nat → ℚ) (k : Nat) :
    ∀ (n : Nat) (p : Player),
      (rewardMany rand k n p).score = p.score + (k : Int) ∧
      (rewardMany rand k n p).ammoCount = p.ammoCount + 5 * (k : Int) ∧
      (rewardMany rand k n p).toEntity = p.toEntity ∧
      (rewardMany rand k n p).invincibilityTimer = p.invincibilityTimer := by
  induction k with
  | zero => intro n p; simp [rewardMany]
  | succ k ih =>
    intro n p
    obtain ⟨h1, h2, h3, h4⟩ := ih (n + 1) (rewardOne p (rand n))
    have hs : (rewardOne p (rand n)).score = p.score + 1 ∧
        (rewardOne p (rand n)).ammoCount = p.ammoCount + 5 ∧
        (rewardOne p (rand n)).toEntity = p.toEntity ∧
        (rewardOne p (rand n)).invincibilityTimer = p.invincibilityTimer := by
      unfold rewardOne
      split_ifs <;> exact ⟨rfl, rfl, rfl, rfl⟩
    rw [rewardMany, h1, h2, h3, h4, hs.1, hs.2.1, hs.2.2.1, hs.2.2.2]
    push_cast
    exact ⟨by ring, by ring, rfl, rfl⟩

/-- The healing items granted by one reward: one exactly when the draw is below 0.05. -/
theorem rewardOne_healing (p : Player) (f : ℚ) :
    (rewardOne p f).healingItemCount =
      p.healingItemCount + (if f < 5 / 100 then 1 else 0) := by
  unfold rewardOne
  split_ifs
  · rfl
  · simp

/-- The healing items after `k` rewards. -/
theorem rewardMany_healing (rand : Nat → ℚ) (k : Nat) :
    ∀ (n : Nat) (p : Player),
      (rewardMany rand k n p).healingItemCount =
        p.healingItemCount + (dropCount rand k n : Int) := by
  induction k with
  | zero => intro n p; simp [rewardMany, dropCount]
  | succ k ih =>
    intro n p
    rw [rewardMany, ih, rewardOne_healing]
    have hd : dropCount rand (k + 1) n =
        (if rand n < 5 / 100 then 1 else 0) + dropCount rand k (n + 1) := by
      unfold dropCount
      rw [List.range_succ_eq_map, List.countP_cons, List.countP_map]
      have hfun : ((fun m => decide (rand (n + m) < 5 / 100)) ∘ Nat.succ) =
          (fun m => decide (rand (n + 1 + m) < 5 / 100)) := by
        funext m
        simp only [Function.comp, Nat.succ_eq_add_one]
        congr 3
        omega
      rw [hfun]
      simp only [Nat.add_zero, decide_eq_true_eq]
      omega
    rw [hd]
    split_ifs <;> push_cast <;> ring

/-- The contact step changes the player only by calls of `hurtPlayer(20)`. -/
theorem foldl_contactOne_player (X : Ext) (es : List Enemy) :
    ∀ s : GameLoop, ∃ m : Nat, (es.foldl (contactOne X) s).player = hurtTimes X m s.player := by
  induction es with
  | nil => intro s; exact ⟨0, rfl⟩
  | cons e es ih =>
    intro s
    rw [List.foldl_cons]
    obtain ⟨m, hm⟩ := ih (contactOne X s e)
    rw [hm]
    unfold contactOne
    split_ifs
    · exact ⟨m, rfl⟩
    · refine ⟨m + 1, ?_⟩
      simp [hurtTimes, Function.iterate_succ_apply]
    · exact ⟨m, rfl⟩

/-- Calls of `hurtPlayer(20)` keep whatever a single call keeps. -/
theorem hurtTimes_keeps (X : Ext) (P : Player → Player → Prop) (hrefl : ∀ q, P q q)
    (htrans : ∀ a b c, P a b → P b c → P a c)
    (hone : ∀ q, P q (X.hurtPlayer q 20)) (m : Nat) :
    ∀ q : Player, P q (hurtTimes X m q) := by
  induction m with
  | zero => intro q; exact hrefl q
  | succ m ih =>
    intro q
    have hstep : hurtTimes X (m + 1) q = hurtTimes X m (X.hurtPlayer q 20) := by
      simp [hurtTimes, Function.iterate_succ_apply]
    rw [hstep]
    exact htrans _ _ _ (hone q) (ih _)

/-- C14. Death rewards: if k enemies are dead when the death sweep starts, the sweep adds
exactly k to the score and 5 * k to the ammo count. The projectile step does not touch the
player, and the contact step changes the player only through hurtPlayer(20); so, hurtPlayer
leaving score and ammo count alone, the whole of collisionCheck adds k and 5 * k, k being
the number of enemies dead after the projectile step. -/
theorem C14_death_rewards (X : Ext) (rand : Nat → ℚ) (g : GameLoop) :
    (deathSweep X rand g).player.score = g.player.score + (deadCount X g.enemies : Int) ∧
    (deathSweep X rand g).player.ammoCount =
      g.player.ammoCount + 5 * (deadCount X g.enemies : Int) ∧
    (projectileStep X g).player = g.player ∧
    (∃ m : Nat, (contactStep X g).player = hurtTimes X m g.player) ∧
    ((∀ q : Player, (X.hurtPlayer q 20).score = q.score ∧
        (X.hurtPlayer q 20).ammoCount = q.ammoCount) →
      (contactStep X g).player.score = g.player.score ∧
      (contactStep X g).player.ammoCount = g.player.ammoCount ∧
      (projectileStep X (contactStep X g)).player.score = g.player.score ∧
      (projectileStep X (contactStep X g)).player.ammoCount = g.player.ammoCount ∧
      (collisionCheck X rand g).player.score =
        g.player.score + (deadCount X (projectileStep X (contactStep X g)).enemies : Int) ∧
      (collisionCheck X rand g).player.ammoCount =
        g.player.ammoCount +
          5 * (deadCount X (projectileStep X (contactStep X g)).enemies : Int)) := by
  have hp : ∀ g2 : GameLoop, (projectileStep X g2).player = g2.player :=
    fun g2 => (projectileLoop_frame X 0 g2).1
  have hm := foldl_contactOne_player X g.enemies g
  refine ⟨?_, ?_, hp g, hm, ?_⟩
  · rw [deathSweep_eq]
    exact (rewardMany_score rand _ _ _).1
  · rw [deathSweep_eq]
    exact (rewardMany_score rand _ _ _).2.1
  · intro hkeep
    obtain ⟨m, hm⟩ := hm
    have hk := hurtTimes_keeps X (fun a b => b.score = a.score ∧ b.ammoCount = a.ammoCount)
      (fun _ => ⟨rfl, rfl⟩)
      (fun a b c h1 h2 => ⟨h2.1.trans h1.1, h2.2.trans h1.2⟩) hkeep m g.player
    have hcs : (contactStep X g).player.score = g.player.score := by
      show (g.enemies.foldl (contactOne X) g).player.score = _
      rw [hm]; exact hk.1
    have hca : (contactStep X g).player.ammoCount = g.player.ammoCount := by
      show (g.enemies.foldl (contactOne X) g).player.ammoCount = _
      rw [hm]; exact hk.2
    refine ⟨hcs, hca, by rw [hp]; exact hcs, by rw [hp]; exact hca, ?_, ?_⟩
    · unfold collisionCheck
      rw [deathSweep_eq]
      show (rewardMany rand _ _ (projectileStep X (contactStep X g)).player).score = _
      rw [(rewardMany_score rand _ _ _).1, hp, hcs]
    · unfold collisionCheck
      rw [deathSweep_eq]
      show (rewardMany rand _ _ (projectileStep X (contactStep X g)).player).ammoCount = _
      rw [(rewardMany_score rand _ _ _).2.1, hp, hca]

/-- Witness of C14: collisionCheck on the sample session with three dead enemies takes the
score from 0 to 3 and the ammo count from 10 to 25. -/
theorem C14_death_rewards_witness :
    (collisionCheck (specExt 0 1) (fun _ => 1 / 2) sweepSample).player.score = 3 ∧
    (collisionCheck (specExt 0 1) (fun _ => 1 / 2) sweepSample).player.ammoCount = 25 := by
  have h := (C14_death_rewards (specExt 0 1) (fun _ => 1 / 2) sweepSample).2.2.2.2
    (fun _ => ⟨rfl, rfl⟩)
  have hk : deadCount (specExt 0 1) sweepSample.enemies = 3 := by
    simp [deadCount, sweepSample, specExt, enemyWithHealth, entityAt, List.countP_cons]
  rw [h.2.2.2.2.1, h.2.2.2.2.2, sweepSample_steps.1, sweepSample_steps.2, hk]
  exact ⟨rfl, rfl⟩

/-- One death grants one healing item exactly when its draw is below 0.05. -/
theorem dropCount_one (rand : Nat → ℚ) (n : Nat) :
    dropCount rand 1 n = if rand n < 5 / 100 then 1 else 0 := by
  unfold dropCount
  rw [show List.range 1 = [0] from rfl, List.countP_cons, List.countP_nil]
  simp

/-- C15. Healing-item drop: the death sweep makes exactly one draw per removed enemy, the
m-th removed enemy (in collection order) using the m-th draw of the sweep, and each removal
adds one healing item exactly when its draw is strictly below 0.05. With exactly one dead
enemy: a draw of 0.04 gives healing + 1, a draw of 0.10 or of exactly 0.05 gives healing
+ 0. No draw happens when no enemy is dead, and within collisionCheck only the sweep
draws. -/
theorem C15_healing_drop (X : Ext) (rand : Nat → ℚ) (g : GameLoop) :
    (deathSweep X rand g).randomDraws = g.randomDraws + deadCount X g.enemies ∧
    (deathSweep X rand g).player =
      rewardMany rand (deadCount X g.enemies) g.randomDraws g.player ∧
    (∀ (p : Player) (f : ℚ),
      (rewardOne p f).healingItemCount = p.healingItemCount + (if f < 5 / 100 then 1 else 0)) ∧
    (deathSweep X rand g).player.healingItemCount =
      g.player.healingItemCount + (dropCount rand (deadCount X g.enemies) g.randomDraws : Int) ∧
    (deadCount X g.enemies = 1 → rand g.randomDraws = 4 / 100 →
      (deathSweep X rand g).player.healingItemCount = g.player.healingItemCount + 1) ∧
    (deadCount X g.enemies = 1 → (rand g.randomDraws = 10 / 100 ∨ rand g.randomDraws = 5 / 100) →
      (deathSweep X rand g).player.healingItemCount = g.player.healingItemCount) ∧
    (deadCount X g.enemies = 0 →
      (deathSweep X rand g).randomDraws = g.randomDraws ∧
      (deathSweep X rand g).player = g.player) ∧
    (collisionCheck X rand g).randomDraws =
      g.randomDraws + deadCount X (projectileStep X (contactStep X g)).enemies := by
  have hh : (deathSweep X rand g).player.healingItemCount =
      g.player.healingItemCount + (dropCount rand (deadCount X g.enemies) g.randomDraws : Int) := by
    rw [deathSweep_eq]
    exact rewardMany_healing rand _ _ _
  refine ⟨by rw [deathSweep_eq], by rw [deathSweep_eq], rewardOne_healing, hh, ?_, ?_, ?_, ?_⟩
  · intro h1 hr
    rw [hh, h1, dropCount_one, hr]
    norm_num
  · intro h1 hr
    rw [hh, h1, dropCount_one]
    rcases hr with hr | hr <;> rw [hr] <;> norm_num
  · intro h0
    rw [deathSweep_eq, h0]
    exact ⟨rfl, rfl⟩
  · unfold collisionCheck
    rw [deathSweep_eq]
    show (projectileStep X (contactStep X g)).randomDraws + _ = _
    unfold projectileStep
    rw [(projectileLoop_frame X 0 _).2.2.1, (contactStep_frame X g).2.2.1]

/-- Witness of C15: in the session with one dead enemy, a random source fixed to 0.04
gives one healing item, and one fixed to 0.10 or to exactly 0.05 gives none. -/
theorem C15_healing_drop_witness :
    (deathSweep (specExt 0 1) (fun _ => 4 / 100) oneDeathSample).player.healingItemCount = 1 ∧
    (deathSweep (specExt 0 1) (fun _ => 10 / 100) oneDeathSample).player.healingItemCount = 0 ∧
    (deathSweep (specExt 0 1) (fun _ => 5 / 100) oneDeathSample).player.healingItemCount = 0 ∧
    (deathSweep (specExt 0 1) (fun _ => 4 / 100) oneDeathSample).randomDraws = 1 := by
  have hk : deadCount (specExt 0 1) oneDeathSample.enemies = 1 := by
    simp [deadCount, oneDeathSample, specExt, enemyWithHealth, entityAt, List.countP_cons]
  refine ⟨?_, ?_, ?_, ?_⟩
  · rw [(C15_healing_drop (specExt 0 1) (fun _ => 4 / 100) oneDeathSample).2.2.2.2.1 hk rfl]
    rfl
  · rw [(C15_healing_drop (specExt 0 1) (fun _ => 10 / 100) oneDeathSample).2.2.2.2.2.1 hk
      (Or.inl rfl)]
    rfl
  · rw [(C15_healing_drop (specExt 0 1) (fun _ => 5 / 100) oneDeathSample).2.2.2.2.2.1 hk
      (Or.inr rfl)]
    rfl
  · rw [(C15_healing_drop (specExt 0 1) (fun _ => 4 / 100) oneDeathSample).1, hk]
    rfl

/-! ## Theorems: the projectile loop of gameUpdateTick -/

/-- Erasing at `i` leaves the elements before `i` and drops the one at `i`. -/
theorem eraseIdx_take_drop {α : Type} (l : List α) (i : Nat) (hi : i < l.length) :
    (l.eraseIdx i).take i = l.take i ∧ (l.eraseIdx i).drop i = l.drop (i + 1) := by
  constructor
  · rw [List.eraseIdx_eq_take_drop_succ, List.take_append_of_le_length (by
      rw [List.length_take]; omega)]
    rw [List.take_take, Nat.min_self]
  · rw [List.eraseIdx_eq_take_drop_succ, List.drop_append_of_le_length (by
      rw [List.length_take]; omega)]
    rw [List.drop_eq_nil_of_le (by rw [List.length_take]; omega), List.nil_append]

/-- Setting at `i` leaves the elements before and after `i`. -/
theorem set_take_drop {α : Type} (l : List α) (i : Nat) (a : α) (hi : i < l.length) :
    (l.set i a).take (i + 1) = l.take i ++ [a] ∧ (l.set i a).drop (i + 1) = l.drop (i + 1) := by
  induction l generalizing i with
  | nil => simp at hi
  | cons b l ih =>
    cases i with
    | zero => simp
    | succ i =>
      have := ih i (by simpa using hi)
      simp only [List.set_cons_succ, List.take_succ_cons, List.drop_succ_cons, List.cons_append]
      exact ⟨by rw [this.1], this.2⟩

/-- The projectile loop of `gameUpdateTick` in list view: from index `i`, the projectiles
before `i` stay as they are, the ones from `i` on are ticked, and the ticked ones that are
not below the floor are kept, in order. -/
theorem floorLoop_eq (T : TickExt) (deltaTime : ℚ) :
    ∀ (n i : Nat) (ps : List Projectile), ps.length - i = n →
      floorLoop T deltaTime i ps =
        ps.take i ++
          ((ps.drop i).map (fun p => T.projectileOnGameTick p deltaTime)).filter aboveFloor := by
  intro n
  induction n using Nat.strong_induction_on with
  | _ n ih =>
    intro i ps hn
    by_cases hi : i < ps.length
    · have hdrop : ps.drop i = ps[i] :: ps.drop (i + 1) := List.drop_eq_getElem_cons hi
      by_cases hy : (T.projectileOnGameTick ps[i] deltaTime).position.y <
          ((-(T.projectileOnGameTick ps[i] deltaTime).size : Int) : ℚ)
      · have hrec := ih (n - 1) (by omega) i (ps.eraseIdx i) (by
          rw [List.length_eraseIdx_of_lt hi]; omega)
        rw [floorLoop, dif_pos hi]
        simp only [hy, if_true]
        rw [hrec, (eraseIdx_take_drop ps i hi).1, (eraseIdx_take_drop ps i hi).2, hdrop,
          List.map_cons, List.filter_cons_of_neg (by simpa [aboveFloor] using hy)]
      · have hrec := ih (n - 1) (by omega) (i + 1)
          (ps.set i (T.projectileOnGameTick ps[i] deltaTime)) (by
            rw [List.length_set]; omega)
        rw [floorLoop, dif_pos hi]
        simp only [hy, if_false]
        rw [hrec, (set_take_drop ps i _ hi).1, (set_take_drop ps i _ hi).2, hdrop,
          List.map_cons, List.filter_cons_of_pos (by simpa [aboveFloor] using hy)]
        simp
    · rw [floorLoop, dif_neg hi]
      have hle : ps.length ≤ i := by omega
      simp [List.drop_eq_nil_of_le hle, List.take_of_length_le hle]

/-- The projectile loop of `gameUpdateTick` calls `onGameTick`, from index `i` on, on
exactly the projectiles from `i` on, each once and in order. -/
theorem floorLoopTicked_eq (T : TickExt) (deltaTime : ℚ) :
    ∀ (n i : Nat) (ps : List Projectile), ps.length - i = n →
      floorLoopTicked T deltaTime i ps = ps.drop i := by
  intro n
  induction n using Nat.strong_induction_on with
  | _ n ih =>
    intro i ps hn
    by_cases hi : i < ps.length
    · have hdrop : ps.drop i = ps[i] :: ps.drop (i + 1) := List.drop_eq_getElem_cons hi
      by_cases hy : (T.projectileOnGameTick ps[i] deltaTime).position.y <
          ((-(T.projectileOnGameTick ps[i] deltaTime).size : Int) : ℚ)
      · have hrec := ih (n - 1) (by omega) i (ps.eraseIdx i) (by
          rw [List.length_eraseIdx_of_lt hi]; omega)
        rw [floorLoopTicked, dif_pos hi]
        simp only [hy, if_true]
        rw [hrec, (eraseIdx_take_drop ps i hi).2, hdrop]
      · have hrec := ih (n - 1) (by omega) (i + 1)
          (ps.set i (T.projectileOnGameTick ps[i] deltaTime)) (by
            rw [List.length_set]; omega)
        rw [floorLoopTicked, dif_pos hi]
        simp only [hy, if_false]
        rw [hrec, (set_take_drop ps i _ hi).2, hdrop]
    · rw [floorLoopTicked, dif_neg hi]
      exact (List.drop_eq_nil_of_le (by omega)).symm

/-- C16. Floor removal in the projectile loop of gameUpdateTick: onGameTick is called
exactly once on every projectile present at loop start, in collection order, and afterwards
the collection is the list of the ticked projectiles whose y satisfies y >= -size, in the
original order: a projectile is removed exactly when its post-tick y is below -size, and a
removal never skips the following element. -/
theorem C16_floor_removal (T : TickExt) (deltaTime : ℚ) (ps : List Projectile) :
    floorLoopTicked T deltaTime 0 ps = ps ∧
    floorLoop T deltaTime 0 ps =
      (ps.map (fun p => T.projectileOnGameTick p deltaTime)).filter
        (fun q => decide (((-q.size : Int) : ℚ) ≤ q.position.y)) ∧
    (∀ q : Projectile, q ∈ floorLoop T deltaTime 0 ps ↔
      (∃ p ∈ ps, T.projectileOnGameTick p deltaTime = q) ∧
        ¬ q.position.y < ((-q.size : Int) : ℚ)) ∧
    List.Sublist (floorLoop T deltaTime 0 ps)
      (ps.map (fun p => T.projectileOnGameTick p deltaTime)) := by
  have hfilter : (fun q : Projectile => decide (((-q.size : Int) : ℚ) ≤ q.position.y)) =
      aboveFloor := by
    funext q
    unfold aboveFloor
    by_cases h : q.position.y < ((-q.size : Int) : ℚ)
    · rw [decide_eq_true h, decide_eq_false (not_le.mpr h)]
      rfl
    · rw [decide_eq_false h, decide_eq_true (not_lt.mp h)]
      rfl
  have hmain : floorLoop T deltaTime 0 ps =
      (ps.map (fun p => T.projectileOnGameTick p deltaTime)).filter aboveFloor := by
    rw [floorLoop_eq T deltaTime _ 0 ps rfl]
    simp
  refine ⟨?_, ?_, ?_, ?_⟩
  · rw [floorLoopTicked_eq T deltaTime _ 0 ps rfl]
    simp
  · rw [hfilter]; exact hmain
  · intro q
    rw [hmain, List.mem_filter, List.mem_map]
    simp [aboveFloor]
  · rw [hmain]
    exact List.filter_sublist _

/-- Witness of C16: of three resting projectiles of size 0 at heights 1, -1 and 2, the
loop removes the second and keeps the other two, in order. -/
theorem C16_floor_removal_witness :
    (floorLoop (specTickExt 0) (1 / 60) 0
      [restingProjectile 1, restingProjectile (-1), restingProjectile 2]).map
        (fun q => q.position.y) = [1, 2] := by
  rw [(C16_floor_removal (specTickExt 0) (1 / 60)
    [restingProjectile 1, restingProjectile (-1), restingProjectile 2]).2.1]
  simp only [List.map, List.filter, specTickExt, specProjectileOnGameTick, restingProjectile,
    projectileAt, zeroVec, Vec3.add, Vec3.scale]
  norm_num

/-! ## Theorems: the end of the enemy tick -/

/-- C18. End-of-tick order in Enemy::onGameTick: in every state and for every input the
result is the state evaluation followed by move, then boundsCheckPosition against the world
bounds, then the box moved to the position left by the bounds check; so on return the
position is the post-clamp position and the bounding box is the box moved to that final
position. The behavioural state is the one chosen by the state evaluation. With moveTo as
the spec describes it, the centre of the box on return is the final position. -/
theorem C18_end_of_tick_order (X : Ext) (self : Enemy) (player : Player) (deltaTime : ℚ)
    (worldBounds : AABB) :
    self.onGameTick X player deltaTime worldBounds =
      updatePosition X
        (evalState X self (distanceSquaredOf self player) (normalize X (toPlayerOf self player))
          deltaTime) worldBounds ∧
    (self.onGameTick X player deltaTime worldBounds).position =
      (X.boundsCheckPosition
        (X.move (evalState X self (distanceSquaredOf self player)
          (normalize X (toPlayerOf self player)) deltaTime).toEntity) worldBounds).position ∧
    (self.onGameTick X player deltaTime worldBounds).toEntity =
      { X.boundsCheckPosition
          (X.move (evalState X self (distanceSquaredOf self player)
            (normalize X (toPlayerOf self player)) deltaTime).toEntity) worldBounds with
        boundingBox :=
          X.moveTo
            (X.boundsCheckPosition
              (X.move (evalState X self (distanceSquaredOf self player)
                (normalize X (toPlayerOf self player)) deltaTime).toEntity)
              worldBounds).boundingBox
            (self.onGameTick X player deltaTime worldBounds).position.x
            (self.onGameTick X player deltaTime worldBounds).position.y
            (self.onGameTick X player deltaTime worldBounds).position.z } ∧
    (self.onGameTick X player deltaTime worldBounds).boundingBox =
      X.moveTo
        (X.boundsCheckPosition
          (X.move (evalState X self (distanceSquaredOf self player)
            (normalize X (toPlayerOf self player)) deltaTime).toEntity) worldBounds).boundingBox
        (self.onGameTick X player deltaTime worldBounds).position.x
        (self.onGameTick X player deltaTime worldBounds).position.y
        (self.onGameTick X player deltaTime worldBounds).position.z ∧
    (self.onGameTick X player deltaTime worldBounds).state =
      (evalState X self (distanceSquaredOf self player) (normalize X (toPlayerOf self player))
        deltaTime).state ∧
    ∀ g dtMove : ℚ,
      (specExt g dtMove).center
          (self.onGameTick (specExt g dtMove) player deltaTime worldBounds).boundingBox =
        (self.onGameTick (specExt g dtMove) player deltaTime worldBounds).position := by
  refine ⟨rfl, rfl, rfl, rfl, rfl, ?_⟩
  intro g dtMove
  have hb : (self.onGameTick (specExt g dtMove) player deltaTime worldBounds).boundingBox =
      specMoveTo
        (specBoundsCheckPosition
          (specMove g dtMove (evalState (specExt g dtMove) self (distanceSquaredOf self player)
            (normalize (specExt g dtMove) (toPlayerOf self player)) deltaTime).toEntity)
          worldBounds).boundingBox
        (self.onGameTick (specExt g dtMove) player deltaTime worldBounds).position.x
        (self.onGameTick (specExt g dtMove) player deltaTime worldBounds).position.y
        (self.onGameTick (specExt g dtMove) player deltaTime worldBounds).position.z := rfl
  rw [hb]
  generalize (self.onGameTick (specExt g dtMove) player deltaTime worldBounds).position = pos
  simp only [specExt, specMoveTo]
  cases pos
  simp only [Vec3.mk.injEq]
  refine ⟨by ring, by ring, by ring⟩

/-! ## Theorems: levels and the tick driver -/

/-- C20. Level switch resets collections: after ForestLevel::createLevel or
DesertLevel::createLevel returns, the projectile collection of the session is empty and the
player is the reset player, and the enemy collection of a newly constructed level is empty.
The same holds after the menu events that start a level when none is active: the new
level is the active one and has no enemies. -/
theorem C20_level_switch_resets (T : TickExt) (kind : LevelKind) (s : Session) :
    (∀ lvl : Level,
      (createLevel T lvl s).2.projectiles = [] ∧
      (createLevel T lvl s).2.player = T.playerReset s.player ∧
      (createLevel T lvl s).1.enemies = lvl.enemies) ∧
    (Level.new kind).enemies = [] ∧
    (createLevel T (Level.new kind) s).1.enemies = [] ∧
    (s.activeLevel = none →
      (startLevel T kind s).projectiles = [] ∧
      (startLevel T kind s).player = T.playerReset s.player ∧
      (startLevel T kind s).activeLevel =
        some ⟨kind, [], ⟨-100, 0, -100, 60, 50, 60⟩⟩) := by
  refine ⟨fun lvl => ⟨rfl, rfl, rfl⟩, rfl, rfl, ?_⟩
  intro h
  unfold startLevel
  rw [h]
  exact ⟨rfl, rfl, rfl⟩

/-- Witness of C20: starting the forest level from the session after start-up. -/
theorem C20_level_switch_resets_witness :
    (startLevel (specTickExt 0) LevelKind.forest initialSession).projectiles = [] ∧
    (startLevel (specTickExt 0) LevelKind.forest initialSession).activeLevel =
      some emptyForest :=
  ⟨((C20_level_switch_resets (specTickExt 0) LevelKind.forest initialSession).2.2.2 rfl).1,
   ((C20_level_switch_resets (specTickExt 0) LevelKind.forest initialSession).2.2.2 rfl).2.2⟩

/-- The level update of the empty forest level, for a draw of 0 and a frame that took
time: the spawn roll succeeds and the new enemy is appended with the box it was given. -/
theorem levelUpdate_spawn (s : Session) (deltaTime : ℚ) (hdt : 0 < deltaTime)
    (hd : s.randomDraws = 0) (hi : s.randomIntDraws = 0) :
    Level.update (specExt 0 1) (specTickExt 0) (fun _ => 0) emptyForest s deltaTime =
      { s with
        activeLevel := some { emptyForest with enemies := [spawnedEnemy] }
        randomDraws := 1
        randomIntDraws := 2
        trace := s.trace ++ [] } := by
  unfold Level.update
  rw [if_pos (by simp only [emptyForest]; linarith)]
  simp only [emptyForest, List.map_nil, List.nil_append, hd, hi, specTickExt, Enemy.new,
    spawnedEnemy, enemyAt, entityAt, List.length_nil, List.range_zero]
  norm_num

/-- The collision pass on the initial player and the freshly spawned enemy: the contact
test reads the box `AABB(0, 0, 0, 1, 1, 1)`, which intersects the player's box, and the
player is hurt. -/
theorem collisionCheck_spawn (rand : Nat → ℚ) :
    collisionCheck (specExt 0 1) rand
        { player := initialPlayer, enemies := [spawnedEnemy], projectiles := [],
          hurtStarts := 0, randomDraws := 1, closestPicks := 0 } =
      { player := (specExt 0 1).hurtPlayer initialPlayer 20, enemies := [spawnedEnemy],
        projectiles := [], hurtStarts := 1, randomDraws := 1, closestPicks := 0 } := by
  have hc : contactStep (specExt 0 1)
      { player := initialPlayer, enemies := [spawnedEnemy], projectiles := [],
        hurtStarts := 0, randomDraws := 1, closestPicks := 0 } =
      { player := (specExt 0 1).hurtPlayer initialPlayer 20, enemies := [spawnedEnemy],
        projectiles := [], hurtStarts := 1, randomDraws := 1, closestPicks := 0 } := by
    unfold contactStep
    simp only [List.foldl_cons, List.foldl_nil]
    rw [contactOne_hit (specExt 0 1) _ spawnedEnemy
      (by
        simp only [specExt, specIntersects, spawnedEnemy, initialPlayer, enemyAt, entityAt]
        norm_num)
      (by simp [specExt, initialPlayer, playerAt])]
  unfold collisionCheck
  rw [hc]
  unfold projectileStep
  rw [projectileLoop_done _ _ _ (by simp), deathSweep_eq]
  simp [aliveOnly, deadCount, rewardMany, specExt, spawnedEnemy, enemyAt, entityAt]

/-- The call of `GameLoop::update` at time 16 ms on the in-game sample session runs the
level update, the player update and the collision pass. -/
theorem update_spawnSample_shape :
    update (specExt 0 1) (specTickExt 0) (fun _ => 0) 16 (inGameSession emptyForest []) =
      Session.collisionCheck (specExt 0 1) (fun _ => 0)
        { Level.update (specExt 0 1) (specTickExt 0) (fun _ => 0) emptyForest spawnTickStart
            spawnTickStart.deltaTime with
          player :=
            (specTickExt 0).playerUpdate
              (Level.update (specExt 0 1) (specTickExt 0) (fun _ => 0) emptyForest spawnTickStart
                spawnTickStart.deltaTime).player
              emptyForest.worldBounds
              (Level.update (specExt 0 1) (specTickExt 0) (fun _ => 0) emptyForest spawnTickStart
                spawnTickStart.deltaTime).deltaTime } := rfl

/-- C17 fails in the tick of a spawn. The in-game sample session (forest level without
enemies, player at the origin with the box (0,0,0)-(1,2,1)) is updated at time 16 ms with a
spawn roll that succeeds and random integers 0. The new enemy is at (-60, 0, -60) and the
collision pass of the same tick reads its box as (0,0,0)-(1,1,1): not the box moved to the
enemy's position, which does not touch the player. The contact test hits and the player
loses 20 health to an enemy that is 60 units away on both axes; and the hit test of a
projectile that ends its move at (1/2, 1/2, 1/2) counts this enemy as hit. -/
theorem C17_spawned_enemy_stale_box :
    (update (specExt 0 1) (specTickExt 0) (fun _ => 0) 16
        (inGameSession emptyForest [])).activeLevel =
      some { emptyForest with enemies := [spawnedEnemy] } ∧
    spawnedEnemy.position = ⟨-60, 0, -60⟩ ∧
    spawnedEnemy.boundingBox = ⟨0, 0, 0, 1, 1, 1⟩ ∧
    spawnedEnemy.boundingBox ≠
      (specExt 0 1).moveTo spawnedEnemy.boundingBox spawnedEnemy.position.x
        spawnedEnemy.position.y spawnedEnemy.position.z ∧
    (specExt 0 1).intersects
        ((specExt 0 1).moveTo spawnedEnemy.boundingBox spawnedEnemy.position.x
          spawnedEnemy.position.y spawnedEnemy.position.z)
        ((specExt 0 1).getAABB initialPlayer.toEntity) = false ∧
    (inGameSession emptyForest []).player.health = 100 ∧
    (update (specExt 0 1) (specTickExt 0) (fun _ => 0) 16
        (inGameSession emptyForest [])).player.health = 80 ∧
    (update (specExt 0 1) (specTickExt 0) (fun _ => 0) 16
        (inGameSession emptyForest [])).hurtStarts = 1 ∧
    hitsOf (specExt 0 1) [spawnedEnemy]
      (projectileAt ⟨1 / 2, 1 / 2, -1⟩ ⟨1 / 2, 1 / 2, 1 / 2⟩) = [0] := by
  have hl := levelUpdate_spawn spawnTickStart spawnTickStart.deltaTime
    (by simp only [spawnTickStart]; norm_num) rfl rfl
  have hp : (specTickExt 0).playerUpdate initialPlayer emptyForest.worldBounds
      spawnTickStart.deltaTime = initialPlayer := by
    simp only [specTickExt, specBoundsCheckPosition, specMove, initialPlayer, playerAt,
      entityAt, emptyForest, zeroVec, Vec3.add, Vec3.scale, clamp, spawnTickStart]
    norm_num
  have hu : update (specExt 0 1) (specTickExt 0) (fun _ => 0) 16
      (inGameSession emptyForest []) =
      { spawnTickStart with
        player := (specExt 0 1).hurtPlayer initialPlayer 20
        activeLevel := some { emptyForest with enemies := [spawnedEnemy] }
        hurtStarts := 1
        randomDraws := 1
        randomIntDraws := 2
        trace := [TickEvent.collisionCheck] } := by
    rw [update_spawnSample_shape, hl]
    show Session.collisionCheck (specExt 0 1) (fun _ => 0)
      { spawnTickStart with
        player := (specTickExt 0).playerUpdate initialPlayer emptyForest.worldBounds
          spawnTickStart.deltaTime
        activeLevel := some { emptyForest with enemies := [spawnedEnemy] }
        randomDraws := 1
        randomIntDraws := 2
        trace := [] } = _
    rw [hp]
    unfold Session.collisionCheck
    simp only [show spawnTickStart.projectiles = [] from rfl,
      show spawnTickStart.hurtStarts = 0 from rfl,
      show spawnTickStart.closestPicks = 0 from rfl, collisionCheck_spawn]
    rfl
  rw [hu]
  refine ⟨rfl, rfl, rfl, ?_, ?_, rfl, rfl, rfl, ?_⟩
  · simp only [specExt, specMoveTo, spawnedEnemy, enemyAt, entityAt]
    norm_num
  · simp only [specExt, specMoveTo, specIntersects, spawnedEnemy, enemyAt, entityAt,
      initialPlayer, playerAt]
    norm_num
  · simp only [hitsOf, hitsFrom, capsuleOf, specExt, specBrokenIntersection,
      segmentMeetsBox, spawnedEnemy,
      enemyAt, entityAt, projectileAt]
    norm_num [abs_div, abs_neg]

/-! ## Theorems: the order of the calls in a tick -/

/-- The level update records one enemy tick per enemy, in collection order, keeps a level
active and leaves the rest of the session, the random counters apart, as it was. -/
theorem levelUpdate_frame (X : Ext) (T : TickExt) (rand : Nat → ℚ) (lvl : Level) (s : Session)
    (deltaTime : ℚ) :
    (Level.update X T rand lvl s deltaTime).trace =
      s.trace ++ (List.range lvl.enemies.length).map TickEvent.enemyOnGameTick ∧
    (Level.update X T rand lvl s deltaTime).menus = s.menus ∧
    (Level.update X T rand lvl s deltaTime).projectiles = s.projectiles ∧
    (Level.update X T rand lvl s deltaTime).player = s.player ∧
    (Level.update X T rand lvl s deltaTime).keyManager = s.keyManager ∧
    (Level.update X T rand lvl s deltaTime).mouseManager = s.mouseManager ∧
    (Level.update X T rand lvl s deltaTime).deltaTime = s.deltaTime ∧
    (Level.update X T rand lvl s deltaTime).activeLevel.isSome = true := by
  unfold Level.update
  dsimp only
  split_ifs <;> exact ⟨rfl, rfl, rfl, rfl, rfl, rfl, rfl, rfl⟩

/-- The collision pass of a session with an active level records one event, keeps a level
active and leaves menus, input state and frame time as they were. -/
theorem sessionCollisionCheck_frame (X : Ext) (rand : Nat → ℚ) (s : Session)
    (h : s.activeLevel.isSome = true) :
    (s.collisionCheck X rand).trace = s.trace ++ [TickEvent.collisionCheck] ∧
    (s.collisionCheck X rand).menus = s.menus ∧
    (s.collisionCheck X rand).keyManager = s.keyManager ∧
    (s.collisionCheck X rand).mouseManager = s.mouseManager ∧
    (s.collisionCheck X rand).deltaTime = s.deltaTime ∧
    (s.collisionCheck X rand).activeLevel.isSome = true := by
  unfold Session.collisionCheck
  cases hl : s.activeLevel with
  | none => rw [hl] at h; simp at h
  | some lvl => exact ⟨rfl, rfl, rfl, rfl, rfl, rfl⟩

/-- The method `GameLoop::update` in the game: with an active level, no open menu and a
player that is not dead, it runs the level update, the player update and the collision
pass, in this order. -/
theorem update_inGame_eq (X : Ext) (T : TickExt) (rand : Nat → ℚ) (currentTime : Nat)
    (s : Session) (lvl : Level) (hl : s.activeLevel = some lvl) (hm : s.menus = [])
    (hd : X.isDead s.player.toEntity = false) :
    update X T rand currentTime s =
      Session.collisionCheck X rand (beforeCollision X T rand currentTime lvl s) := by
  unfold update beforeCollision frameStart
  simp only [hm, hl, hd, List.length_nil, gt_iff_lt, Nat.lt_irrefl, if_false, and_false,
    false_and, Bool.false_eq_true]

/-- The input of the collision pass: the enemy ticks are recorded, a level is active, and
menus and keys are as at the start of the frame. -/
theorem beforeCollision_frame (X : Ext) (T : TickExt) (rand : Nat → ℚ) (currentTime : Nat)
    (lvl : Level) (s : Session) :
    (beforeCollision X T rand currentTime lvl s).trace =
      s.trace ++ (List.range lvl.enemies.length).map TickEvent.enemyOnGameTick ∧
    (beforeCollision X T rand currentTime lvl s).menus = s.menus ∧
    (beforeCollision X T rand currentTime lvl s).keyManager = s.keyManager ∧
    (beforeCollision X T rand currentTime lvl s).projectiles = s.projectiles ∧
    (beforeCollision X T rand currentTime lvl s).activeLevel.isSome = true := by
  obtain ⟨a1, a2, a3, _, a5, _, _, a8⟩ := levelUpdate_frame X T rand lvl
    (frameStart currentTime s) (frameStart currentTime s).deltaTime
  exact ⟨a1, a2, a5, a3, a8⟩

/-- The trace and the menus after `GameLoop::update` in the game. -/
theorem update_inGame (X : Ext) (T : TickExt) (rand : Nat → ℚ) (currentTime : Nat)
    (s : Session) (lvl : Level) (hl : s.activeLevel = some lvl) (hm : s.menus = [])
    (hd : X.isDead s.player.toEntity = false) :
    (update X T rand currentTime s).trace =
      s.trace ++ (List.range lvl.enemies.length).map TickEvent.enemyOnGameTick ++
        [TickEvent.collisionCheck] ∧
    (update X T rand currentTime s).menus = [] ∧
    (update X T rand currentTime s).keyManager = s.keyManager ∧
    (update X T rand currentTime s).activeLevel.isSome = true := by
  rw [update_inGame_eq X T rand currentTime s lvl hl hm hd]
  obtain ⟨a1, a2, a3, _, a5⟩ := beforeCollision_frame X T rand currentTime lvl s
  obtain ⟨b1, b2, b3, _, _, b6⟩ := sessionCollisionCheck_frame X rand
    (beforeCollision X T rand currentTime lvl s) a5
  exact ⟨by rw [b1, a1], by rw [b2, a2, hm], by rw [b3, a3], b6⟩

/-- The keyboard input leaves trace, level, menus, projectiles and mouse state alone. -/
theorem processKeyboardInput_frame (X : Ext) (T : TickExt) (s s2 : Session)
    (h : processKeyboardInput X T s = some s2) :
    s2.trace = s.trace ∧ s2.activeLevel = s.activeLevel ∧ s2.menus = s.menus ∧
    s2.projectiles = s.projectiles ∧ s2.mouseManager = s.mouseManager ∧
    s2.leftClickLock = s.leftClickLock ∧ s2.deltaTime = s.deltaTime := by
  unfold processKeyboardInput at h
  dsimp only at h
  by_cases hq : s.keyManager.isKeyDown '=' = true
  · rw [if_pos hq] at h
    cases h
  · rw [if_neg hq] at h
    injection h with h
    rw [← h]
    exact ⟨rfl, rfl, rfl, rfl, rfl, rfl, rfl⟩

/-- The result of a conditional has a field value that both branches have. -/
theorem ite_field {α β : Type} (f : α → β) (c : Prop) [Decidable c] (a b : α) (v : β)
    (ha : f a = v) (hb : f b = v) : f (if c then a else b) = v := by
  split_ifs
  · exact ha
  · exact hb

/-- The mouse input leaves trace, level and menus alone, and either leaves the projectiles
alone or appends one projectile. -/
theorem processMouseInput_frame (X : Ext) (T : TickExt) (s : Session) :
    (processMouseInput X T s).trace = s.trace ∧
    (processMouseInput X T s).activeLevel = s.activeLevel ∧
    (processMouseInput X T s).menus = s.menus ∧
    ((processMouseInput X T s).projectiles = s.projectiles ∨
      ∃ p : Projectile, (processMouseInput X T s).projectiles = s.projectiles ++ [p]) := by
  unfold processMouseInput
  dsimp only
  refine ⟨?_, ?_, ?_, ?_⟩
  · refine ite_field Session.trace _ _ _ _ ?_ ?_ <;>
      (refine ite_field Session.trace _ _ _ _ ?_ rfl
       exact ite_field Session.trace _ _ _ _ rfl rfl)
  · refine ite_field Session.activeLevel _ _ _ _ ?_ ?_ <;>
      (refine ite_field Session.activeLevel _ _ _ _ ?_ rfl
       exact ite_field Session.activeLevel _ _ _ _ rfl rfl)
  · refine ite_field Session.menus _ _ _ _ ?_ ?_ <;>
      (refine ite_field Session.menus _ _ _ _ ?_ rfl
       exact ite_field Session.menus _ _ _ _ rfl rfl)
  · by_cases c1 : s.mouseManager.leftMouseButtonState = MouseState.MOUSE_PRESSED ∧
        s.leftClickLock = false
    · by_cases c2 : s.player.ammoCount > 0
      · right
        simp only [c1, c2, and_self, if_true, ne_eq, not_true_eq_false, if_false]
        exact ⟨_, rfl⟩
      · left
        simp only [c1, c2, and_self, if_true, ne_eq, not_true_eq_false, if_false]
    · left
      rw [if_neg c1]
      exact ite_field Session.projectiles _ _ _ _ rfl rfl

/-- A tick in the game, with an active level, no open menu and a player that is not dead:
after `GameLoop::update` come the keyboard input, the mouse input and the projectile loop;
the null-level path is not taken. -/
theorem gameUpdateTick_inGame (X : Ext) (T : TickExt) (rand : Nat → ℚ) (currentTime : Nat)
    (s : Session) (lvl : Level) (hl : s.activeLevel = some lvl) (hm : s.menus = [])
    (hd : X.isDead s.player.toEntity = false) :
    gameUpdateTick X T rand currentTime s =
      match processKeyboardInput X T (update X T rand currentTime s) with
      | none => TickOutcome.exited
      | some s2 =>
        TickOutcome.ok (endOfTick
          { processMouseInput X T s2 with
            projectiles := floorLoop T s.deltaTime 0 (processMouseInput X T s2).projectiles
            trace := (processMouseInput X T s2).trace ++
              (floorLoopTicked T s.deltaTime 0 (processMouseInput X T s2).projectiles).map
                TickEvent.projectileOnGameTick }) := by
  obtain ⟨_, u2, _, u4⟩ := update_inGame X T rand currentTime s lvl hl hm hd
  unfold gameUpdateTick
  dsimp only
  rw [u2]
  dsimp only
  cases hk : processKeyboardInput X T (update X T rand currentTime s) with
  | none => rfl
  | some s2 =>
    dsimp only
    obtain ⟨_, k2, _⟩ := processKeyboardInput_frame X T _ s2 hk
    obtain ⟨_, m2, _⟩ := processMouseInput_frame X T s2
    have hsome : (processMouseInput X T s2).activeLevel.isSome = true := by
      rw [m2, k2]; exact u4
    cases ha : (processMouseInput X T s2).activeLevel with
    | none => rw [ha] at hsome; simp at hsome
    | some l2 => rfl

/-- C19, amended. In every game tick that starts with an active level, no open menu and a
player that is not dead, and that returns: the calls of Enemy::onGameTick on all enemies
come first, then the collision pass, and only then the calls of Projectile::onGameTick of
that tick, on the projectiles left by the collision pass and the one fired in the tick, if
any. So the motion integration of every enemy is completed before the collision pass, and
that of every projectile after it. -/
theorem C19_tick_order (X : Ext) (T : TickExt) (rand : Nat → ℚ) (currentTime : Nat)
    (s s2 : Session) (lvl : Level) (hl : s.activeLevel = some lvl) (hm : s.menus = [])
    (hd : X.isDead s.player.toEntity = false)
    (hr : gameUpdateTick X T rand currentTime s = TickOutcome.ok s2) :
    ∃ ps : List Projectile,
      s2.trace =
        s.trace ++ (List.range lvl.enemies.length).map TickEvent.enemyOnGameTick ++
          [TickEvent.collisionCheck] ++ ps.map TickEvent.projectileOnGameTick ∧
      s2.projectiles = floorLoop T s.deltaTime 0 ps ∧
      (ps = (update X T rand currentTime s).projectiles ∨
        ∃ p : Projectile, ps = (update X T rand currentTime s).projectiles ++ [p]) := by
  rw [gameUpdateTick_inGame X T rand currentTime s lvl hl hm hd] at hr
  cases hk : processKeyboardInput X T (update X T rand currentTime s) with
  | none => rw [hk] at hr; cases hr
  | some sk =>
    rw [hk] at hr
    dsimp only at hr
    injection hr with hr
    obtain ⟨u1, _, _, _⟩ := update_inGame X T rand currentTime s lvl hl hm hd
    obtain ⟨k1, _, _, k4, _⟩ := processKeyboardInput_frame X T _ sk hk
    obtain ⟨m1, _, _, m4⟩ := processMouseInput_frame X T sk
    refine ⟨(processMouseInput X T sk).projectiles, ?_, ?_, ?_⟩
    · rw [← hr]
      show (processMouseInput X T sk).trace ++ _ = _
      rw [m1, k1, u1, floorLoopTicked_eq T s.deltaTime _ 0 _ rfl]
      simp
    · rw [← hr]
      rfl
    · rw [← k4]
      exact m4

/-- The level update when the spawn roll fails: the enemies are the ticked enemies. -/
theorem levelUpdate_noSpawn (X : Ext) (T : TickExt) (rand : Nat → ℚ) (lvl : Level)
    (s : Session) (deltaTime : ℚ)
    (h : ¬ rand s.randomDraws <
      (match lvl.kind with
        | LevelKind.forest => (30 / 100 : ℚ)
        | LevelKind.desert => 225 / 1000) * deltaTime) :
    (Level.update X T rand lvl s deltaTime).activeLevel =
      some { lvl with
        enemies := lvl.enemies.map (fun e => e.onGameTick X s.player deltaTime lvl.worldBounds) } := by
  unfold Level.update
  dsimp only
  rw [if_neg h]

/-- The projectiles after the collision pass of a session are those after
`collisionCheck` on the enemies of the active level. -/
theorem sessionCollisionCheck_projectiles (X : Ext) (rand : Nat → ℚ) (s : Session)
    (lvl : Level) (hl : s.activeLevel = some lvl) :
    (s.collisionCheck X rand).projectiles =
      (collisionCheck X rand
        { player := s.player, enemies := lvl.enemies, projectiles := s.projectiles,
          hurtStarts := s.hurtStarts, randomDraws := s.randomDraws,
          closestPicks := s.closestPicks }).projectiles := by
  unfold Session.collisionCheck
  rw [hl]

/-- Without enemies the collision pass keeps every projectile. -/
theorem collisionCheck_noEnemies (X : Ext) (rand : Nat → ℚ) (g : GameLoop)
    (h : g.enemies = []) : (collisionCheck X rand g).projectiles = g.projectiles := by
  have hc : contactStep X g = g := by
    unfold contactStep
    rw [h]
    rfl
  rw [(collisionCheck_projectiles X rand g).1, hc, projectileStep_eq_resolveAll]
  unfold resolveAll
  rw [foldl_resolveOne_keep X g.projectiles _ (fun p _ => by
    show (hitsOf X g.enemies p).length ≠ 1
    rw [h]
    simp [hitsOf, hitsFrom])]
  simp

/-- The keyboard input returns unless the key `=` is down. -/
theorem processKeyboardInput_some (X : Ext) (T : TickExt) (s : Session)
    (h : s.keyManager.isKeyDown '=' = false) :
    ∃ s2 : Session, processKeyboardInput X T s = some s2 := by
  unfold processKeyboardInput
  dsimp only
  rw [if_neg (by rw [h]; simp)]
  exact ⟨_, rfl⟩

/-- The mouse input fires nothing while the left button is not in the state
MOUSE_PRESSED. -/
theorem processMouseInput_noFire (X : Ext) (T : TickExt) (s : Session)
    (h : s.mouseManager.leftMouseButtonState ≠ MouseState.MOUSE_PRESSED) :
    (processMouseInput X T s).projectiles = s.projectiles := by
  unfold processMouseInput
  dsimp only
  rw [if_pos h, if_neg (fun c => h c.1)]

/-- The mouse manager after `GameLoop::update` in the game is the one before it, with the
mouse grabbed. -/
theorem update_inGame_mouse (X : Ext) (T : TickExt) (rand : Nat → ℚ) (currentTime : Nat)
    (s : Session) (lvl : Level) (hl : s.activeLevel = some lvl) (hm : s.menus = [])
    (hd : X.isDead s.player.toEntity = false) :
    (update X T rand currentTime s).mouseManager = { s.mouseManager with grabbed := true } := by
  rw [update_inGame_eq X T rand currentTime s lvl hl hm hd]
  obtain ⟨_, _, _, _, _, a6, _, a8⟩ := levelUpdate_frame X T rand lvl
    (frameStart currentTime s) (frameStart currentTime s).deltaTime
  obtain ⟨_, _, _, b4, _, _⟩ := sessionCollisionCheck_frame X rand
    (beforeCollision X T rand currentTime lvl s) a8
  rw [b4]
  exact a6

/-- The tick of the sample session at time 16 ms returns, and the projectile loop starts
with the one projectile of the sample. -/
theorem orderSample_tick :
    ∃ sk : Session,
      processKeyboardInput (specExt 0 1) (specTickExt 0)
        (update (specExt 0 1) (specTickExt 0) (fun _ => 1) 16 orderSample) = some sk ∧
      (processMouseInput (specExt 0 1) (specTickExt 0) sk).projectiles =
        [restingProjectile 5] := by
  have hd : (specExt 0 1).isDead orderSample.player.toEntity = false := by
    simp [specExt, orderSample, inGameSession, initialSession, initialPlayer, entityAt]
  obtain ⟨_, _, u3, _⟩ := update_inGame (specExt 0 1) (specTickExt 0) (fun _ => 1) 16
    orderSample emptyForest rfl rfl hd
  have um := update_inGame_mouse (specExt 0 1) (specTickExt 0) (fun _ => 1) 16
    orderSample emptyForest rfl rfl hd
  obtain ⟨sk, hk⟩ := processKeyboardInput_some (specExt 0 1) (specTickExt 0)
    (update (specExt 0 1) (specTickExt 0) (fun _ => 1) 16 orderSample)
    (by rw [u3]; rfl)
  obtain ⟨_, _, _, k4, k5, _⟩ := processKeyboardInput_frame _ _ _ sk hk
  refine ⟨sk, hk, ?_⟩
  rw [processMouseInput_noFire _ _ sk (by rw [k5, um]; simp [orderSample, inGameSession,
    initialSession, initialMouse]), k4]
  rw [update_inGame_eq (specExt 0 1) (specTickExt 0) (fun _ => 1) 16 orderSample emptyForest
    rfl rfl hd]
  have hlev : (beforeCollision (specExt 0 1) (specTickExt 0) (fun _ => 1) 16 emptyForest
      orderSample).activeLevel = some emptyForest := by
    show (Level.update (specExt 0 1) (specTickExt 0) (fun _ => 1) emptyForest
      (frameStart 16 orderSample) (frameStart 16 orderSample).deltaTime).activeLevel = _
    rw [levelUpdate_noSpawn _ _ _ _ _ _ (by
      simp only [emptyForest, frameStart, orderSample, inGameSession, initialSession]
      norm_num)]
    rfl
  rw [sessionCollisionCheck_projectiles _ _ _ emptyForest hlev,
    collisionCheck_noEnemies _ _ _ rfl]
  exact (beforeCollision_frame _ _ _ _ _ _).2.2.2.1

/-- The tick of the sample session at time 16 ms returns a session whose trace is the
collision pass followed by the tick of the projectile. -/
theorem orderSample_outcome :
    ∃ s2 : Session,
      gameUpdateTick (specExt 0 1) (specTickExt 0) (fun _ => 1) 16 orderSample =
        TickOutcome.ok s2 ∧
      s2.trace =
        [TickEvent.collisionCheck, TickEvent.projectileOnGameTick (restingProjectile 5)] := by
  have hd : (specExt 0 1).isDead orderSample.player.toEntity = false := by
    simp [specExt, orderSample, inGameSession, initialSession, initialPlayer, entityAt]
  obtain ⟨sk, hk, hps⟩ := orderSample_tick
  obtain ⟨u1, _, _, _⟩ := update_inGame (specExt 0 1) (specTickExt 0) (fun _ => 1) 16
    orderSample emptyForest rfl rfl hd
  obtain ⟨k1, _⟩ := processKeyboardInput_frame _ _ _ sk hk
  obtain ⟨m1, _⟩ := processMouseInput_frame (specExt 0 1) (specTickExt 0) sk
  rw [gameUpdateTick_inGame (specExt 0 1) (specTickExt 0) (fun _ => 1) 16 orderSample
    emptyForest rfl rfl hd, hk]
  refine ⟨_, rfl, ?_⟩
  show (processMouseInput (specExt 0 1) (specTickExt 0) sk).trace ++ _ = _
  rw [m1, k1, u1, floorLoopTicked_eq (specTickExt 0) _ _ 0 _ rfl, hps]
  rfl

/-- C19, as stated, fails: in the tick of the sample session (active level, no menu, one
projectile) the call of Projectile::onGameTick is recorded after the collision pass of the
same tick. -/
theorem C19_projectile_tick_after_collision_counterexample :
    ∃ s2 : Session,
      gameUpdateTick (specExt 0 1) (specTickExt 0) (fun _ => 1) 16 orderSample =
        TickOutcome.ok s2 ∧
      s2.trace =
        [TickEvent.collisionCheck, TickEvent.projectileOnGameTick (restingProjectile 5)] ∧
      ¬ integrationBeforeCollision s2.trace := by
  obtain ⟨s2, h1, h2⟩ := orderSample_outcome
  refine ⟨s2, h1, h2, ?_⟩
  intro hprop
  rw [h2] at hprop
  exact hprop [TickEvent.collisionCheck] []
    (TickEvent.projectileOnGameTick (restingProjectile 5)) rfl (by simp) (by simp)

/-- Witness of the amended C19: the tick of the sample session. -/
theorem C19_tick_order_witness :
    ∃ (s2 : Session) (ps : List Projectile),
      gameUpdateTick (specExt 0 1) (specTickExt 0) (fun _ => 1) 16 orderSample =
        TickOutcome.ok s2 ∧
      s2.trace =
        orderSample.trace ++
          (List.range emptyForest.enemies.length).map TickEvent.enemyOnGameTick ++
          [TickEvent.collisionCheck] ++ ps.map TickEvent.projectileOnGameTick := by
  obtain ⟨s2, h1, _⟩ := orderSample_outcome
  obtain ⟨ps, hps, _⟩ := C19_tick_order (specExt 0 1) (specTickExt 0) (fun _ => 1) 16
    orderSample s2 emptyForest rfl rfl
    (by simp [specExt, orderSample, inGameSession, initialSession, initialPlayer, entityAt]) h1
  exact ⟨s2, ps, h1, hps⟩

/-! ## Theorems: acceleration and the state at the start of the tick -/

/-- State evaluation from LOSING_SIGHT: one call of `accel`, on the entity as it was. -/
theorem evalState_losing (X : Ext) (self : Enemy) (d2 : ℚ) (v : Vec3) (dt : ℚ)
    (h : self.state = AIState.LOSING_SIGHT) :
    evalState X self d2 v dt =
      { toEntity := X.accel self.toEntity (v.scale (3 * dt))
        state := if d2 < 400 then AIState.ATTACK
          else if 1225 < d2 then AIState.IDLE else AIState.LOSING_SIGHT
        speedModifier := self.speedModifier } := by
  simp only [evalState, h]
  norm_num
  split_ifs <;> simp_all

/-- C22. Acceleration depends on the state at the start of the tick: in a tick that an
enemy starts in LOSING_SIGHT with d2 > 1225, Enemy::onGameTick sets the state to IDLE and
still calls accel, once, with the normalised offset to the player times 3 * dt, before the
end of the tick runs. In every tick started in ATTACK or LOSING_SIGHT accel is called
exactly once, with that vector, and in a tick started in IDLE it is not called: the end of
the tick runs on the entity as it was. -/
theorem C22_accel_by_start_state (X : Ext) (self : Enemy) (player : Player) (deltaTime : ℚ)
    (worldBounds : AABB) :
    (self.state = AIState.LOSING_SIGHT → 1225 < distanceSquaredOf self player →
      (self.onGameTick X player deltaTime worldBounds).state = AIState.IDLE ∧
      self.onGameTick X player deltaTime worldBounds =
        updatePosition X
          { toEntity := X.accel self.toEntity (accelArgument X self player deltaTime)
            state := AIState.IDLE
            speedModifier := self.speedModifier } worldBounds ∧
      self.accelCalls X player deltaTime = [accelArgument X self player deltaTime]) ∧
    (self.state = AIState.ATTACK ∨ self.state = AIState.LOSING_SIGHT →
      self.accelCalls X player deltaTime = [accelArgument X self player deltaTime] ∧
      ∃ st : AIState,
        self.onGameTick X player deltaTime worldBounds =
          updatePosition X
            { toEntity := X.accel self.toEntity (accelArgument X self player deltaTime)
              state := st
              speedModifier := self.speedModifier } worldBounds) ∧
    (self.state = AIState.IDLE →
      self.accelCalls X player deltaTime = [] ∧
      ∃ st : AIState,
        self.onGameTick X player deltaTime worldBounds =
          updatePosition X { self with state := st } worldBounds) ∧
    accelArgument X self player deltaTime =
      (toPlayerOf self player).scale
        (X.inversesqrt (distanceSquaredOf self player) * (3 * deltaTime)) := by
  have hlos : self.state = AIState.LOSING_SIGHT →
      self.onGameTick X player deltaTime worldBounds =
        updatePosition X
          { toEntity := X.accel self.toEntity (accelArgument X self player deltaTime)
            state := if distanceSquaredOf self player < 400 then AIState.ATTACK
              else if 1225 < distanceSquaredOf self player then AIState.IDLE
              else AIState.LOSING_SIGHT
            speedModifier := self.speedModifier } worldBounds := by
    intro h
    show updatePosition X (evalState X self _ _ deltaTime) worldBounds = _
    rw [evalState_losing X self _ _ _ h]
    rfl
  have hatt : self.state = AIState.ATTACK →
      self.onGameTick X player deltaTime worldBounds =
        updatePosition X
          { toEntity := X.accel self.toEntity (accelArgument X self player deltaTime)
            state := if 400 < distanceSquaredOf self player ∧
                distanceSquaredOf self player < 1225
              then AIState.LOSING_SIGHT else AIState.ATTACK
            speedModifier := self.speedModifier } worldBounds := by
    intro h
    show updatePosition X (evalState X self _ _ deltaTime) worldBounds = _
    rw [evalState_attack X self _ _ _ h]
    rfl
  have hcalls : self.state = AIState.ATTACK ∨ self.state = AIState.LOSING_SIGHT →
      self.accelCalls X player deltaTime = [accelArgument X self player deltaTime] := by
    intro h
    unfold Enemy.accelCalls evalStateAccelCalls accelArgument
    rcases h with h | h <;> simp [h]
  refine ⟨?_, ?_, ?_, ?_⟩
  · intro h hd
    have hnot : ¬ distanceSquaredOf self player < 400 := by linarith
    have ht := hlos h
    rw [if_neg hnot, if_pos hd] at ht
    exact ⟨by rw [ht]; rfl, ht, hcalls (Or.inr h)⟩
  · intro h
    refine ⟨hcalls h, ?_⟩
    rcases h with h | h
    · exact ⟨_, hatt h⟩
    · exact ⟨_, hlos h⟩
  · intro h
    refine ⟨?_, ?_⟩
    · unfold Enemy.accelCalls evalStateAccelCalls
      simp [h]
    · rw [onGameTick_idle X self player deltaTime worldBounds h]
      split_ifs
      · exact ⟨_, rfl⟩
      · exact ⟨self.state, rfl⟩
  · simp [accelArgument, normalize, Vec3.scale, distanceSquaredOf, mul_assoc]

/-- Witness of C22: an enemy in LOSING_SIGHT at (40, 0, 0), d2 = 1600 > 1225, with the
player at the origin and a tick of 1/60 s: the state becomes IDLE and accel is called once,
with the vector (-1/20, 0, 0) that points to the player. -/
theorem C22_accel_by_start_state_witness :
    ((enemyAt AIState.LOSING_SIGHT ⟨40, 0, 0⟩).onGameTick (specExt 0 1) (playerAt zeroVec)
        (1 / 60) forestBounds).state = AIState.IDLE ∧
    (enemyAt AIState.LOSING_SIGHT ⟨40, 0, 0⟩).accelCalls (specExt 0 1) (playerAt zeroVec)
        (1 / 60) = [⟨-1 / 20, 0, 0⟩] := by
  have hd : distanceSquaredOf (enemyAt AIState.LOSING_SIGHT ⟨40, 0, 0⟩) (playerAt zeroVec) =
      ((40 * 40 : ℕ) : ℚ) := by
    rw [distanceSquaredOf_eq]
    norm_num [enemyAt, entityAt, playerAt, zeroVec]
  have h := (C22_accel_by_start_state (specExt 0 1) (enemyAt AIState.LOSING_SIGHT ⟨40, 0, 0⟩)
    (playerAt zeroVec) (1 / 60) forestBounds).1 rfl (by rw [hd]; norm_num)
  have ha : accelArgument (specExt 0 1) (enemyAt AIState.LOSING_SIGHT ⟨40, 0, 0⟩)
      (playerAt zeroVec) (1 / 60) = ⟨-1 / 20, 0, 0⟩ := by
    have e : accelArgument (specExt 0 1) (enemyAt AIState.LOSING_SIGHT ⟨40, 0, 0⟩)
        (playerAt zeroVec) (1 / 60) =
        ((toPlayerOf (enemyAt AIState.LOSING_SIGHT ⟨40, 0, 0⟩) (playerAt zeroVec)).scale
          (specInversesqrt (distanceSquaredOf (enemyAt AIState.LOSING_SIGHT ⟨40, 0, 0⟩)
            (playerAt zeroVec)))).scale (3 * (1 / 60)) := rfl
    rw [e, hd, specInversesqrt_sq 40 (by norm_num)]
    simp only [toPlayerOf, Vec3.scale, Vec3.sub, enemyAt, entityAt, playerAt, zeroVec]
    norm_num
  refine ⟨h.1, ?_⟩
  rw [h.2.2, ha]

/-! ## Theorems: the input functions -/

/-- The shape of `processKeyboardInput`: the movement keys produce a player `p4` that has
the score, ammunition and healing items of the player at the start (and its health and
maximum health when `accel` keeps them); then come the healing item, the lock and the
key `-`. -/
theorem processKeyboardInput_shape (X : Ext) (T : TickExt) (s : Session)
    (hexit : s.keyManager.isKeyDown '=' = false) :
    ∃ p4 : Player,
      (p4.score = s.player.score ∧ p4.ammoCount = s.player.ammoCount ∧
        p4.healingItemCount = s.player.healingItemCount) ∧
      ((∀ (e : Entity) (v : Vec3),
          (X.accel e v).health = e.health ∧ (X.accel e v).maxHealth = e.maxHealth) →
        p4.health = s.player.health ∧ p4.maxHealth = s.player.maxHealth) ∧
      processKeyboardInput X T s =
        some { s with
          player :=
            killKey (s.keyManager.isKeyDown '-')
              (useHealingItem (s.keyManager.isKeyDown 'h') s.healLock p4)
          healLock := if s.keyManager.isKeyDown 'h' = false then false else s.healLock } := by
  unfold processKeyboardInput killKey useHealingItem
  dsimp only
  rw [if_neg (by rw [hexit]; simp)]
  refine ⟨_, ?_, ?_, rfl⟩
  · refine ⟨?_, ?_, ?_⟩ <;> (split_ifs <;> rfl)
  · intro hacc
    have h1 : ∀ (p : Player) (v : Vec3), (p.accel X v).health = p.health :=
      fun p v => (hacc p.toEntity v).1
    have h2 : ∀ (p : Player) (v : Vec3), (p.accel X v).maxHealth = p.maxHealth :=
      fun p v => (hacc p.toEntity v).2
    refine ⟨?_, ?_⟩ <;> (split_ifs <;> simp only [h1, h2])

/-- The healing-item code when it applies: full health, one item less. -/
theorem useHealingItem_heal (p : Player) (h1 : p.health < p.maxHealth)
    (h2 : p.healingItemCount > 0) :
    (useHealingItem true false p).health = p.maxHealth ∧
    (useHealingItem true false p).healingItemCount = p.healingItemCount - 1 := by
  unfold useHealingItem
  rw [if_pos ⟨rfl, rfl⟩, if_pos ⟨h1, h2⟩]
  exact ⟨rfl, rfl⟩

/-- The healing-item code when it does not apply: the player as it was. -/
theorem useHealingItem_keep (keyDown lock : Bool) (p : Player)
    (h : ¬ (keyDown = true ∧ lock = false ∧ p.health < p.maxHealth ∧ p.healingItemCount > 0)) :
    useHealingItem keyDown lock p = p := by
  unfold useHealingItem
  split_ifs with c1 c2
  · exact absurd ⟨c1.1, c1.2, c2.1, c2.2⟩ h
  · rfl
  · rfl

/-- The key `-` leaves the healing items alone, and the health too when it is not down. -/
theorem killKey_frame (keyDown : Bool) (p : Player) :
    (killKey keyDown p).healingItemCount = p.healingItemCount ∧
    (killKey keyDown p).ammoCount = p.ammoCount ∧
    (keyDown = false → (killKey keyDown p).health = p.health) ∧
    (keyDown = true → (killKey keyDown p).health = 0) := by
  unfold killKey
  refine ⟨?_, ?_, ?_, ?_⟩
  · split_ifs <;> rfl
  · split_ifs <;> rfl
  · intro h; rw [h]; rfl
  · intro h; rw [h]; rfl

/-- C21, as stated, fails when the key `-` is down. With `h` and `-` down, 40 of 100 health
and two healing items, processKeyboardInput takes one item and leaves the health at 0, not
at maxHealth. With only `-` down (so `h` not down), health is not unchanged: it goes from
40 to 0. -/
theorem C21_kill_key_counterexample :
    healKillSample.keyManager.isKeyDown 'h' = true ∧
    healKillSample.player.health = 40 ∧ healKillSample.player.maxHealth = 100 ∧
    healKillSample.player.healingItemCount = 2 ∧
    (∃ s2 : Session,
      processKeyboardInput (specExt 0 1) (specTickExt 0) healKillSample = some s2 ∧
      s2.player.healingItemCount = 1 ∧ s2.player.health = 0 ∧
      s2.player.health ≠ healKillSample.player.maxHealth) ∧
    killSample.keyManager.isKeyDown 'h' = false ∧
    killSample.player.health = 40 ∧
    (∃ s2 : Session,
      processKeyboardInput (specExt 0 1) (specTickExt 0) killSample = some s2 ∧
      s2.player.healingItemCount = 2 ∧ s2.player.health = 0 ∧
      s2.player.health ≠ killSample.player.health) := by
  refine ⟨by decide, rfl, rfl, rfl, ⟨_, rfl, rfl, rfl, by decide⟩, by decide, rfl,
    ⟨_, rfl, rfl, rfl, by decide⟩⟩

/-- C21, amended. Healing-item use in processKeyboardInput. The function returns unless
the key `=` is down; the lock starts false, as the source initialises it, and is false
afterwards. When `h` is down, health < maxHealth and healingItemCount > 0, exactly one
healing item is taken, and health becomes maxHealth unless the key `-` is down; in every
other case (full health, or no items, or `h` not down) healingItemCount is unchanged, and
health is unchanged unless the key `-` is down. When the key `-` is down the health is 0
after the call. The healing-item count does not become negative. The movement keys call
accel, which is taken to keep health and maxHealth. -/
theorem C21_healing_item_use (X : Ext) (T : TickExt) (s : Session)
    (hexit : s.keyManager.isKeyDown '=' = false)
    (hlock : s.healLock = false)
    (hacc : ∀ (e : Entity) (v : Vec3),
      (X.accel e v).health = e.health ∧ (X.accel e v).maxHealth = e.maxHealth) :
    ∃ s2 : Session,
      processKeyboardInput X T s = some s2 ∧
      s2.healLock = false ∧
      (s.keyManager.isKeyDown 'h' = true → s.player.health < s.player.maxHealth →
        s.player.healingItemCount > 0 →
        s2.player.healingItemCount = s.player.healingItemCount - 1 ∧
        (s.keyManager.isKeyDown '-' = false → s2.player.health = s.player.maxHealth)) ∧
      (¬ (s.keyManager.isKeyDown 'h' = true ∧ s.player.health < s.player.maxHealth ∧
          s.player.healingItemCount > 0) →
        s2.player.healingItemCount = s.player.healingItemCount ∧
        (s.keyManager.isKeyDown '-' = false → s2.player.health = s.player.health)) ∧
      (s.keyManager.isKeyDown '-' = true → s2.player.health = 0) ∧
      (0 ≤ s.player.healingItemCount → 0 ≤ s2.player.healingItemCount) := by
  obtain ⟨p4, ⟨_, _, hc⟩, hh, hs⟩ := processKeyboardInput_shape X T s hexit
  obtain ⟨hh1, hh2⟩ := hh hacc
  obtain ⟨k1, _, k3, k4⟩ := killKey_frame (s.keyManager.isKeyDown '-')
    (useHealingItem (s.keyManager.isKeyDown 'h') s.healLock p4)
  have hkeep : ¬ (s.keyManager.isKeyDown 'h' = true ∧ s.player.health < s.player.maxHealth ∧
      s.player.healingItemCount > 0) →
      useHealingItem (s.keyManager.isKeyDown 'h') s.healLock p4 = p4 := by
    intro hnot
    apply useHealingItem_keep
    rw [hh1, hh2, hc]
    exact fun c => hnot ⟨c.1, c.2.2.1, c.2.2.2⟩
  refine ⟨_, hs, ?_, ?_, ?_, ?_, ?_⟩
  · show (if s.keyManager.isKeyDown 'h' = false then false else s.healLock) = false
    rw [hlock]
    simp
  · intro hkey hlt hpos
    have hheal := useHealingItem_heal p4 (by rw [hh1, hh2]; exact hlt) (by rw [hc]; exact hpos)
    rw [hkey, hlock] at k1 k3
    refine ⟨?_, ?_⟩
    · show (killKey _ (useHealingItem _ _ p4)).healingItemCount = _
      rw [hkey, hlock, k1, hheal.2, hc]
    · intro hk
      show (killKey _ (useHealingItem _ _ p4)).health = _
      rw [hkey, hlock, k3 hk, hheal.1, hh2]
  · intro hnot
    rw [hkeep hnot] at k1 k3
    refine ⟨?_, ?_⟩
    · show (killKey _ (useHealingItem _ _ p4)).healingItemCount = _
      rw [hkeep hnot, k1, hc]
    · intro hk
      show (killKey _ (useHealingItem _ _ p4)).health = _
      rw [hkeep hnot, k3 hk, hh1]
  · intro hk
    exact k4 hk
  · intro h0
    show 0 ≤ (killKey _ (useHealingItem _ _ p4)).healingItemCount
    rw [k1]
    unfold useHealingItem
    split_ifs with c1 c2
    · show 0 ≤ p4.healingItemCount - 1
      have := c2.2
      omega
    · rw [hc]; exact h0
    · rw [hc]; exact h0

/-- Witness of the amended C21: the key `h` is down, the player has 40 of 100 health and two healing
items: after the call the health is 100 and one item is left. -/
theorem C21_healing_item_use_witness :
    ∃ s2 : Session,
      processKeyboardInput (specExt 0 1) (specTickExt 0) healSample = some s2 ∧
      s2.player.health = 100 ∧ s2.player.healingItemCount = 1 := by
  obtain ⟨s2, h1, _, h3, _⟩ := C21_healing_item_use (specExt 0 1) (specTickExt 0) healSample
    (by decide) rfl (fun _ _ => ⟨rfl, rfl⟩)
  obtain ⟨a, b⟩ := h3 (by decide) (by decide) (by decide)
  exact ⟨s2, h1, b (by decide), a⟩

/-! ## Theorems: frames of the tick -/

/-- The method `GameLoop::update` is its first part followed, when a level is active, by
the level update, the player update and the collision pass. -/
theorem update_eq_head (X : Ext) (T : TickExt) (rand : Nat → ℚ) (currentTime : Nat)
    (s : Session) :
    update X T rand currentTime s =
      match (updateHead X currentTime s).activeLevel with
      | some lvl =>
        Session.collisionCheck X rand
          { Level.update X T rand lvl (updateHead X currentTime s)
              (updateHead X currentTime s).deltaTime with
            player :=
              T.playerUpdate
                (Level.update X T rand lvl (updateHead X currentTime s)
                  (updateHead X currentTime s).deltaTime).player
                lvl.worldBounds
                (Level.update X T rand lvl (updateHead X currentTime s)
                  (updateHead X currentTime s).deltaTime).deltaTime }
      | none => updateHead X currentTime s := rfl

/-- The first part of `GameLoop::update` leaves the player, the projectiles, the keys, the
button states, the locks, the counters and the trace alone. -/
theorem updateHead_frame (X : Ext) (currentTime : Nat) (s : Session) :
    (updateHead X currentTime s).player = s.player ∧
    (updateHead X currentTime s).projectiles = s.projectiles ∧
    (updateHead X currentTime s).keyManager = s.keyManager ∧
    (updateHead X currentTime s).mouseManager.leftMouseButtonState =
      s.mouseManager.leftMouseButtonState ∧
    (updateHead X currentTime s).healLock = s.healLock ∧
    (updateHead X currentTime s).leftClickLock = s.leftClickLock ∧
    (updateHead X currentTime s).eventStarts = s.eventStarts ∧
    (updateHead X currentTime s).trace = s.trace := by
  unfold updateHead
  dsimp only
  split_ifs <;> exact ⟨rfl, rfl, rfl, rfl, rfl, rfl, rfl, rfl⟩

/-- The level and the menus after the first part of `GameLoop::update`: a dead player with
an active level drops the level and pushes the main menu and then the game-over menu;
otherwise the level stays as it is and an active level closes every menu. -/
theorem updateHead_level (X : Ext) (currentTime : Nat) (s : Session) :
    (X.isDead s.player.toEntity = true ∧ s.activeLevel.isSome = true →
      (updateHead X currentTime s).activeLevel = none ∧
      (updateHead X currentTime s).menus =
        ⟨MenuKind.GameOverMenu, false⟩ :: ⟨MenuKind.MainMenu, false⟩ :: s.menus) ∧
    (¬ (X.isDead s.player.toEntity = true ∧ s.activeLevel.isSome = true) →
      (updateHead X currentTime s).activeLevel = s.activeLevel ∧
      (s.activeLevel.isSome = true → (updateHead X currentTime s).menus = []) ∧
      (s.activeLevel = none → (updateHead X currentTime s).menus = s.menus)) := by
  unfold updateHead
  dsimp only
  by_cases c1 : s.menus.length > 0 <;>
    by_cases c2 : (X.isDead s.player.toEntity = true ∧ s.activeLevel.isSome = true) <;>
    simp only [c1, c2, if_true, if_false, not_true_eq_false, not_false_eq_true,
      Option.isSome_none, Bool.false_eq_true, false_and, and_self, true_and,
      List.length_cons, gt_iff_lt, Nat.zero_lt_succ, and_true, IsEmpty.forall_iff,
      forall_true_left, true_implies, false_implies, implies_true]
  · refine ⟨by split_ifs <;> rfl, fun h => by rw [if_pos h], fun h => ?_⟩
    rw [if_neg (by rw [h]; simp)]
  · have hm : s.menus = [] := List.length_eq_zero.mp (by omega)
    simp only [and_false, if_false]
    exact ⟨trivial, fun _ => hm, fun _ => trivial⟩

/-- The level update leaves the locks and the count of shots alone. -/
theorem levelUpdate_locks (X : Ext) (T : TickExt) (rand : Nat → ℚ) (lvl : Level) (s : Session)
    (deltaTime : ℚ) :
    (Level.update X T rand lvl s deltaTime).leftClickLock = s.leftClickLock ∧
    (Level.update X T rand lvl s deltaTime).eventStarts = s.eventStarts ∧
    (Level.update X T rand lvl s deltaTime).healLock = s.healLock := by
  unfold Level.update
  dsimp only
  split_ifs <;> exact ⟨rfl, rfl, rfl⟩

/-- The collision pass of a session leaves the locks, the count of shots, the input state
and the menus alone, and keeps a level active when one is. -/
theorem sessionCollisionCheck_locks (X : Ext) (rand : Nat → ℚ) (s : Session) :
    (s.collisionCheck X rand).leftClickLock = s.leftClickLock ∧
    (s.collisionCheck X rand).eventStarts = s.eventStarts ∧
    (s.collisionCheck X rand).healLock = s.healLock ∧
    (s.collisionCheck X rand).keyManager = s.keyManager ∧
    (s.collisionCheck X rand).mouseManager = s.mouseManager ∧
    (s.collisionCheck X rand).menus = s.menus ∧
    (s.collisionCheck X rand).activeLevel.isSome = s.activeLevel.isSome := by
  unfold Session.collisionCheck
  cases hl : s.activeLevel with
  | none => exact ⟨rfl, rfl, rfl, rfl, rfl, rfl, by rw [hl]⟩
  | some lvl => exact ⟨rfl, rfl, rfl, rfl, rfl, rfl, rfl⟩

/-- The method `GameLoop::update` leaves the locks, the count of shots, the keys and the
state of the left button alone; its menus and the presence of a level are those left by
its first part. -/
theorem update_frame (X : Ext) (T : TickExt) (rand : Nat → ℚ) (currentTime : Nat)
    (s : Session) :
    (update X T rand currentTime s).leftClickLock = s.leftClickLock ∧
    (update X T rand currentTime s).eventStarts = s.eventStarts ∧
    (update X T rand currentTime s).healLock = s.healLock ∧
    (update X T rand currentTime s).keyManager = s.keyManager ∧
    (update X T rand currentTime s).mouseManager.leftMouseButtonState =
      s.mouseManager.leftMouseButtonState ∧
    (update X T rand currentTime s).menus = (updateHead X currentTime s).menus ∧
    (update X T rand currentTime s).activeLevel.isSome =
      (updateHead X currentTime s).activeLevel.isSome := by
  obtain ⟨_, _, h3, h4, h5, h6, h7, _⟩ := updateHead_frame X currentTime s
  rw [update_eq_head]
  cases hl : (updateHead X currentTime s).activeLevel with
  | none => exact ⟨h6, h7, h5, h3, h4, rfl, by rw [hl]⟩
  | some lvl =>
    dsimp only
    obtain ⟨a1, a2, a3⟩ := levelUpdate_locks X T rand lvl (updateHead X currentTime s)
      (updateHead X currentTime s).deltaTime
    obtain ⟨_, b2, _, _, b5, b6, _, b8⟩ := levelUpdate_frame X T rand lvl
      (updateHead X currentTime s) (updateHead X currentTime s).deltaTime
    obtain ⟨c1, c2, c3, c4, c5, c6, c7⟩ := sessionCollisionCheck_locks X rand
      { Level.update X T rand lvl (updateHead X currentTime s)
          (updateHead X currentTime s).deltaTime with
        player :=
          T.playerUpdate
            (Level.update X T rand lvl (updateHead X currentTime s)
              (updateHead X currentTime s).deltaTime).player
            lvl.worldBounds
            (Level.update X T rand lvl (updateHead X currentTime s)
              (updateHead X currentTime s).deltaTime).deltaTime }
    refine ⟨c1.trans (a1.trans h6), c2.trans (a2.trans h7), c3.trans (a3.trans h5),
      c4.trans (b5.trans h3), ?_, c6.trans b2, ?_⟩
    · rw [c5]
      show (Level.update X T rand lvl (updateHead X currentTime s)
        (updateHead X currentTime s).deltaTime).mouseManager.leftMouseButtonState = _
      rw [b6, h4]
    · rw [c7]
      exact b8

/-- Starting a level leaves the menus, the locks and the count of shots alone. -/
theorem startLevel_frame (T : TickExt) (kind : LevelKind) (s : Session) :
    (startLevel T kind s).menus = s.menus ∧
    (startLevel T kind s).leftClickLock = s.leftClickLock ∧
    (startLevel T kind s).eventStarts = s.eventStarts ∧
    (startLevel T kind s).mouseManager = s.mouseManager ∧
    ((startLevel T kind s).player = s.player ∨
      (startLevel T kind s).player = T.playerReset s.player) := by
  unfold startLevel
  cases s.activeLevel with
  | none => exact ⟨rfl, rfl, rfl, rfl, Or.inr rfl⟩
  | some lvl => exact ⟨rfl, rfl, rfl, rfl, Or.inl rfl⟩

/-- After `GameLoop::update` on a session that satisfies the invariant, a level is active
exactly when the menu stack is empty, and a stack that is not empty ends in the main
menu. -/
theorem update_menus (X : Ext) (T : TickExt) (rand : Nat → ℚ) (currentTime : Nat)
    (s : Session) (hK : menuInvariant s) :
    ((update X T rand currentTime s).activeLevel.isSome = true ↔
      (update X T rand currentTime s).menus = []) ∧
    ((update X T rand currentTime s).menus ≠ [] →
      (update X T rand currentTime s).menus.getLast? = some ⟨MenuKind.MainMenu, false⟩) := by
  obtain ⟨_, _, _, _, _, u6, u7⟩ := update_frame X T rand currentTime s
  obtain ⟨d1, d2⟩ := updateHead_level X currentTime s
  rw [u6, u7]
  by_cases hd : X.isDead s.player.toEntity = true ∧ s.activeLevel.isSome = true
  · obtain ⟨e1, e2⟩ := d1 hd
    rw [e1, e2]
    refine ⟨by simp, fun _ => ?_⟩
    cases hm : s.menus with
    | nil => rfl
    | cons m rest =>
      rw [List.getLast?_cons_cons, List.getLast?_cons_cons, ← hm]
      exact hK.2 (by rw [hm]; simp)
  · obtain ⟨e1, e2, e3⟩ := d2 hd
    rw [e1]
    cases hl : s.activeLevel with
    | none =>
      rw [e3 hl]
      refine ⟨⟨fun h => by simp at h, fun h => ?_⟩, hK.2⟩
      have := hK.1 h
      rw [hl] at this
      exact this
    | some lvl =>
      rw [e2 (by rw [hl]; rfl)]
      exact ⟨by simp, fun h => absurd rfl h⟩

/-- The update of the main menu: the stack grows by the help menu, the options menu, both
or none; the menu does not ask to be popped by this call; the locks and the count of shots
stay; the player stays or is reset by the start of a level. -/
theorem menuUpdate_main (T : TickExt) (m : Menu) (s : Session)
    (hk : m.kind = MenuKind.MainMenu) :
    ((Menu.update T m s).1.menus = s.menus ∨
      (Menu.update T m s).1.menus = ⟨MenuKind.HelpMenu, false⟩ :: s.menus ∨
      (Menu.update T m s).1.menus = ⟨MenuKind.OptionsMenu, false⟩ :: s.menus ∨
      (Menu.update T m s).1.menus =
        ⟨MenuKind.OptionsMenu, false⟩ :: ⟨MenuKind.HelpMenu, false⟩ :: s.menus) ∧
    (Menu.update T m s).2 = m.shouldPopMenu ∧
    (Menu.update T m s).1.leftClickLock = s.leftClickLock ∧
    (Menu.update T m s).1.eventStarts = s.eventStarts := by
  have hs := startLevel_frame T
  unfold Menu.update
  rw [hk]
  dsimp only
  refine ⟨?_, rfl, ?_, ?_⟩
  · split_ifs <;> simp [(hs _ _).1]
  · split_ifs <;> simp [(hs _ _).2.1]
  · split_ifs <;> simp [(hs _ _).2.2.1]

/-- The update of a menu other than the main menu: a click on the back button sets the
flag of the menu, which asks to be popped; otherwise nothing changes. -/
theorem menuUpdate_other (T : TickExt) (m : Menu) (s : Session)
    (hk : m.kind ≠ MenuKind.MainMenu) :
    Menu.update T m s =
        ({ s with menus := { m with shouldPopMenu := true } :: s.menus.tail }, true) ∨
    Menu.update T m s = (s, m.shouldPopMenu) := by
  unfold Menu.update
  cases hkind : m.kind with
  | MainMenu => exact absurd hkind hk
  | HelpMenu => dsimp only; split_ifs; exact Or.inl rfl; exact Or.inr rfl
  | OptionsMenu => dsimp only; split_ifs; exact Or.inl rfl; exact Or.inr rfl
  | GameOverMenu => dsimp only; split_ifs; exact Or.inl rfl; exact Or.inr rfl

/-- The menu branch keeps the main menu at the bottom of the stack. -/
theorem menuTick_menus (T : TickExt) (m : Menu) (rest : List Menu) (s : Session)
    (hm : s.menus = m :: rest)
    (hlast : s.menus.getLast? = some ⟨MenuKind.MainMenu, false⟩) :
    (menuTick T m s).menus.getLast? = some ⟨MenuKind.MainMenu, false⟩ := by
  have hrest : rest ≠ [] → rest.getLast? = some ⟨MenuKind.MainMenu, false⟩ := by
    intro hne
    cases rest with
    | nil => exact absurd rfl hne
    | cons a as => rw [hm, List.getLast?_cons_cons] at hlast; exact hlast
  have hsingle : rest = [] → m = ⟨MenuKind.MainMenu, false⟩ := by
    intro he
    rw [hm, he] at hlast
    simpa using hlast
  have hpush : ∀ pushes : List Menu,
      (pushes ++ s.menus).getLast? = some ⟨MenuKind.MainMenu, false⟩ := by
    intro pushes
    rw [List.getLast?_append, hlast]
    rfl
  have hpop : ∀ pushes : List Menu, rest ≠ [] →
      (pushes ++ s.menus).tail.getLast? = some ⟨MenuKind.MainMenu, false⟩ := by
    intro pushes hne
    rw [hm]
    cases pushes with
    | nil => exact hrest hne
    | cons a as =>
      show (as ++ m :: rest).getLast? = _
      rw [List.getLast?_append, ← hm, hlast]
      rfl
  unfold menuTick
  by_cases hk : m.kind = MenuKind.MainMenu
  · obtain ⟨hmenus, hflag, _⟩ := menuUpdate_main T m s hk
    have hshape : ∃ pushes : List Menu, (Menu.update T m s).1.menus = pushes ++ s.menus := by
      rcases hmenus with h | h | h | h
      · exact ⟨[], h⟩
      · exact ⟨[_], h⟩
      · exact ⟨[_], h⟩
      · exact ⟨[_, _], h⟩
    obtain ⟨pushes, hp⟩ := hshape
    by_cases hpopflag : (Menu.update T m s).2 = true
    · rw [if_pos hpopflag]
      show (Menu.update T m s).1.menus.tail.getLast? = _
      rw [hp]
      apply hpop
      intro he
      rw [hflag, hsingle he] at hpopflag
      exact absurd hpopflag (by simp)
    · rw [if_neg hpopflag, hp]
      exact hpush _
  · have hne : rest ≠ [] := by
      intro he
      rw [hsingle he] at hk
      exact hk rfl
    rcases menuUpdate_other T m s hk with h | h
    · rw [h]
      show (s.menus.tail).getLast? = _
      rw [hm]
      exact hrest hne
    · rw [h]
      dsimp only
      split_ifs
      · show (s.menus.tail).getLast? = _
        rw [hm]
        exact hrest hne
      · exact hlast

/-- The menu branch leaves the locks and the count of shots alone. -/
theorem menuTick_frame (T : TickExt) (m : Menu) (s : Session) :
    (menuTick T m s).leftClickLock = s.leftClickLock ∧
    (menuTick T m s).eventStarts = s.eventStarts := by
  have h1 : (menuTick T m s).leftClickLock = (Menu.update T m s).1.leftClickLock := by
    unfold menuTick
    split_ifs <;> rfl
  have h2 : (menuTick T m s).eventStarts = (Menu.update T m s).1.eventStarts := by
    unfold menuTick
    split_ifs <;> rfl
  rw [h1, h2]
  by_cases hk : m.kind = MenuKind.MainMenu
  · obtain ⟨_, _, a, b⟩ := menuUpdate_main T m s hk
    exact ⟨a, b⟩
  · rcases menuUpdate_other T m s hk with h | h <;> (rw [h]; exact ⟨rfl, rfl⟩)

/-- A tick with a menu open after `GameLoop::update`: the menu branch and the end of the
tick. -/
theorem gameUpdateTick_menu (X : Ext) (T : TickExt) (rand : Nat → ℚ) (currentTime : Nat)
    (s : Session) (m : Menu) (rest : List Menu)
    (hm : (update X T rand currentTime s).menus = m :: rest) :
    gameUpdateTick X T rand currentTime s =
      TickOutcome.ok (endOfTick (menuTick T m (update X T rand currentTime s))) := by
  unfold gameUpdateTick menuTick
  dsimp only
  rw [hm]

/-- A tick with no menu open and a level active after `GameLoop::update`: the keyboard
input, the mouse input and the projectile loop; the null-level path is not taken. -/
theorem gameUpdateTick_game (X : Ext) (T : TickExt) (rand : Nat → ℚ) (currentTime : Nat)
    (s : Session) (hm : (update X T rand currentTime s).menus = [])
    (hl : (update X T rand currentTime s).activeLevel.isSome = true) :
    gameUpdateTick X T rand currentTime s =
      match processKeyboardInput X T (update X T rand currentTime s) with
      | none => TickOutcome.exited
      | some s2 =>
        TickOutcome.ok (endOfTick
          { processMouseInput X T s2 with
            projectiles := floorLoop T s.deltaTime 0 (processMouseInput X T s2).projectiles
            trace := (processMouseInput X T s2).trace ++
              (floorLoopTicked T s.deltaTime 0 (processMouseInput X T s2).projectiles).map
                TickEvent.projectileOnGameTick }) := by
  unfold gameUpdateTick
  dsimp only
  rw [hm]
  dsimp only
  cases hk : processKeyboardInput X T (update X T rand currentTime s) with
  | none => rfl
  | some s2 =>
    dsimp only
    obtain ⟨_, k2, _⟩ := processKeyboardInput_frame X T _ s2 hk
    obtain ⟨_, m2, _⟩ := processMouseInput_frame X T s2
    have hsome : (processMouseInput X T s2).activeLevel.isSome = true := by
      rw [m2, k2]; exact hl
    cases ha : (processMouseInput X T s2).activeLevel with
    | none => rw [ha] at hsome; simp at hsome
    | some l2 => rfl

/-- One tick keeps the invariant of the menu stack and the active level, and does not
take the null-level path. -/
theorem gameUpdateTick_menuInvariant (X : Ext) (T : TickExt) (rand : Nat → ℚ)
    (currentTime : Nat) (s : Session) (hK : menuInvariant s) :
    gameUpdateTick X T rand currentTime s ≠ TickOutcome.nullLevel ∧
    ∀ s2 : Session, gameUpdateTick X T rand currentTime s = TickOutcome.ok s2 →
      menuInvariant s2 := by
  obtain ⟨hiff, hlast⟩ := update_menus X T rand currentTime s hK
  cases hm : (update X T rand currentTime s).menus with
  | nil =>
    have hl := hiff.mpr hm
    rw [gameUpdateTick_game X T rand currentTime s hm hl]
    cases hk : processKeyboardInput X T (update X T rand currentTime s) with
    | none => exact ⟨by simp, fun s2 h => by cases h⟩
    | some sk =>
      dsimp only
      refine ⟨by simp, fun s2 h => ?_⟩
      injection h with h
      obtain ⟨_, k2, k3, _⟩ := processKeyboardInput_frame X T _ sk hk
      obtain ⟨_, m2, m3, _⟩ := processMouseInput_frame X T sk
      rw [← h]
      refine ⟨fun _ => ?_, fun hne => ?_⟩
      · show (processMouseInput X T sk).activeLevel.isSome = true
        rw [m2, k2]; exact hl
      · exfalso
        apply hne
        show (processMouseInput X T sk).menus = []
        rw [m3, k3]; exact hm
  | cons m rest =>
    rw [gameUpdateTick_menu X T rand currentTime s m rest hm]
    refine ⟨by simp, fun s2 h => ?_⟩
    injection h with h
    have hlast2 := menuTick_menus T m rest _ hm (hlast (by rw [hm]; simp))
    rw [← h]
    refine ⟨fun he => ?_, fun _ => hlast2⟩
    exfalso
    have he2 : (menuTick T m (update X T rand currentTime s)).menus = [] := he
    rw [he2] at hlast2
    simp at hlast2

/-- A run of ticks from a session that satisfies the invariant never takes the null-level
path, and the session it leaves satisfies the invariant. -/
theorem runTicks_menuInvariant (X : Ext) (T : TickExt) (rand : Nat → ℚ)
    (inputs : List TickInput) :
    ∀ s : Session, menuInvariant s →
      runTicks X T rand inputs s ≠ TickOutcome.nullLevel ∧
      ∀ s2 : Session, runTicks X T rand inputs s = TickOutcome.ok s2 → menuInvariant s2 := by
  induction inputs with
  | nil =>
    intro s hK
    refine ⟨by simp [runTicks], fun s2 h => ?_⟩
    simp only [runTicks] at h
    injection h with h
    rw [← h]; exact hK
  | cons i rest ih =>
    intro s hK
    have hK2 : menuInvariant (s.withInput i) := hK
    obtain ⟨t1, t2⟩ := gameUpdateTick_menuInvariant X T rand i.currentTime _ hK2
    cases ho : gameUpdateTick X T rand i.currentTime (s.withInput i) with
    | ok s1 =>
      simp only [runTicks, ho]
      exact ih s1 (t2 s1 ho)
    | exited =>
      simp only [runTicks, ho]
      exact ⟨by simp, fun s2 h => by cases h⟩
    | nullLevel => exact absurd ho t1


/-- A tick from a session that satisfies the invariant returns, unless the key `=` is
down. -/
theorem gameUpdateTick_returns (X : Ext) (T : TickExt) (rand : Nat → ℚ) (currentTime : Nat)
    (s : Session) (hK : menuInvariant s) (hkey : s.keyManager.isKeyDown '=' = false) :
    ∃ s2 : Session, gameUpdateTick X T rand currentTime s = TickOutcome.ok s2 := by
  obtain ⟨hiff, _⟩ := update_menus X T rand currentTime s hK
  cases hm : (update X T rand currentTime s).menus with
  | nil =>
    rw [gameUpdateTick_game X T rand currentTime s hm (hiff.mpr hm)]
    obtain ⟨sk, hk⟩ := processKeyboardInput_some X T (update X T rand currentTime s)
      (by rw [(update_frame X T rand currentTime s).2.2.2.1]; exact hkey)
    rw [hk]
    exact ⟨_, rfl⟩
  | cons m rest =>
    rw [gameUpdateTick_menu X T rand currentTime s m rest hm]
    exact ⟨_, rfl⟩

/-- A run of ticks from a session that satisfies the invariant returns, when no tick finds
the key `=` down. -/
theorem runTicks_returns (X : Ext) (T : TickExt) (rand : Nat → ℚ) (inputs : List TickInput) :
    ∀ s : Session, menuInvariant s →
      (∀ i ∈ inputs, i.keyManager.isKeyDown '=' = false) →
      ∃ s2 : Session, runTicks X T rand inputs s = TickOutcome.ok s2 := by
  induction inputs with
  | nil => intro s _ _; exact ⟨s, rfl⟩
  | cons i rest ih =>
    intro s hK hall
    have hK2 : menuInvariant (s.withInput i) := hK
    obtain ⟨s1, h1⟩ := gameUpdateTick_returns X T rand i.currentTime (s.withInput i) hK2
      (hall i (List.mem_cons_self _ _))
    simp only [runTicks, h1]
    exact ih s1 ((gameUpdateTick_menuInvariant X T rand i.currentTime _ hK2).2 s1 h1)
      (fun j hj => hall j (List.mem_cons_of_mem _ hj))

/-! ## Theorems: the active level and the menu stack -/

/-- The menu branch for a menu other than the main menu leaves the trace, the level, the
player and the projectiles alone. -/
theorem menuTick_other (T : TickExt) (m : Menu) (s : Session)
    (hk : m.kind ≠ MenuKind.MainMenu) :
    (menuTick T m s).trace = s.trace ∧ (menuTick T m s).activeLevel = s.activeLevel ∧
    (menuTick T m s).player = s.player ∧ (menuTick T m s).projectiles = s.projectiles := by
  unfold menuTick
  rcases menuUpdate_other T m s hk with h | h
  · rw [h]
    exact ⟨rfl, rfl, rfl, rfl⟩
  · rw [h]
    dsimp only
    split_ifs <;> exact ⟨rfl, rfl, rfl, rfl⟩

/-- C25. Active-level / menu-stack invariant. In every run of ticks of gameUpdateTick from
the session after start-up (main menu on the stack, no active level), whatever the key and
mouse state and the clock of each tick: no tick takes the path on which the render code
dereferences a null activeLevel; the run returns when no tick finds the key `=`, on which
processKeyboardInput exits, down; and in the session that the run leaves, with any input of
the next tick, after GameLoop::update returns a level is active exactly when the menu
stack is empty, and that tick does not take the null-level path either. In every session,
a dead player with an active level makes GameLoop::update stop after its first part: the
level is dropped, the main menu and then the game-over menu are pushed, and the level
update, the player update and the collision pass do not run; the tick goes on in the menu
branch and leaves the trace, without an enemy tick or a collision pass, as it was. -/
theorem C25_level_menu_invariant (X : Ext) (T : TickExt) (rand : Nat → ℚ)
    (inputs : List TickInput) :
    runTicks X T rand inputs initialSession ≠ TickOutcome.nullLevel ∧
    ((∀ i ∈ inputs, i.keyManager.isKeyDown '=' = false) →
      ∃ s : Session, runTicks X T rand inputs initialSession = TickOutcome.ok s) ∧
    (∀ s : Session, runTicks X T rand inputs initialSession = TickOutcome.ok s →
      ∀ i : TickInput,
        ((update X T rand i.currentTime (s.withInput i)).activeLevel.isSome = true ↔
          (update X T rand i.currentTime (s.withInput i)).menus = []) ∧
        gameUpdateTick X T rand i.currentTime (s.withInput i) ≠ TickOutcome.nullLevel) ∧
    (∀ (s : Session) (currentTime : Nat),
      X.isDead s.player.toEntity = true → s.activeLevel.isSome = true →
        update X T rand currentTime s = updateHead X currentTime s ∧
        (update X T rand currentTime s).activeLevel = none ∧
        (update X T rand currentTime s).menus =
          ⟨MenuKind.GameOverMenu, false⟩ :: ⟨MenuKind.MainMenu, false⟩ :: s.menus ∧
        (update X T rand currentTime s).trace = s.trace ∧
        (update X T rand currentTime s).player = s.player ∧
        (update X T rand currentTime s).projectiles = s.projectiles ∧
        ∃ s2 : Session,
          gameUpdateTick X T rand currentTime s = TickOutcome.ok s2 ∧
          s2.trace = s.trace ∧ s2.activeLevel = none) := by
  have hinit : menuInvariant initialSession := by
    unfold menuInvariant
    exact ⟨fun h => (by cases h), fun _ => rfl⟩
  obtain ⟨r1, r2⟩ := runTicks_menuInvariant X T rand inputs initialSession hinit
  refine ⟨r1, runTicks_returns X T rand inputs initialSession hinit, ?_, ?_⟩
  · intro s hs i
    have hK : menuInvariant (s.withInput i) := r2 s hs
    exact ⟨(update_menus X T rand i.currentTime _ hK).1,
      (gameUpdateTick_menuInvariant X T rand i.currentTime _ hK).1⟩
  · intro s currentTime hdead hlevel
    obtain ⟨e1, e2⟩ := (updateHead_level X currentTime s).1 ⟨hdead, hlevel⟩
    obtain ⟨f1, f2, _, _, _, _, _, f8⟩ := updateHead_frame X currentTime s
    have hu : update X T rand currentTime s = updateHead X currentTime s := by
      rw [update_eq_head, e1]
    rw [hu]
    refine ⟨rfl, e1, e2, f8, f1, f2, ?_⟩
    have hm : (update X T rand currentTime s).menus =
        ⟨MenuKind.GameOverMenu, false⟩ :: ⟨MenuKind.MainMenu, false⟩ :: s.menus := by
      rw [hu]; exact e2
    rw [gameUpdateTick_menu X T rand currentTime s _ _ hm, hu]
    obtain ⟨g1, g2, _⟩ := menuTick_other T ⟨MenuKind.GameOverMenu, false⟩
      (updateHead X currentTime s) (by simp)
    exact ⟨_, rfl, g1.trans f8, g2.trans e1⟩

/-- Witness of C25: the run of one tick in which the button that starts the desert level
is clicked. The tick returns with the desert level active and the main menu still on the
stack; after the call of GameLoop::update of the next tick, at time 32 ms with the button
released, the level is active and the stack is empty. -/
theorem C25_level_menu_invariant_witness :
    ∃ s : Session,
      runTicks (specExt 0 1) (specTickExt 0) (fun _ => 1)
        [inputAt 16 MouseState.MOUSE_JUST_PRESSED 10 10] initialSession = TickOutcome.ok s ∧
      s.activeLevel.isSome = true ∧ s.menus = [⟨MenuKind.MainMenu, false⟩] ∧
      ((update (specExt 0 1) (specTickExt 0) (fun _ => 1) 32
          (s.withInput (inputAt 32 MouseState.MOUSE_RELEASED 10 10))).activeLevel.isSome = true ↔
        (update (specExt 0 1) (specTickExt 0) (fun _ => 1) 32
          (s.withInput (inputAt 32 MouseState.MOUSE_RELEASED 10 10))).menus = []) :=
  ⟨_, rfl, rfl, rfl,
    ((C25_level_menu_invariant (specExt 0 1) (specTickExt 0) (fun _ => 1)
      [inputAt 16 MouseState.MOUSE_JUST_PRESSED 10 10]).2.2.1 _ rfl
      (inputAt 32 MouseState.MOUSE_RELEASED 10 10)).1⟩


/-! ## Theorems: shots and ammunition -/

/-- The mouse input when it fires (button held, lock free, ammunition left): one projectile,
built by the constructor with size 0.029 and then accelerated, is appended; one round is
taken; one shot is counted; the lock is set. -/
theorem processMouseInput_fire (X : Ext) (T : TickExt) (s : Session)
    (h1 : s.mouseManager.leftMouseButtonState = MouseState.MOUSE_PRESSED)
    (h2 : s.leftClickLock = false) (h3 : s.player.ammoCount > 0) :
    (∃ (pos acc : Vec3),
      (processMouseInput X T s).projectiles =
        s.projectiles ++ [T.projectileAccel (T.newProjectile pos ⟨0, 0, 0⟩ (29 / 1000)) acc]) ∧
    (processMouseInput X T s).player.ammoCount = s.player.ammoCount - 1 ∧
    (processMouseInput X T s).eventStarts = s.eventStarts + 1 ∧
    (processMouseInput X T s).leftClickLock = true := by
  have c1 : s.mouseManager.leftMouseButtonState = MouseState.MOUSE_PRESSED ∧
      s.leftClickLock = false := ⟨h1, h2⟩
  unfold processMouseInput
  dsimp only
  rw [if_neg (not_not.mpr h1), if_pos c1, if_pos h3]
  exact ⟨⟨_, _, rfl⟩, rfl, rfl, rfl⟩

/-- The mouse input when it does not fire: projectiles, ammunition and the count of shots
are as before. -/
theorem processMouseInput_hold (X : Ext) (T : TickExt) (s : Session)
    (h : ¬ (s.mouseManager.leftMouseButtonState = MouseState.MOUSE_PRESSED ∧
      s.leftClickLock = false ∧ s.player.ammoCount > 0)) :
    (processMouseInput X T s).projectiles = s.projectiles ∧
    (processMouseInput X T s).player.ammoCount = s.player.ammoCount ∧
    (processMouseInput X T s).eventStarts = s.eventStarts := by
  unfold processMouseInput
  dsimp only
  by_cases c1 : s.mouseManager.leftMouseButtonState = MouseState.MOUSE_PRESSED ∧
      s.leftClickLock = false
  · have c2 : ¬ s.player.ammoCount > 0 := fun c => h ⟨c1.1, c1.2, c⟩
    simp only [c1, c2, and_self, if_true, ne_eq, not_true_eq_false, if_false]
  · rw [if_neg c1]
    split_ifs <;> exact ⟨rfl, rfl, rfl⟩

/-- The click lock after the mouse input is set exactly when the left button is in the
state MOUSE_PRESSED. -/
theorem processMouseInput_lock (X : Ext) (T : TickExt) (s : Session) :
    (s.mouseManager.leftMouseButtonState = MouseState.MOUSE_PRESSED →
      (processMouseInput X T s).leftClickLock = true) ∧
    (s.mouseManager.leftMouseButtonState ≠ MouseState.MOUSE_PRESSED →
      (processMouseInput X T s).leftClickLock = false) := by
  unfold processMouseInput
  dsimp only
  refine ⟨fun h => ?_, fun h => ?_⟩
  · rw [if_neg (by simp [h])]
    by_cases c : s.leftClickLock = false
    · rw [if_pos ⟨h, c⟩]
      split_ifs <;> rfl
    · rw [if_neg (fun x => c x.2)]
      simpa using c
  · rw [if_pos h]

/-- The collision pass keeps the ammunition count from becoming negative, when
`hurtPlayer` does. -/
theorem collisionCheck_ammo (X : Ext) (rand : Nat → ℚ) (g : GameLoop)
    (hhurt : ∀ (p : Player) (n : Int), 0 ≤ p.ammoCount → 0 ≤ (X.hurtPlayer p n).ammoCount)
    (h0 : 0 ≤ g.player.ammoCount) : 0 ≤ (collisionCheck X rand g).player.ammoCount := by
  obtain ⟨m, hm⟩ := foldl_contactOne_player X g.enemies g
  have hk := hurtTimes_keeps X (fun a b => 0 ≤ a.ammoCount → 0 ≤ b.ammoCount)
    (fun _ h => h) (fun a b c hab hbc h => hbc (hab h)) (fun q h => hhurt q 20 h) m g.player h0
  have hc : 0 ≤ (contactStep X g).player.ammoCount := by
    show 0 ≤ (g.enemies.foldl (contactOne X) g).player.ammoCount
    rw [hm]; exact hk
  unfold collisionCheck
  rw [deathSweep_eq]
  show 0 ≤ (rewardMany rand _ _ (projectileStep X (contactStep X g)).player).ammoCount
  rw [(rewardMany_score rand _ _ _).2.1]
  have hp : (projectileStep X (contactStep X g)).player = (contactStep X g).player :=
    (projectileLoop_frame X 0 _).1
  rw [hp]
  omega

/-- The method `GameLoop::update` keeps the ammunition count from becoming negative, when
`hurtPlayer` and `Player::update` do. -/
theorem update_ammo (X : Ext) (T : TickExt) (rand : Nat → ℚ) (currentTime : Nat) (s : Session)
    (hhurt : ∀ (p : Player) (n : Int), 0 ≤ p.ammoCount → 0 ≤ (X.hurtPlayer p n).ammoCount)
    (hupd : ∀ (p : Player) (b : AABB) (dt : ℚ),
      0 ≤ p.ammoCount → 0 ≤ (T.playerUpdate p b dt).ammoCount)
    (h0 : 0 ≤ s.player.ammoCount) : 0 ≤ (update X T rand currentTime s).player.ammoCount := by
  obtain ⟨f1, _⟩ := updateHead_frame X currentTime s
  rw [update_eq_head]
  cases hl : (updateHead X currentTime s).activeLevel with
  | none => dsimp only; rw [f1]; exact h0
  | some lvl =>
    dsimp only
    obtain ⟨_, _, _, b4, _⟩ := levelUpdate_frame X T rand lvl
      (updateHead X currentTime s) (updateHead X currentTime s).deltaTime
    unfold Session.collisionCheck
    dsimp only
    split
    · dsimp only
      apply hupd
      rw [b4, f1]; exact h0
    · dsimp only
      apply collisionCheck_ammo X rand _ hhurt
      dsimp only
      apply hupd
      rw [b4, f1]; exact h0

/-- The menu branch keeps the ammunition count from becoming negative, when the reset of
the player does not leave a negative count. -/
theorem menuTick_ammo (T : TickExt) (m : Menu) (s : Session)
    (hreset : ∀ p : Player, 0 ≤ (T.playerReset p).ammoCount)
    (h0 : 0 ≤ s.player.ammoCount) : 0 ≤ (menuTick T m s).player.ammoCount := by
  have hsl : ∀ (k : LevelKind) (s1 : Session), 0 ≤ s1.player.ammoCount →
      0 ≤ (startLevel T k s1).player.ammoCount := by
    intro k s1 h
    rcases (startLevel_frame T k s1).2.2.2.2 with e | e
    · rw [e]; exact h
    · rw [e]; exact hreset _
  have h1 : (menuTick T m s).player = (Menu.update T m s).1.player := by
    unfold menuTick
    split_ifs <;> rfl
  rw [h1]
  by_cases hk : m.kind = MenuKind.MainMenu
  · unfold Menu.update
    rw [hk]
    dsimp only
    split_ifs <;>
      first
      | exact h0
      | exact hsl _ _ h0
      | exact hsl _ _ (hsl _ _ h0)
  · rcases menuUpdate_other T m s hk with h | h <;> (rw [h]; exact h0)

/-- The keyboard input leaves the ammunition count alone. -/
theorem processKeyboardInput_ammo (X : Ext) (T : TickExt) (s s2 : Session)
    (h : processKeyboardInput X T s = some s2) :
    s2.player.ammoCount = s.player.ammoCount := by
  have hexit : s.keyManager.isKeyDown '=' = false := by
    by_contra hq
    have hq2 : s.keyManager.isKeyDown '=' = true := by simpa using hq
    unfold processKeyboardInput at h
    dsimp only at h
    rw [if_pos hq2] at h
    cases h
  obtain ⟨p4, ⟨_, ha, _⟩, _, hs⟩ := processKeyboardInput_shape X T s hexit
  rw [hs] at h
  injection h with h
  rw [← h]
  show (killKey _ (useHealingItem _ _ p4)).ammoCount = _
  rw [(killKey_frame _ _).2.1, ← ha]
  unfold useHealingItem
  split_ifs <;> rfl

/-- One tick keeps the ammunition count from becoming negative, when `hurtPlayer`,
`Player::update` and `Player::reset` do. -/
theorem gameUpdateTick_ammo (X : Ext) (T : TickExt) (rand : Nat → ℚ) (currentTime : Nat)
    (s s2 : Session)
    (hhurt : ∀ (p : Player) (n : Int), 0 ≤ p.ammoCount → 0 ≤ (X.hurtPlayer p n).ammoCount)
    (hupd : ∀ (p : Player) (b : AABB) (dt : ℚ),
      0 ≤ p.ammoCount → 0 ≤ (T.playerUpdate p b dt).ammoCount)
    (hreset : ∀ p : Player, 0 ≤ (T.playerReset p).ammoCount)
    (h0 : 0 ≤ s.player.ammoCount)
    (hr : gameUpdateTick X T rand currentTime s = TickOutcome.ok s2) :
    0 ≤ s2.player.ammoCount := by
  have hu := update_ammo X T rand currentTime s hhurt hupd h0
  unfold gameUpdateTick at hr
  dsimp only at hr
  cases hm : (update X T rand currentTime s).menus with
  | cons m rest =>
    rw [hm] at hr
    dsimp only at hr
    injection hr with hr
    rw [← hr]
    exact menuTick_ammo T m _ hreset hu
  | nil =>
    rw [hm] at hr
    dsimp only at hr
    cases hk : processKeyboardInput X T (update X T rand currentTime s) with
    | none => rw [hk] at hr; cases hr
    | some sk =>
      rw [hk] at hr
      dsimp only at hr
      have hka := processKeyboardInput_ammo X T _ sk hk
      have hma : 0 ≤ (processMouseInput X T sk).player.ammoCount := by
        by_cases c : sk.mouseManager.leftMouseButtonState = MouseState.MOUSE_PRESSED ∧
            sk.leftClickLock = false ∧ sk.player.ammoCount > 0
        · rw [(processMouseInput_fire X T sk c.1 c.2.1 c.2.2).2.1]
          have := c.2.2
          omega
        · rw [(processMouseInput_hold X T sk c).2.1, hka]
          exact hu
      cases ha : (processMouseInput X T sk).activeLevel with
      | none => rw [ha] at hr; cases hr
      | some l2 =>
        rw [ha] at hr
        dsimp only at hr
        injection hr with hr
        rw [← hr]
        exact hma

/-- C26. Ammo accounting. When processMouseInput fires (left button in the state
MOUSE_PRESSED, click lock free, ammoCount > 0) it appends exactly one projectile and takes
exactly one round; in every other case, so whenever ammoCount is not positive, it appends
nothing and leaves ammoCount as it is, at 0 when it is 0. The death sweep adds 5 per dead
enemy. With hurtPlayer, Player::update and Player::reset not producing a negative count,
every tick of gameUpdateTick that returns, and every run of ticks, keeps ammoCount >= 0. -/
theorem C26_ammo_accounting (X : Ext) (T : TickExt) (rand : Nat → ℚ) (s : Session) :
    (s.mouseManager.leftMouseButtonState = MouseState.MOUSE_PRESSED →
      s.leftClickLock = false → s.player.ammoCount > 0 →
      (∃ p : Projectile, (processMouseInput X T s).projectiles = s.projectiles ++ [p]) ∧
      (processMouseInput X T s).player.ammoCount = s.player.ammoCount - 1) ∧
    (¬ (s.mouseManager.leftMouseButtonState = MouseState.MOUSE_PRESSED ∧
        s.leftClickLock = false ∧ s.player.ammoCount > 0) →
      (processMouseInput X T s).projectiles = s.projectiles ∧
      (processMouseInput X T s).player.ammoCount = s.player.ammoCount) ∧
    (s.player.ammoCount = 0 →
      (processMouseInput X T s).projectiles = s.projectiles ∧
      (processMouseInput X T s).player.ammoCount = 0) ∧
    (∀ g : GameLoop,
      (deathSweep X rand g).player.ammoCount =
        g.player.ammoCount + 5 * (deadCount X g.enemies : Int)) ∧
    ((∀ (p : Player) (n : Int), 0 ≤ p.ammoCount → 0 ≤ (X.hurtPlayer p n).ammoCount) →
      (∀ (p : Player) (b : AABB) (dt : ℚ),
        0 ≤ p.ammoCount → 0 ≤ (T.playerUpdate p b dt).ammoCount) →
      (∀ p : Player, 0 ≤ (T.playerReset p).ammoCount) →
      0 ≤ s.player.ammoCount →
      (0 ≤ (processMouseInput X T s).player.ammoCount) ∧
      (∀ (currentTime : Nat) (s2 : Session),
        gameUpdateTick X T rand currentTime s = TickOutcome.ok s2 → 0 ≤ s2.player.ammoCount) ∧
      (∀ (inputs : List TickInput) (s2 : Session),
        runTicks X T rand inputs s = TickOutcome.ok s2 → 0 ≤ s2.player.ammoCount)) := by
  refine ⟨?_, ?_, ?_, ?_, ?_⟩
  · intro h1 h2 h3
    obtain ⟨⟨pos, acc, hp⟩, ha, _⟩ := processMouseInput_fire X T s h1 h2 h3
    exact ⟨⟨_, hp⟩, ha⟩
  · intro h
    obtain ⟨a, b, _⟩ := processMouseInput_hold X T s h
    exact ⟨a, b⟩
  · intro h
    obtain ⟨a, b, _⟩ := processMouseInput_hold X T s (fun c => by have := c.2.2; omega)
    exact ⟨a, b.trans h⟩
  · intro g
    rw [deathSweep_eq]
    exact (rewardMany_score rand _ _ _).2.1
  · intro hhurt hupd hreset h0
    refine ⟨?_, ?_, ?_⟩
    · by_cases c : s.mouseManager.leftMouseButtonState = MouseState.MOUSE_PRESSED ∧
          s.leftClickLock = false ∧ s.player.ammoCount > 0
      · rw [(processMouseInput_fire X T s c.1 c.2.1 c.2.2).2.1]
        have := c.2.2
        omega
      · rw [(processMouseInput_hold X T s c).2.1]
        exact h0
    · intro currentTime s2 hr
      exact gameUpdateTick_ammo X T rand currentTime s s2 hhurt hupd hreset h0 hr
    · intro inputs
      induction inputs generalizing s with
      | nil =>
        intro s2 hr
        simp only [runTicks] at hr
        injection hr with hr
        rw [← hr]; exact h0
      | cons i rest ih =>
        intro s2 hr
        cases ho : gameUpdateTick X T rand i.currentTime (s.withInput i) with
        | ok s1 =>
          simp only [runTicks, ho] at hr
          exact ih s1
            (gameUpdateTick_ammo X T rand i.currentTime (s.withInput i) s1 hhurt hupd hreset
              h0 ho)
            s2 hr
        | exited => simp only [runTicks, ho] at hr; cases hr
        | nullLevel => simp only [runTicks, ho] at hr; cases hr

/-- Witness of C26: in the sample with the button held, the lock free and 10 rounds, the
mouse input appends one projectile and leaves 9 rounds; and the tick of the sample session
of the order of calls returns with a count that is not negative. -/
theorem C26_ammo_accounting_witness :
    (∃ p : Projectile,
      (processMouseInput (specExt 0 1) (specTickExt 0) fireSample).projectiles = [p]) ∧
    (processMouseInput (specExt 0 1) (specTickExt 0) fireSample).player.ammoCount = 9 ∧
    ∃ s2 : Session,
      gameUpdateTick (specExt 0 1) (specTickExt 0) (fun _ => 1) 16 orderSample =
        TickOutcome.ok s2 ∧
      0 ≤ s2.player.ammoCount := by
  obtain ⟨a, b⟩ := (C26_ammo_accounting (specExt 0 1) (specTickExt 0) (fun _ => 1)
    fireSample).1 rfl rfl (by decide)
  obtain ⟨s2, h1, _⟩ := orderSample_outcome
  exact ⟨a, b, s2, h1,
    ((C26_ammo_accounting (specExt 0 1) (specTickExt 0) (fun _ => 1) orderSample).2.2.2.2
      (fun _ _ h => h) (fun _ _ _ h => h) (fun _ => by show (0 : Int) ≤ 10; decide)
      (by decide)).2.1 16 s2 h1⟩


/-! ## Theorems: one shot per press -/

/-- The keyboard input leaves the count of shots alone. -/
theorem processKeyboardInput_events (X : Ext) (T : TickExt) (s s2 : Session)
    (h : processKeyboardInput X T s = some s2) : s2.eventStarts = s.eventStarts := by
  unfold processKeyboardInput at h
  dsimp only at h
  by_cases hq : s.keyManager.isKeyDown '=' = true
  · rw [if_pos hq] at h
    cases h
  · rw [if_neg hq] at h
    injection h with h
    rw [← h]

/-- One tick that finds the left button in the state MOUSE_PRESSED: either the count of
shots and the click lock are as before, or the lock is set afterwards and the count went
up by at most one, and by nothing when the lock was already set. -/
theorem gameUpdateTick_shots (X : Ext) (T : TickExt) (rand : Nat → ℚ) (currentTime : Nat)
    (s s2 : Session)
    (hp : s.mouseManager.leftMouseButtonState = MouseState.MOUSE_PRESSED)
    (hr : gameUpdateTick X T rand currentTime s = TickOutcome.ok s2) :
    (s2.eventStarts = s.eventStarts ∧ s2.leftClickLock = s.leftClickLock) ∨
    (s2.leftClickLock = true ∧ s.eventStarts ≤ s2.eventStarts ∧
      s2.eventStarts ≤ s.eventStarts + 1 ∧
      (s.leftClickLock = true → s2.eventStarts = s.eventStarts)) := by
  obtain ⟨u1, u2, _, _, u5, _, _⟩ := update_frame X T rand currentTime s
  unfold gameUpdateTick at hr
  dsimp only at hr
  cases hm : (update X T rand currentTime s).menus with
  | cons m rest =>
    rw [hm] at hr
    dsimp only at hr
    injection hr with hr
    obtain ⟨a, b⟩ := menuTick_frame T m (update X T rand currentTime s)
    left
    rw [← hr]
    exact ⟨b.trans u2, a.trans u1⟩
  | nil =>
    rw [hm] at hr
    dsimp only at hr
    cases hk : processKeyboardInput X T (update X T rand currentTime s) with
    | none => rw [hk] at hr; cases hr
    | some sk =>
      rw [hk] at hr
      dsimp only at hr
      obtain ⟨_, _, _, _, k5, k6, _⟩ := processKeyboardInput_frame X T _ sk hk
      have ke := processKeyboardInput_events X T _ sk hk
      have hpk : sk.mouseManager.leftMouseButtonState = MouseState.MOUSE_PRESSED := by
        rw [k5, u5]; exact hp
      have hlock := (processMouseInput_lock X T sk).1 hpk
      cases ha : (processMouseInput X T sk).activeLevel with
      | none => rw [ha] at hr; cases hr
      | some l2 =>
        rw [ha] at hr
        dsimp only at hr
        injection hr with hr
        right
        rw [← hr]
        show (processMouseInput X T sk).leftClickLock = true ∧
          s.eventStarts ≤ (processMouseInput X T sk).eventStarts ∧
          (processMouseInput X T sk).eventStarts ≤ s.eventStarts + 1 ∧
          (s.leftClickLock = true → (processMouseInput X T sk).eventStarts = s.eventStarts)
        by_cases c : sk.mouseManager.leftMouseButtonState = MouseState.MOUSE_PRESSED ∧
            sk.leftClickLock = false ∧ sk.player.ammoCount > 0
        · obtain ⟨_, _, f3, _⟩ := processMouseInput_fire X T sk c.1 c.2.1 c.2.2
          rw [f3, ke, u2]
          refine ⟨hlock, by omega, by omega, fun hl => ?_⟩
          have := c.2.1
          rw [k6, u1, hl] at this
          cases this
        · obtain ⟨_, _, f3⟩ := processMouseInput_hold X T sk c
          rw [f3, ke, u2]
          exact ⟨hlock, le_refl _, by omega, fun _ => rfl⟩

/-- A run of ticks that all find the left button in the state MOUSE_PRESSED counts at most
one shot, and none when the click lock is set at the start. -/
theorem runTicks_shots (X : Ext) (T : TickExt) (rand : Nat → ℚ) (inputs : List TickInput) :
    ∀ s s2 : Session,
      (∀ i ∈ inputs, i.mouseManager.leftMouseButtonState = MouseState.MOUSE_PRESSED) →
      runTicks X T rand inputs s = TickOutcome.ok s2 →
      s.eventStarts ≤ s2.eventStarts ∧ s2.eventStarts ≤ s.eventStarts + 1 ∧
      (s.leftClickLock = true → s2.eventStarts = s.eventStarts) := by
  induction inputs with
  | nil =>
    intro s s2 _ hr
    simp only [runTicks] at hr
    injection hr with hr
    rw [← hr]
    exact ⟨le_refl _, by omega, fun _ => rfl⟩
  | cons i rest ih =>
    intro s s2 hall hr
    cases ho : gameUpdateTick X T rand i.currentTime (s.withInput i) with
    | ok s1 =>
      simp only [runTicks, ho] at hr
      obtain ⟨r1, r2, r3⟩ := ih s1 s2 (fun j hj => hall j (List.mem_cons_of_mem _ hj)) hr
      have hstep := gameUpdateTick_shots X T rand i.currentTime (s.withInput i) s1
        (hall i (List.mem_cons_self _ _)) ho
      have e1 : (s.withInput i).eventStarts = s.eventStarts := rfl
      have e2 : (s.withInput i).leftClickLock = s.leftClickLock := rfl
      rw [e1, e2] at hstep
      rcases hstep with ⟨a, b⟩ | ⟨a, b, c, d⟩
      · rw [a] at r1 r2 r3
        rw [b] at r3
        exact ⟨r1, r2, r3⟩
      · have h21 := r3 a
        refine ⟨by omega, by omega, fun hl => ?_⟩
        rw [h21]
        exact d hl
    | exited => simp only [runTicks, ho] at hr; cases hr
    | nullLevel => simp only [runTicks, ho] at hr; cases hr

/-- C27. One shot per press. The counter eventStarts counts the shots: a call of
processMouseInput either fires (the left button is in the state MOUSE_PRESSED, the click
lock is free and ammunition is left; one projectile is appended, one round taken, one shot
counted) or leaves projectiles, ammunition and the count as they are. Across any run of
consecutive ticks that all find the button in the state MOUSE_PRESSED at most one shot is
counted, and none when the lock is already set at the start: with the lock set and the
button held a call fires nothing and keeps the lock, and the lock is free after a call
exactly when that call finds a state other than MOUSE_PRESSED, so a further shot needs
such a call. A call that finds MOUSE_JUST_PRESSED, the state that the click callback
sets from MOUSE_RELEASED, fires nothing; MouseManager::update at the end of the tick
turns that state into MOUSE_PRESSED. -/
theorem C27_one_shot_per_press (X : Ext) (T : TickExt) (rand : Nat → ℚ) :
    (∀ (inputs : List TickInput) (s s2 : Session),
      (∀ i ∈ inputs, i.mouseManager.leftMouseButtonState = MouseState.MOUSE_PRESSED) →
      runTicks X T rand inputs s = TickOutcome.ok s2 →
      s.eventStarts ≤ s2.eventStarts ∧ s2.eventStarts ≤ s.eventStarts + 1 ∧
      (s.leftClickLock = true → s2.eventStarts = s.eventStarts)) ∧
    (∀ s : Session,
      (s.mouseManager.leftMouseButtonState = MouseState.MOUSE_PRESSED ∧
        s.leftClickLock = false ∧ s.player.ammoCount > 0 ∧
        (processMouseInput X T s).eventStarts = s.eventStarts + 1 ∧
        (∃ p : Projectile, (processMouseInput X T s).projectiles = s.projectiles ++ [p]) ∧
        (processMouseInput X T s).player.ammoCount = s.player.ammoCount - 1) ∨
      ((processMouseInput X T s).eventStarts = s.eventStarts ∧
        (processMouseInput X T s).projectiles = s.projectiles ∧
        (processMouseInput X T s).player.ammoCount = s.player.ammoCount)) ∧
    (∀ s : Session,
      s.mouseManager.leftMouseButtonState = MouseState.MOUSE_PRESSED →
      s.leftClickLock = true →
      (processMouseInput X T s).eventStarts = s.eventStarts ∧
      (processMouseInput X T s).projectiles = s.projectiles ∧
      (processMouseInput X T s).player.ammoCount = s.player.ammoCount ∧
      (processMouseInput X T s).leftClickLock = true) ∧
    (∀ s : Session,
      (processMouseInput X T s).leftClickLock = false ↔
        s.mouseManager.leftMouseButtonState ≠ MouseState.MOUSE_PRESSED) ∧
    (∀ s : Session,
      s.mouseManager.leftMouseButtonState = MouseState.MOUSE_JUST_PRESSED →
      (processMouseInput X T s).eventStarts = s.eventStarts ∧
      (processMouseInput X T s).projectiles = s.projectiles ∧
      (processMouseInput X T s).player.ammoCount = s.player.ammoCount ∧
      (endOfTick s).mouseManager.leftMouseButtonState = MouseState.MOUSE_PRESSED) ∧
    (∀ (m : MouseManager) (x y : Int),
      m.leftMouseButtonState = MouseState.MOUSE_RELEASED →
      (mouseManagerHandleMouseClick GLUT_LEFT_BUTTON GLUT_DOWN x y m).leftMouseButtonState =
        MouseState.MOUSE_JUST_PRESSED) := by
  refine ⟨fun inputs s s2 => runTicks_shots X T rand inputs s s2, ?_, ?_, ?_, ?_, ?_⟩
  · intro s
    by_cases c : s.mouseManager.leftMouseButtonState = MouseState.MOUSE_PRESSED ∧
        s.leftClickLock = false ∧ s.player.ammoCount > 0
    · obtain ⟨⟨pos, acc, hp⟩, f2, f3, _⟩ := processMouseInput_fire X T s c.1 c.2.1 c.2.2
      exact Or.inl ⟨c.1, c.2.1, c.2.2, f3, ⟨_, hp⟩, f2⟩
    · obtain ⟨f1, f2, f3⟩ := processMouseInput_hold X T s c
      exact Or.inr ⟨f3, f1, f2⟩
  · intro s hp hl
    obtain ⟨f1, f2, f3⟩ := processMouseInput_hold X T s (fun c => by
      have := c.2.1
      rw [hl] at this
      cases this)
    exact ⟨f3, f1, f2, (processMouseInput_lock X T s).1 hp⟩
  · intro s
    obtain ⟨l1, l2⟩ := processMouseInput_lock X T s
    constructor
    · intro h hp
      rw [l1 hp] at h
      cases h
    · exact l2
  · intro s hj
    obtain ⟨f1, f2, f3⟩ := processMouseInput_hold X T s (fun c => by
      have := c.1
      rw [hj] at this
      cases this)
    refine ⟨f3, f1, f2, ?_⟩
    unfold endOfTick MouseManager.update
    dsimp only
    rw [if_pos hj]
    split_ifs <;> rfl
  · intro m x y hm
    unfold mouseManagerHandleMouseClick
    simp [hm, GLUT_LEFT_BUTTON, GLUT_DOWN, GLUT_UP, GLUT_MIDDLE_BUTTON, GLUT_RIGHT_BUTTON]

/-- Witness of C27: from the sample with the button held, the lock free and 10 rounds, the
first call of processMouseInput fires; the second call, with the button still held, finds
the lock set and the count of shots stays at one. And a run: the tick that starts the
desert level from the session after start-up leaves a level active; the run of the next
two ticks, both with the button held, returns with at most one more shot counted. -/
theorem C27_one_shot_per_press_witness :
    (processMouseInput (specExt 0 1) (specTickExt 0) fireSample).eventStarts = 1 ∧
    (processMouseInput (specExt 0 1) (specTickExt 0)
      (processMouseInput (specExt 0 1) (specTickExt 0) fireSample)).eventStarts = 1 ∧
    ∃ s1 s2 : Session,
      runTicks (specExt 0 1) (specTickExt 0) (fun _ => 1)
        [inputAt 16 MouseState.MOUSE_JUST_PRESSED 10 10] initialSession = TickOutcome.ok s1 ∧
      s1.activeLevel.isSome = true ∧
      runTicks (specExt 0 1) (specTickExt 0) (fun _ => 1)
        [inputAt 32 MouseState.MOUSE_PRESSED 10 10, inputAt 48 MouseState.MOUSE_PRESSED 10 10]
        s1 = TickOutcome.ok s2 ∧
      s2.eventStarts ≤ s1.eventStarts + 1 := by
  have hinit : menuInvariant initialSession := ⟨fun h => (by cases h), fun _ => rfl⟩
  obtain ⟨s1, h1, hl⟩ : ∃ s1 : Session,
      runTicks (specExt 0 1) (specTickExt 0) (fun _ => 1)
        [inputAt 16 MouseState.MOUSE_JUST_PRESSED 10 10] initialSession = TickOutcome.ok s1 ∧
      s1.activeLevel.isSome = true := ⟨_, rfl, rfl⟩
  have hK1 := (runTicks_menuInvariant (specExt 0 1) (specTickExt 0) (fun _ => 1)
    [inputAt 16 MouseState.MOUSE_JUST_PRESSED 10 10] initialSession hinit).2 s1 h1
  have hall : ∀ i ∈ [inputAt 32 MouseState.MOUSE_PRESSED 10 10,
      inputAt 48 MouseState.MOUSE_PRESSED 10 10],
      i.keyManager.isKeyDown '=' = false ∧
      i.mouseManager.leftMouseButtonState = MouseState.MOUSE_PRESSED := by
    intro i hi
    simp only [List.mem_cons, List.mem_singleton, List.not_mem_nil, or_false] at hi
    rcases hi with rfl | rfl <;> exact ⟨rfl, rfl⟩
  obtain ⟨s2, h2⟩ := runTicks_returns (specExt 0 1) (specTickExt 0) (fun _ => 1)
    [inputAt 32 MouseState.MOUSE_PRESSED 10 10, inputAt 48 MouseState.MOUSE_PRESSED 10 10]
    s1 hK1 (fun i hi => (hall i hi).1)
  exact ⟨rfl,
    ((C27_one_shot_per_press (specExt 0 1) (specTickExt 0) (fun _ => 1)).2.2.1
      (processMouseInput (specExt 0 1) (specTickExt 0) fireSample) rfl rfl).1,
    s1, s2, h1, hl, h2,
    ((C27_one_shot_per_press (specExt 0 1) (specTickExt 0) (fun _ => 1)).1
      [inputAt 32 MouseState.MOUSE_PRESSED 10 10, inputAt 48 MouseState.MOUSE_PRESSED 10 10]
      s1 s2 (fun i hi => (hall i hi).2) h2).2.1⟩

/-! ## Theorems: the integer size of a projectile -/

/-- The projectile loop on a single projectile: it is ticked, and removed exactly when its
`y` after the tick is below `-size`. -/
theorem floorLoop_append_single (T : TickExt) (deltaTime : ℚ) (ps : List Projectile)
    (p : Projectile) :
    floorLoop T deltaTime 0 (ps ++ [p]) =
      floorLoop T deltaTime 0 ps ++
        (if (T.projectileOnGameTick p deltaTime).position.y <
            ((-(T.projectileOnGameTick p deltaTime).size : Int) : ℚ)
          then [] else [T.projectileOnGameTick p deltaTime]) := by
  rw [floorLoop_eq T deltaTime _ 0 _ rfl, floorLoop_eq T deltaTime _ 0 ps rfl]
  simp only [List.take_zero, List.drop_zero, List.nil_append, List.map_append,
    List.filter_append, List.map_cons, List.map_nil]
  congr 1
  by_cases h : (T.projectileOnGameTick p deltaTime).position.y <
      ((-(T.projectileOnGameTick p deltaTime).size : Int) : ℚ)
  · rw [if_pos h, List.filter_cons_of_neg (by
      unfold aboveFloor
      rw [decide_eq_true h]
      simp)]
    rfl
  · rw [if_neg h, List.filter_cons_of_pos (by
      unfold aboveFloor
      rw [decide_eq_false h]
      rfl)]
    rfl

/-- C24. Projectile radius is integer-valued. The capsule radius of GameLoop::collisionCheck
is the int field size of the projectile, so it is never 0.029, and the projectile loop of
gameUpdateTick removes a projectile exactly when its y after the tick is below minus that
field. The constructor
Projectile(camera, size) is taken to store its float argument in the int field (for a
non-negative float the conversion gives the floor), and Projectile::accel and
Projectile::onGameTick to keep the field. Then the projectile that processMouseInput
creates with size 0.029 has size 0: its hit-test radius is 0, also after its ticks, and
the projectile loop removes it exactly when its y after the tick is below 0. -/
theorem C24_integer_radius (X : Ext) (T : TickExt) (s : Session)
    (hctor : ∀ (pos rot : Vec3) (size : ℚ), 0 ≤ size →
      (T.newProjectile pos rot size).size = ⌊size⌋)
    (haccel : ∀ (p : Projectile) (a : Vec3), (T.projectileAccel p a).size = p.size)
    (htick : ∀ (p : Projectile) (dt : ℚ), (T.projectileOnGameTick p dt).size = p.size)
    (h1 : s.mouseManager.leftMouseButtonState = MouseState.MOUSE_PRESSED)
    (h2 : s.leftClickLock = false) (h3 : s.player.ammoCount > 0) :
    (∀ p : Projectile, (capsuleOf X p).radius = ((p.size : Int) : ℚ)) ∧
    (∀ p : Projectile, (capsuleOf X p).radius ≠ 29 / 1000) ∧
    (∀ (p : Projectile) (dt : ℚ),
      floorLoop T dt 0 [p] =
        if (T.projectileOnGameTick p dt).position.y <
            ((-(T.projectileOnGameTick p dt).size : Int) : ℚ)
        then [] else [T.projectileOnGameTick p dt]) ∧
    ∃ p : Projectile,
      (processMouseInput X T s).projectiles = s.projectiles ++ [p] ∧
      p.size = 0 ∧
      (capsuleOf X p).radius = 0 ∧
      ∀ dt : ℚ,
        (capsuleOf X (T.projectileOnGameTick p dt)).radius = 0 ∧
        floorLoop T dt 0 (s.projectiles ++ [p]) =
          floorLoop T dt 0 s.projectiles ++
            (if (T.projectileOnGameTick p dt).position.y < 0 then []
              else [T.projectileOnGameTick p dt]) := by
  refine ⟨fun p => rfl, fun p h => ?_, fun p dt => ?_, ?_⟩
  · have h1 : ((p.size : Int) : ℚ) = 29 / 1000 := h
    have h2 : ((1000 * p.size : Int) : ℚ) = ((29 : Int) : ℚ) := by
      push_cast
      rw [h1]
      norm_num
    have h3 : 1000 * p.size = 29 := by exact_mod_cast h2
    omega
  · have := floorLoop_append_single T dt [] p
    rw [List.nil_append] at this
    rw [this, floorLoop_eq T dt _ 0 [] rfl]
    rfl
  · obtain ⟨⟨pos, acc, hp⟩, _⟩ := processMouseInput_fire X T s h1 h2 h3
    have hfloor : ⌊(29 / 1000 : ℚ)⌋ = 0 := by
      rw [Int.floor_eq_zero_iff]
      constructor <;> norm_num
    have hsize : (T.projectileAccel (T.newProjectile pos ⟨0, 0, 0⟩ (29 / 1000)) acc).size = 0 := by
      rw [haccel, hctor _ _ _ (by norm_num), hfloor]
    refine ⟨_, hp, hsize, ?_, fun dt => ⟨?_, ?_⟩⟩
    · show (((T.projectileAccel (T.newProjectile pos ⟨0, 0, 0⟩ (29 / 1000)) acc).size : Int) : ℚ) = 0
      rw [hsize]
      rfl
    · show (((T.projectileOnGameTick _ dt).size : Int) : ℚ) = 0
      rw [htick, hsize]
      rfl
    · rw [floorLoop_append_single, htick, hsize]
      simp

/-- Witness of C24: in the sample with the button held, the lock free and 10 rounds, the
projectile that the mouse input appends has size 0 and hit-test radius 0. -/
theorem C24_integer_radius_witness :
    ∃ p : Projectile,
      (processMouseInput (specExt 0 1) (specTickExt 0) fireSample).projectiles = [p] ∧
      p.size = 0 ∧ (capsuleOf (specExt 0 1) p).radius = 0 := by
  obtain ⟨p, a, b, c, _⟩ := (C24_integer_radius (specExt 0 1) (specTickExt 0) fireSample
    (fun _ _ size h => Int.toNat_of_nonneg (Int.floor_nonneg.mpr h)) (fun _ _ => rfl)
    (fun p dt => by unfold specTickExt specProjectileOnGameTick; rfl) rfl rfl
    (by decide)).2.2.2
  exact ⟨p, a, b, c⟩


/-! ## Theorems: repeated hits on one enemy -/

/-- When hurt leaves the box of an enemy alone, hurting an enemy does not change the hits
of a projectile. -/
theorem hitsOf_hurtAt (X : Ext)
    (hbb : ∀ (e : Entity) (n : Int), (X.hurt e n).boundingBox = e.boundingBox)
    (i : Nat) (es : List Enemy) (q : Projectile) :
    hitsOf X (hurtAt X i es) q = hitsOf X es q := by
  unfold hitsOf hurtAt
  exact hitsFrom_modify X _ _ (fun e => hbb e.toEntity 20) es i 0

/-- One more call of `hurt(20)`, made first. -/
theorem hurtEnemyTimes_succ (X : Ext) (k : Nat) (e : Enemy) :
    hurtEnemyTimes X (k + 1) e =
      hurtEnemyTimes X k { e with toEntity := X.hurt e.toEntity 20 } := by
  simp [hurtEnemyTimes, Function.iterate_succ_apply]

/-- The health after `k` calls of `hurt(20)`, when a call takes its argument from the
health. -/
theorem hurtEnemyTimes_health (X : Ext)
    (hh : ∀ (e : Entity) (n : Int), (X.hurt e n).health = e.health - n) (k : Nat) :
    ∀ e : Enemy, (hurtEnemyTimes X k e).health = e.health - 20 * (k : Int) := by
  induction k with
  | zero => intro e; simp [hurtEnemyTimes]
  | succ k ih =>
    intro e
    rw [hurtEnemyTimes_succ, ih]
    show (X.hurt e.toEntity 20).health - 20 * (k : Int) = _
    rw [hh]
    push_cast
    ring

/-- The enemies after the list view of the projectile-enemy step: when hurt leaves the
boxes alone, each enemy has received one call of `hurt(20)` for every projectile whose hit
set against the enemies at the start is exactly that enemy. -/
theorem foldl_resolveOne_enemies (X : Ext)
    (hbb : ∀ (e : Entity) (n : Int), (X.hurt e n).boundingBox = e.boundingBox)
    (ps : List Projectile) (i : Nat) :
    ∀ acc : GameLoop,
      (ps.foldl (resolveOne X) acc).enemies[i]? =
        (acc.enemies[i]?).map (hurtEnemyTimes X (soleHitCount X acc.enemies ps i)) := by
  induction ps with
  | nil =>
    intro acc
    simp only [List.foldl_nil, soleHitCount, List.countP_nil]
    cases acc.enemies[i]? <;> rfl
  | cons p ps ih =>
    intro acc
    rw [List.foldl_cons, ih]
    by_cases h1 : (hitsOf X acc.enemies p).length = 1
    · obtain ⟨k, hk⟩ := List.length_eq_one.mp h1
      have hr : (resolveOne X acc p).enemies = hurtAt X k acc.enemies := by
        unfold resolveOne
        rw [if_pos h1, hk]
        rfl
      have hcount : soleHitCount X (hurtAt X k acc.enemies) ps i =
          soleHitCount X acc.enemies ps i := by
        unfold soleHitCount
        simp only [hitsOf_hurtAt X hbb]
      rw [hr, hcount]
      unfold hurtAt
      rw [List.getElem?_modify]
      have hc : soleHitCount X acc.enemies (p :: ps) i =
          soleHitCount X acc.enemies ps i + (if k = i then 1 else 0) := by
        unfold soleHitCount
        rw [List.countP_cons, hk]
        by_cases hki : k = i
        · simp [hki]
        · simp [hki]
      rw [hc]
      cases acc.enemies[i]? with
      | none => rfl
      | some e =>
        by_cases hki : k = i
        · simp only [hki, if_true, Option.map_eq_map, Option.map_some', hurtEnemyTimes_succ]
        · simp only [hki, if_false, Option.map_eq_map, Option.map_some', Nat.add_zero]
    · have hr : (resolveOne X acc p).enemies = acc.enemies := by
        unfold resolveOne
        rw [if_neg h1]
      have hc : soleHitCount X acc.enemies (p :: ps) i = soleHitCount X acc.enemies ps i := by
        unfold soleHitCount
        rw [List.countP_cons, if_neg, Nat.add_zero]
        intro hd
        have hd2 : hitsOf X acc.enemies p = [i] := by simpa using hd
        rw [hd2] at h1
        exact h1 rfl
      rw [hr, hc]

/-- One list-view iteration for a projectile whose hit set is the single enemy `i`: that
enemy is hurt and the projectile is not kept. -/
theorem resolveOne_hit (X : Ext) (acc : GameLoop) (p : Projectile) (i : Nat)
    (h : hitsOf X acc.enemies p = [i]) :
    resolveOne X acc p = { acc with enemies := hurtAt X i acc.enemies } := by
  unfold resolveOne
  rw [if_pos (by rw [h]; rfl), h]
  rfl

/-- C23. Hit tests ignore liveness and accumulated damage. The hit test reads only the box
of an enemy; with hurt leaving the box alone, the projectile-enemy step of
GameLoop::collisionCheck removes exactly the projectiles whose hit set against the enemies
at the start has one element, and each enemy receives one call of hurt(20) for every
projectile whose hit set is exactly that enemy, whatever its health is: when a call of
hurt takes its argument from the health, the total damage of an enemy is 20 times the
number of these projectiles. So if two projectiles each hit exactly the same single enemy,
both are removed, in the step and in the whole collision pass, and hurt(20) is applied to
that enemy twice. -/
theorem C23_repeated_hits (X : Ext) (rand : Nat → ℚ) (g : GameLoop)
    (hbb : ∀ (e : Entity) (n : Int), (X.hurt e n).boundingBox = e.boundingBox) :
    (projectileStep X g).projectiles =
      g.projectiles.filter (fun p => decide ((hitsOf X g.enemies p).length ≠ 1)) ∧
    (∀ i : Nat,
      (projectileStep X g).enemies[i]? =
        (g.enemies[i]?).map (hurtEnemyTimes X (soleHitCount X g.enemies g.projectiles i))) ∧
    ((∀ (e : Entity) (n : Int), (X.hurt e n).health = e.health - n) →
      ∀ (i : Nat) (e : Enemy), g.enemies[i]? = some e →
        ∃ e2 : Enemy, (projectileStep X g).enemies[i]? = some e2 ∧
          e2.health = e.health - 20 * (soleHitCount X g.enemies g.projectiles i : Int)) ∧
    (∀ (p1 p2 : Projectile) (i : Nat), g.projectiles = [p1, p2] →
      hitsOf X g.enemies p1 = [i] → hitsOf X g.enemies p2 = [i] →
      (projectileStep X g).projectiles = [] ∧
      (projectileStep X g).enemies = hurtAt X i (hurtAt X i g.enemies) ∧
      (collisionCheck X rand g).projectiles = []) := by
  have hproj : ∀ g2 : GameLoop, (projectileStep X g2).projectiles =
      g2.projectiles.filter (fun p => decide ((hitsOf X g2.enemies p).length ≠ 1)) := by
    intro g2
    rw [projectileStep_eq_resolveAll]
    unfold resolveAll
    rw [foldl_resolveOne_survivors, survivors_eq_filter X hbb]
    simp
  have hen : ∀ i : Nat, (projectileStep X g).enemies[i]? =
      (g.enemies[i]?).map (hurtEnemyTimes X (soleHitCount X g.enemies g.projectiles i)) := by
    intro i
    rw [projectileStep_eq_resolveAll]
    unfold resolveAll
    rw [foldl_resolveOne_enemies X hbb]
  refine ⟨hproj g, hen, ?_, ?_⟩
  · intro hh i e he
    refine ⟨_, by rw [hen i, he]; rfl, ?_⟩
    exact hurtEnemyTimes_health X hh _ e
  · intro p1 p2 i hps h1 h2
    have hfilter : ∀ g2 : GameLoop, g2.projectiles = g.projectiles → g2.enemies = g.enemies →
        (projectileStep X g2).projectiles = [] := by
      intro g2 e1 e2
      rw [hproj g2, e1, e2, hps]
      simp [h1, h2]
    refine ⟨hfilter g rfl rfl, ?_, ?_⟩
    · rw [projectileStep_eq_resolveAll]
      unfold resolveAll
      rw [hps]
      simp only [List.foldl_cons, List.foldl_nil]
      have h2b : hitsOf X (hurtAt X i g.enemies) p2 = [i] := by
        rw [hitsOf_hurtAt X hbb]; exact h2
      have r1 := resolveOne_hit X { g with projectiles := [] } p1 i h1
      rw [r1]
      exact congrArg GameLoop.enemies (resolveOne_hit X _ p2 i h2b)
    · rw [(collisionCheck_projectiles X rand g).1]
      obtain ⟨c1, c2, _⟩ := contactStep_frame X g
      exact hfilter _ c2 c1

/-- Witness of C23: one enemy of health 20 and two projectiles that both end their move
inside its box. Both projectiles are removed and the enemy, at health 0 after the first
hit, is at health -20 after the second. -/
theorem C23_repeated_hits_witness :
    (projectileStep (specExt 0 1) doubleHitSample).projectiles = [] ∧
    (projectileStep (specExt 0 1) doubleHitSample).enemies = [enemyWithHealth (-20)] := by
  have hhit : ∀ p ∈ doubleHitSample.projectiles,
      hitsOf (specExt 0 1) doubleHitSample.enemies p = [0] := by
    intro p hp
    simp only [doubleHitSample, List.mem_cons, List.mem_singleton, List.not_mem_nil,
      or_false] at hp
    rcases hp with rfl | rfl <;>
      (simp only [doubleHitSample, hitsOf, hitsFrom, capsuleOf, specExt,
        specBrokenIntersection, segmentMeetsBox, enemyWithHealth, enemyAt, entityAt, projectileAt]
       norm_num [abs_div, abs_neg])
  obtain ⟨a, b, _⟩ := (C23_repeated_hits (specExt 0 1) (fun _ => 1) doubleHitSample
    (fun _ _ => rfl)).2.2.2 _ _ 0 rfl
    (hhit _ (by simp [doubleHitSample])) (hhit _ (by simp [doubleHitSample]))
  refine ⟨a, ?_⟩
  rw [b]
  simp only [hurtAt, doubleHitSample, List.modify, List.modifyTailIdx, List.modifyHead,
    specExt, enemyWithHealth, enemyAt, entityAt]
  norm_num


/-! ## Theorems: the normalisation at distance zero -/

/-- C28 fails at d2 = 0. The normalisation of Enemy::onGameTick divides by zero exactly
when the enemy is horizontally at the position of the player, and nothing guards the call.
For an enemy in ATTACK at (0, 0, 0) and the player at the origin: d2 is 0, the
normalisation divides by zero, the state stays ATTACK, and accel is called, once, with the
vector built from inversesqrt(0). The input is reached from a spawn: an idle enemy at rest
at (0, 0, 0), as the spawn code leaves it at integer coordinates, goes to ATTACK in its
first tick and stays at (0, 0, 0), so its next tick is the call above. -/
theorem C28_normalise_divides_by_zero (X : Ext) (deltaTime : ℚ) (worldBounds : AABB) :
    (∀ (self : Enemy) (player : Player),
      normalizeDividesByZero (toPlayerOf self player) = true ↔
        (player.position.x = self.position.x ∧ player.position.z = self.position.z)) ∧
    distanceSquaredOf (enemyAt AIState.ATTACK zeroVec) (playerAt zeroVec) = 0 ∧
    normalizeDividesByZero (toPlayerOf (enemyAt AIState.ATTACK zeroVec) (playerAt zeroVec)) =
      true ∧
    ((enemyAt AIState.ATTACK zeroVec).onGameTick X (playerAt zeroVec) deltaTime
      worldBounds).state = AIState.ATTACK ∧
    (enemyAt AIState.ATTACK zeroVec).accelCalls X (playerAt zeroVec) deltaTime =
      [(zeroVec.scale (X.inversesqrt 0)).scale (3 * deltaTime)] ∧
    (enemyAt AIState.ATTACK zeroVec).onGameTick X (playerAt zeroVec) deltaTime worldBounds =
      updatePosition X
        { toEntity := X.accel (enemyAt AIState.ATTACK zeroVec).toEntity
            ((zeroVec.scale (X.inversesqrt 0)).scale (3 * deltaTime))
          state := AIState.ATTACK
          speedModifier := 1 } worldBounds ∧
    ((enemyAt AIState.IDLE zeroVec).onGameTick (specExt 0 1) (playerAt zeroVec) deltaTime
      forestBounds).state = AIState.ATTACK ∧
    ((enemyAt AIState.IDLE zeroVec).onGameTick (specExt 0 1) (playerAt zeroVec) deltaTime
      forestBounds).position = zeroVec ∧
    normalizeDividesByZero
      (toPlayerOf
        ((enemyAt AIState.IDLE zeroVec).onGameTick (specExt 0 1) (playerAt zeroVec) deltaTime
          forestBounds)
        (playerAt zeroVec)) = true ∧
    (((enemyAt AIState.IDLE zeroVec).onGameTick (specExt 0 1) (playerAt zeroVec) deltaTime
      forestBounds).accelCalls X (playerAt zeroVec) deltaTime).length = 1 := by
  have hd : distanceSquaredOf (enemyAt AIState.ATTACK zeroVec) (playerAt zeroVec) = 0 := by
    rw [distanceSquaredOf_eq]
    norm_num [enemyAt, entityAt, playerAt, zeroVec]
  have hv : toPlayerOf (enemyAt AIState.ATTACK zeroVec) (playerAt zeroVec) = zeroVec := by
    simp [toPlayerOf, Vec3.sub, enemyAt, entityAt, playerAt, zeroVec]
  have hn : normalize X (toPlayerOf (enemyAt AIState.ATTACK zeroVec) (playerAt zeroVec)) =
      zeroVec.scale (X.inversesqrt 0) := by
    rw [hv]
    unfold normalize
    simp [Vec3.dot, zeroVec]
  have hidle := onGameTick_idle (specExt 0 1) (enemyAt AIState.IDLE zeroVec) (playerAt zeroVec)
    deltaTime forestBounds rfl
  rw [if_pos (by
    rw [distanceSquaredOf_eq]
    norm_num [enemyAt, entityAt, playerAt, zeroVec])] at hidle
  have hpos : ((enemyAt AIState.IDLE zeroVec).onGameTick (specExt 0 1) (playerAt zeroVec)
      deltaTime forestBounds).position = zeroVec := by
    rw [hidle]
    simp only [updatePosition, specExt, specMove, specBoundsCheckPosition, enemyAt, entityAt,
      zeroVec, Vec3.add, Vec3.scale, forestBounds, clamp]
    norm_num
  have hstate : ((enemyAt AIState.IDLE zeroVec).onGameTick (specExt 0 1) (playerAt zeroVec)
      deltaTime forestBounds).state = AIState.ATTACK := by
    rw [hidle]; rfl
  refine ⟨?_, hd, ?_, ?_, ?_, ?_, hstate, hpos, ?_, ?_⟩
  · intro self player
    unfold normalizeDividesByZero
    rw [decide_eq_true_iff]
    show distanceSquaredOf self player = 0 ↔ _
    rw [distanceSquaredOf_eq]
    constructor
    · intro h
      have n1 := sq_nonneg (player.position.x - self.position.x)
      have n2 := sq_nonneg (player.position.z - self.position.z)
      have h1 : (player.position.x - self.position.x) ^ 2 = 0 := by linarith
      have h2 : (player.position.z - self.position.z) ^ 2 = 0 := by linarith
      have e1 := (pow_eq_zero_iff (two_ne_zero)).mp h1
      have e2 := (pow_eq_zero_iff (two_ne_zero)).mp h2
      exact ⟨by linarith, by linarith⟩
    · rintro ⟨h1, h2⟩
      rw [h1, h2]
      ring
  · unfold normalizeDividesByZero
    rw [decide_eq_true_iff]
    exact hd
  · rw [onGameTick_state, evalState_attack_state X _ _ _ _ rfl, hd]
    norm_num
  · show evalStateAccelCalls _ _ (normalize X _) deltaTime = _
    rw [hn]
    rfl
  · show updatePosition X (evalState X _ _ (normalize X _) deltaTime) worldBounds = _
    rw [evalState_attack X _ _ _ _ rfl, hn]
    have hd2 : (toPlayerOf (enemyAt AIState.ATTACK zeroVec) (playerAt zeroVec)).dot
        (toPlayerOf (enemyAt AIState.ATTACK zeroVec) (playerAt zeroVec)) = 0 := hd
    rw [hd2, if_neg (by norm_num)]
    rfl
  · unfold normalizeDividesByZero
    rw [decide_eq_true_iff]
    show distanceSquaredOf _ _ = 0
    rw [distanceSquaredOf_eq, hpos]
    norm_num [playerAt, entityAt, zeroVec]
  · unfold Enemy.accelCalls evalStateAccelCalls
    simp [hstate]

/-! ## Theorems: the stand-in for the capsule test -/

/-- One axis of the segment test. -/
theorem axis_bound (X e m d s : ℚ) (hX : |X| ≤ e) (hs : |s| ≤ 1) (hm : m = X - s * d) :
    |m| ≤ e + |d| := by
  rw [hm]
  calc |X - s * d| ≤ |X| + |s * d| := abs_sub _ _
    _ = |X| + |s| * |d| := by rw [abs_mul]
    _ ≤ e + 1 * |d| := add_le_add hX (mul_le_mul_of_nonneg_right hs (abs_nonneg d))
    _ = e + |d| := by rw [one_mul]

/-- One cross axis of the segment test. -/
theorem cross_bound (X1 X2 e1 e2 m1 m2 d1 d2 s : ℚ) (h1 : |X1| ≤ e1) (h2 : |X2| ≤ e2)
    (hm1 : m1 = X1 - s * d1) (hm2 : m2 = X2 - s * d2) :
    |m1 * d2 - m2 * d1| ≤ e1 * |d2| + e2 * |d1| := by
  have e : m1 * d2 - m2 * d1 = X1 * d2 - X2 * d1 := by rw [hm1, hm2]; ring
  rw [e]
  calc |X1 * d2 - X2 * d1| ≤ |X1 * d2| + |X2 * d1| := abs_sub _ _
    _ = |X1| * |d2| + |X2| * |d1| := by rw [abs_mul, abs_mul]
    _ ≤ e1 * |d2| + e2 * |d1| :=
      add_le_add (mul_le_mul_of_nonneg_right h1 (abs_nonneg _))
        (mul_le_mul_of_nonneg_right h2 (abs_nonneg _))

/-- The segment test hits whenever a point of the segment lies in the box. -/
theorem segmentMeetsBox_of_mem (b : AABB) (p q : Vec3) (t : ℚ) (h0 : 0 ≤ t) (h1 : t ≤ 1)
    (h : withinBounds b (p.add ((q.sub p).scale t))) : segmentMeetsBox b p q = true := by
  obtain ⟨a1, a2, a3, a4, a5, a6⟩ := h
  simp only [Vec3.add, Vec3.sub, Vec3.scale] at a1 a2 a3 a4 a5 a6
  have hs : |2 * t - 1| ≤ 1 := by rw [abs_le]; constructor <;> linarith
  have hX : |p.x + (q.x - p.x) * t - (b.xMin + b.xMax) / 2| ≤ (b.xMax - b.xMin) / 2 := by
    rw [abs_le]; constructor <;> linarith
  have hY : |p.y + (q.y - p.y) * t - (b.yMin + b.yMax) / 2| ≤ (b.yMax - b.yMin) / 2 := by
    rw [abs_le]; constructor <;> linarith
  have hZ : |p.z + (q.z - p.z) * t - (b.zMin + b.zMax) / 2| ≤ (b.zMax - b.zMin) / 2 := by
    rw [abs_le]; constructor <;> linarith
  have ax := axis_bound (p.x + (q.x - p.x) * t - (b.xMin + b.xMax) / 2)
    ((b.xMax - b.xMin) / 2) ((p.x + q.x) / 2 - (b.xMin + b.xMax) / 2)
    ((q.x - p.x) / 2) (2 * t - 1) hX hs (by ring)
  have ay := axis_bound (p.y + (q.y - p.y) * t - (b.yMin + b.yMax) / 2)
    ((b.yMax - b.yMin) / 2) ((p.y + q.y) / 2 - (b.yMin + b.yMax) / 2)
    ((q.y - p.y) / 2) (2 * t - 1) hY hs (by ring)
  have az := axis_bound (p.z + (q.z - p.z) * t - (b.zMin + b.zMax) / 2)
    ((b.zMax - b.zMin) / 2) ((p.z + q.z) / 2 - (b.zMin + b.zMax) / 2)
    ((q.z - p.z) / 2) (2 * t - 1) hZ hs (by ring)
  have cyz := cross_bound (p.y + (q.y - p.y) * t - (b.yMin + b.yMax) / 2)
    (p.z + (q.z - p.z) * t - (b.zMin + b.zMax) / 2)
    ((b.yMax - b.yMin) / 2) ((b.zMax - b.zMin) / 2)
    ((p.y + q.y) / 2 - (b.yMin + b.yMax) / 2) ((p.z + q.z) / 2 - (b.zMin + b.zMax) / 2)
    ((q.y - p.y) / 2) ((q.z - p.z) / 2) (2 * t - 1) hY hZ (by ring) (by ring)
  have czx := cross_bound (p.z + (q.z - p.z) * t - (b.zMin + b.zMax) / 2)
    (p.x + (q.x - p.x) * t - (b.xMin + b.xMax) / 2)
    ((b.zMax - b.zMin) / 2) ((b.xMax - b.xMin) / 2)
    ((p.z + q.z) / 2 - (b.zMin + b.zMax) / 2) ((p.x + q.x) / 2 - (b.xMin + b.xMax) / 2)
    ((q.z - p.z) / 2) ((q.x - p.x) / 2) (2 * t - 1) hZ hX (by ring) (by ring)
  have cxy := cross_bound (p.x + (q.x - p.x) * t - (b.xMin + b.xMax) / 2)
    (p.y + (q.y - p.y) * t - (b.yMin + b.yMax) / 2)
    ((b.xMax - b.xMin) / 2) ((b.yMax - b.yMin) / 2)
    ((p.x + q.x) / 2 - (b.xMin + b.xMax) / 2) ((p.y + q.y) / 2 - (b.yMin + b.yMax) / 2)
    ((q.x - p.x) / 2) ((q.y - p.y) / 2) (2 * t - 1) hX hY (by ring) (by ring)
  unfold segmentMeetsBox
  simp only [decide_eq_true_eq]
  exact ⟨ax, ay, az, cyz, le_trans czx (le_of_eq (add_comm _ _)), cxy⟩

/-- The stand-in for `brokenIntersection` hits whenever a point of the movement segment lies
in the box grown by the radius: so whenever the segment passes through the box, and
whenever it passes within the radius of the box centre. -/
theorem specBrokenIntersection_of_mem (b : AABB) (c : Capsule3D) (t : ℚ) (h0 : 0 ≤ t)
    (h1 : t ≤ 1)
    (h : withinBounds
      ⟨b.xMin - c.radius, b.yMin - c.radius, b.zMin - c.radius,
       b.xMax + c.radius, b.yMax + c.radius, b.zMax + c.radius⟩
      (c.point1.add ((c.point2.sub c.point1).scale t))) :
    specBrokenIntersection b c = true :=
  segmentMeetsBox_of_mem _ _ _ t h0 h1 h

end FPSGame
